import Mathlib

/-!
# nflratings.c : a shallow embedding

The development follows `src/nflratings.c`.

Conventions of the embedding.

* A `struct Team *` is a natural number (an address); the heap of team
  records is a function from addresses to records.  The `next` links of the
  two linked lists are the order of a Lean list (`teamlist` of addresses,
  `gamelist` of game records).
* A C `int` is an `Int`.  The point totals, which grow by a score at a time,
  are reduced to the range of a 32-bit `int` after every addition (`wrap32`).
  The tallies of games, which grow by one at a time, and the scores read from
  a line are taken to stay inside that range.
* A C `double` is a rational number and arithmetic on it is exact.  The two
  functions taken from `math.h`, `pow` and `sqrt`, are parameters of the
  solver.
-/

namespace NflRatings

/-! ## Data model -/

/-- The record `struct Team` (without the `next` link). -/
structure Team where
  name : List Char
  won : Int
  lost : Int
  tied : Int
  pf : Int
  pa : Int
  schedplace : Int
  hwon : Int
  hlost : Int
  htied : Int
  hpf : Int
  hpa : Int
  vwon : Int
  vlost : Int
  vtied : Int
  vpf : Int
  vpa : Int
  grate : ℚ
  rating : ℚ
  sched : ℚ
  deriving DecidableEq

/-- The record `struct Game` (without the `next` link); `visitor` and `home`
are addresses of team records. -/
structure Game where
  visitor : Nat
  home : Nat
  vscore : Int
  hscore : Int
  location : Int
  ratio : ℚ
  deriving DecidableEq

/-- The heap of team records. -/
abbrev Heap := Nat → Team

/-- The program state: the heap, the number of team records allocated so far,
and the two global lists. -/
structure State where
  teams : Heap
  nteams : Nat
  teamlist : List Nat
  gamelist : List Game

/-- The assignment `p->field = ...` on the heap: the record at address `p` is
replaced by `f` of it. -/
def modify (h : Heap) (p : Nat) (f : Team → Team) : Heap :=
  fun q => if q = p then f (h q) else h q

/-! ## adjPoints and gameRatio -/

/-- The function `adjPoints`: `score - score*score/400`. -/
def adjPoints (score : Int) : ℚ :=
  (score : ℚ) - ((score * score : Int) : ℚ) / 400

/-- The function `gameRatio`. -/
def gameRatio (g : Game) : ℚ :=
  let result : ℚ :=
    ((adjPoints g.vscore / 6) * (adjPoints g.vscore / 6) + 1) /
      ((adjPoints g.vscore / 6) * (adjPoints g.vscore / 6) +
        (adjPoints g.hscore / 6) * (adjPoints g.hscore / 6) + 2)
  let result : ℚ :=
    if g.vscore > g.hscore then result + 1
    else if g.vscore = g.hscore then result + 1 / 2
    else result
  result * (1 / 2)

/-! ## calcRatio -/

/-- The value a 32-bit `int` holds after an addition whose exact result is `x`:
`x` itself when it lies between -2^31 and 2^31 - 1, and otherwise `x` reduced
modulo 2^32 into that range (signed overflow, which C leaves undefined, is taken
to wrap around as two's-complement hardware does). -/
def wrap32 (x : Int) : Int :=
  (x + 2147483648) % 4294967296 - 2147483648

/-- The body of the loop of `calcRatio` on the team records, for one game. -/
def calcRatioGame (h : Heap) (g : Game) : Heap :=
  let h :=
    if g.vscore > g.hscore then
      let h := modify h g.visitor (fun t => { t with won := t.won + 1 })
      let h := modify h g.home (fun t => { t with lost := t.lost + 1 })
      if g.location = 1 then
        let h := modify h g.home (fun t => { t with hlost := t.hlost + 1 })
        modify h g.visitor (fun t => { t with vwon := t.vwon + 1 })
      else h
    else if g.vscore < g.hscore then
      let h := modify h g.visitor (fun t => { t with lost := t.lost + 1 })
      let h := modify h g.home (fun t => { t with won := t.won + 1 })
      if g.location = 1 then
        let h := modify h g.home (fun t => { t with hwon := t.hwon + 1 })
        modify h g.visitor (fun t => { t with vlost := t.vlost + 1 })
      else h
    else
      let h := modify h g.visitor (fun t => { t with tied := t.tied + 1 })
      let h := modify h g.home (fun t => { t with tied := t.tied + 1 })
      if g.location = 1 then
        let h := modify h g.home (fun t => { t with htied := t.htied + 1 })
        modify h g.visitor (fun t => { t with vtied := t.vtied + 1 })
      else h
  let h := modify h g.visitor (fun t => { t with pf := wrap32 (t.pf + g.vscore) })
  let h := modify h g.visitor (fun t => { t with pa := wrap32 (t.pa + g.hscore) })
  let h := modify h g.home (fun t => { t with pf := wrap32 (t.pf + g.hscore) })
  let h := modify h g.home (fun t => { t with pa := wrap32 (t.pa + g.vscore) })
  if g.location = 1 then
    let h := modify h g.home (fun t => { t with hpf := wrap32 (t.hpf + g.hscore) })
    let h := modify h g.home (fun t => { t with hpa := wrap32 (t.hpa + g.vscore) })
    let h := modify h g.visitor (fun t => { t with vpf := wrap32 (t.vpf + g.vscore) })
    modify h g.visitor (fun t => { t with vpa := wrap32 (t.vpa + g.hscore) })
  else h

/-- The loop of `calcRatio` on the team records, over the game list. -/
def calcRatioTeams (h : Heap) : List Game → Heap
  | [] => h
  | g :: gs => calcRatioTeams (calcRatioGame h g) gs

/-- The function `calcRatio`: every game gets its `ratio`, and the tallies and
point totals of its two teams are advanced. -/
def calcRatio (s : State) : State :=
  { s with
    teams := calcRatioTeams s.teams s.gamelist
    gamelist := s.gamelist.map (fun g => { g with ratio := gameRatio g }) }

/-- Overall games of a record: `won + lost + tied`. -/
def played (t : Team) : Int := t.won + t.lost + t.tied

/-- Home split games of a record: `hwon + hlost + htied`. -/
def hplayed (t : Team) : Int := t.hwon + t.hlost + t.htied

/-- Road split games of a record: `vwon + vlost + vtied`. -/
def vplayed (t : Team) : Int := t.vwon + t.vlost + t.vtied

/-- A record as `new_team` initialises it, for the given name. -/
def freshTeam (name : List Char) : Team :=
  { name := name, won := 0, lost := 0, tied := 0, pf := 0, pa := 0, schedplace := 0,
    hwon := 0, hlost := 0, htied := 0, hpf := 0, hpa := 0,
    vwon := 0, vlost := 0, vtied := 0, vpf := 0, vpa := 0,
    grate := 0, rating := 50, sched := 0 }

/-! ## calcRating -/

/-- The outcome `calcRating` prints after the loop. -/
inductive Report where
  | notConverging
  | converged
  deriving DecidableEq, Repr

/-- The local variables of `calcRating` that live across iterations. -/
structure SolverVars where
  i : Int
  iterations : Int
  stdDevRatio : ℚ
  stdDevRatioDiff : ℚ
  oldstdDevRatio : ℚ

/-- The constant `max_iterations`. -/
def max_iterations : Int := 25000

/-- The constant `tolerance`, 1e-9. -/
def tolerance : ℚ := 1 / 1000000000

/-- The constant `Kfactor`. -/
def Kfactor : ℚ := 10

/-- The first inner loop of an iteration: `t->grate = 0.0` for every team of the
list. -/
def zeroGrates (h : Heap) : List Nat → Heap
  | [] => h
  | t :: ts => zeroGrates (modify h t (fun r => { r with grate := 0 })) ts

/-- The body of the loop over the games in an iteration, on the heap and
`sum_grate`; `pw` is `pow` of `math.h`. -/
def expectGame (pw : ℚ → ℚ → ℚ) (hs : Heap × ℚ) (g : Game) : Heap × ℚ :=
  let h := hs.1
  let v_expected : ℚ := 1 / (1 + pw 10 (((h g.home).rating - (h g.visitor).rating) / Kfactor))
  let h := modify h g.visitor (fun r => { r with grate := r.grate + (g.ratio - v_expected) })
  let h := modify h g.home (fun r => { r with grate := r.grate + (1 - g.ratio - (1 - v_expected)) })
  if (h g.visitor).grate > (h g.home).grate then (h, hs.2 + (h g.visitor).grate)
  else (h, hs.2 + (h g.home).grate)

/-- The loop over the games in an iteration. -/
def expectGames (pw : ℚ → ℚ → ℚ) (hs : Heap × ℚ) : List Game → Heap × ℚ
  | [] => hs
  | g :: gs => expectGames pw (expectGame pw hs g) gs

/-- The last inner loop of an iteration:
`t->rating += Kfactor * (t->grate / (t->won + t->lost + t->tied))`. -/
def updateRatings (h : Heap) : List Nat → Heap
  | [] => h
  | t :: ts =>
    updateRatings
      (modify h t (fun r =>
        { r with rating := r.rating + Kfactor * (r.grate / ((r.won + r.lost + r.tied : Int) : ℚ)) }))
      ts

/-- One iteration of the `while` loop of `calcRating`, on the program state and
the local variables; `pw` and `sq` are `pow` and `sqrt` of `math.h`, and `games`
ends as the length of the game list. -/
def solverPass (pw : ℚ → ℚ → ℚ) (sq : ℚ → ℚ) (s : State) (v : SolverVars) :
    State × SolverVars :=
  let oldstdDevRatio := v.stdDevRatio
  let iterations := v.iterations + 1
  let h := zeroGrates s.teams s.teamlist
  let hs := expectGames pw (h, 0) s.gamelist
  let games : Int := s.gamelist.length
  let stdDevRatio := sq (hs.2 * hs.2 / (games : ℚ))
  let stdDevRatioDiff := pw (oldstdDevRatio - stdDevRatio) 2
  let h := updateRatings hs.1 s.teamlist
  ({ s with teams := h },
   { i := v.i + 1, iterations := iterations, stdDevRatio := stdDevRatio,
     stdDevRatioDiff := stdDevRatioDiff, oldstdDevRatio := oldstdDevRatio })

/-- The `while` loop of `calcRating`.  The first argument bounds the number of
iterations still allowed; `calcRating` starts it at 25000, the value of
`max_iterations`, which the test `i < max_iterations` never lets the loop
exceed. -/
def solverLoop (pw : ℚ → ℚ → ℚ) (sq : ℚ → ℚ) :
    Nat → State → SolverVars → State × SolverVars
  | 0, s, v => (s, v)
  | n + 1, s, v =>
    if v.i < max_iterations ∧ v.stdDevRatioDiff > tolerance then
      solverLoop pw sq n (solverPass pw sq s v).1 (solverPass pw sq s v).2
    else (s, v)

/-- The values of the local variables of `calcRating` before the loop. -/
def solverInit : SolverVars :=
  { i := 0, iterations := 0, stdDevRatio := 1, stdDevRatioDiff := 100, oldstdDevRatio := 1 }

/-- The state and local variables when the loop of `calcRating` is left. -/
def solverRun (pw : ℚ → ℚ → ℚ) (sq : ℚ → ℚ) (s : State) : State × SolverVars :=
  solverLoop pw sq 25000 s solverInit

/-- The function `calcRating`, as a function on the program state. -/
def calcRating (pw : ℚ → ℚ → ℚ) (sq : ℚ → ℚ) (s : State) : State :=
  (solverRun pw sq s).1

/-- The message `calcRating` prints after the loop: the test `i > max_iterations`
chooses between the two messages. -/
def calcRatingReport (pw : ℚ → ℚ → ℚ) (sq : ℚ → ℚ) (s : State) : Report :=
  if (solverRun pw sq s).2.i > max_iterations then Report.notConverging else Report.converged

/-- The number of iterations `calcRating` prints in its last line. -/
def calcRatingIterations (pw : ℚ → ℚ → ℚ) (sq : ℚ → ℚ) (s : State) : Int :=
  (solverRun pw sq s).2.iterations

/-! ## calcSchedStrength and displayRankings -/

/-- The body of the first loop of `calcSchedStrength`, for one game. -/
def schedGame (h : Heap) (g : Game) : Heap :=
  let h := modify h g.visitor (fun r => { r with sched := r.sched + (h g.home).rating })
  modify h g.home (fun r => { r with sched := r.sched + (h g.visitor).rating })

/-- The first loop of `calcSchedStrength`, over the game list. -/
def schedGames (h : Heap) : List Game → Heap
  | [] => h
  | g :: gs => schedGames (schedGame h g) gs

/-- The second loop of `calcSchedStrength`:
`t->sched /= (t->won + t->lost + t->tied)` for every team of the list. -/
def schedDivide (h : Heap) : List Nat → Heap
  | [] => h
  | t :: ts =>
    schedDivide
      (modify h t (fun r => { r with sched := r.sched / ((r.won + r.lost + r.tied : Int) : ℚ) }))
      ts

/-- The inner loop of the sort: `t` is linked in before the first team of the
sorted list whose key is not greater than the key of `t`. -/
def insertTeam (key : Nat → ℚ) (t : Nat) : List Nat → List Nat
  | [] => [t]
  | sortp :: rest =>
    if key t < key sortp then sortp :: insertTeam key t rest else t :: sortp :: rest

/-- The outer loop of the sort: the teams of the old list are taken in order
and linked into the new list, which starts empty. -/
def sortLoop (key : Nat → ℚ) (sorted : List Nat) : List Nat → List Nat
  | [] => sorted
  | t :: ts => sortLoop key (insertTeam key t sorted) ts

/-- The sort of the team list used by `calcSchedStrength` (key `sched`) and by
`displayRankings` (key `rating`). -/
def sortTeams (key : Nat → ℚ) (teamlist : List Nat) : List Nat :=
  sortLoop key [] teamlist

/-- The last loop of `calcSchedStrength`.  `last_rating` is `none` while it holds
its initial value, infinity, which no `sched` equals. -/
def placeLoop (h : Heap) (place : Int) (last_rating : Option ℚ) : List Nat → Heap
  | [] => h
  | t :: ts =>
    let place := place + 1
    if last_rating ≠ some (h t).sched then
      placeLoop (modify h t (fun r => { r with schedplace := place })) place
        (some (h t).sched) ts
    else
      placeLoop (modify h t (fun r => { r with schedplace := place - 1 })) place last_rating ts

/-- The function `calcSchedStrength`. -/
def calcSchedStrength (s : State) : State :=
  let h := schedGames s.teams s.gamelist
  let h := schedDivide h s.teamlist
  let teamlist := sortTeams (fun t => (h t).sched) s.teamlist
  let h := placeLoop h 0 none teamlist
  { s with teams := h, teamlist := teamlist }

/-- The last loop of `displayRankings`: the rank printed for each team, with
the team, in the order printed.  `last_rating` is `none` while it holds its
initial value, infinity, which no rating equals. -/
def rankLoop (h : Heap) (place : Int) (last_rating : Option ℚ) (ranking : Int) :
    List Nat → List (Int × Nat)
  | [] => []
  | t :: ts =>
    let place := place + 1
    if last_rating ≠ some (h t).rating then
      (place, t) :: rankLoop h place (some (h t).rating) place ts
    else
      (ranking, t) :: rankLoop h place last_rating ranking ts

/-- The function `displayRankings`: the new team list and the ranks printed.
`ranking0` is the value the uninitialised local `ranking` happens to hold. -/
def displayRankings (s : State) (ranking0 : Int) : State × List (Int × Nat) :=
  let teamlist := sortTeams (fun t => (s.teams t).rating) s.teamlist
  ({ s with teamlist := teamlist }, rankLoop s.teams 0 none ranking0 teamlist)

/-! ## readGames

A line sits in a zeroed buffer of 256 bytes (`chmalloc(256)`, taken to return
the zeroed block although its `return` is missing), so that reading past the end
of the line gives the terminator.  A pointer into the buffer is an index; the
scanning loops get 256 steps, and a loop that needs more has left the buffer:
the result is then undefined (`none`).  The characters are taken to be ASCII, so
that the signedness of `char` plays no part. -/

/-- The terminator of a C string. -/
def NUL : Char := Char.ofNat 0

/-- The byte at index `p` of the buffer holding the line `buf`. -/
def rd (buf : List Char) (p : Int) : Char :=
  if p < 0 then NUL else buf.getD p.toNat NUL

/-- A loop `while (cond(ch = *++ptr));` with empty body: the index at which it
stops. -/
def scan (cond : Char → Bool) (buf : List Char) : Nat → Int → Option Int
  | 0, _ => none
  | n + 1, ptr => if cond (rd buf (ptr + 1)) then scan cond buf n (ptr + 1) else some (ptr + 1)

/-- The `do ... while (ch < '0' || ch > '9')` loop that finds where a name ends:
the final `ptr` and `ptr2`.  When the line ends before a digit is found the code
sets `whichteam = 0` and breaks; it then goes on to the location loop, which runs
past the end of the buffer, so that case is undefined. -/
def nameLoop (buf : List Char) : Nat → Int → Option (Int × Int)
  | 0, _ => none
  | n + 1, ptr =>
    match scan (fun ch => decide (ch > ' ')) buf 256 ptr with
    | none => none
    | some p =>
      if rd buf p = NUL then none
      else
        match scan (fun ch => decide (ch ≠ NUL) && decide (ch ≤ ' ')) buf 256 p with
        | none => none
        | some q =>
          if rd buf q < '0' ∨ rd buf q > '9' then nameLoop buf n q else some (q, p)

/-- The `do ... while (ch >= '0' && ch <= '9')` loop that reads a score: the
score and the final `ptr`. -/
def scoreLoop (buf : List Char) : Nat → Int → Char → Int → Option (Int × Int)
  | 0, _, _, _ => none
  | n + 1, ptr, ch, score =>
    let score := 10 * score + (ch.toNat : Int) - (('0' : Char).toNat : Int)
    let ch := rd buf (ptr + 1)
    if ch ≥ '0' ∧ ch ≤ '9' then scoreLoop buf n (ptr + 1) ch score
    else some (score, ptr + 1)

/-- The C string that starts at index `p` of the buffer. -/
def cstr (buf : List Char) (p : Int) : List Char :=
  (buf.drop p.toNat).takeWhile (fun ch => decide (ch ≠ NUL))

/-- What the body of the `for (whichteam ...)` loop reads for one team. -/
structure TeamField where
  name : List Char
  score : Int
  buf : List Char
  ptr : Int
  deriving DecidableEq

/-- The body of the `for (whichteam ...)` loop up to the score: the name, the
score, the buffer after `*ptr2 = 0`, and the final `ptr`.  When no name is found
the code sets `whichteam = 0` and breaks; the location loop then runs past the
end of the buffer, so that case is undefined. -/
def parseTeam (buf : List Char) (ptr : Int) : Option TeamField :=
  match scan (fun ch => decide (ch ≠ NUL) && decide (ch ≤ '!')) buf 256 ptr with
  | none => none
  | some name =>
    if rd buf name = NUL then none
    else
      match nameLoop buf 256 name with
      | none => none
      | some (ptr, ptr2) =>
        let buf2 := buf.set ptr2.toNat NUL
        match scoreLoop buf2 256 ptr (rd buf ptr) 0 with
        | none => none
        | some (score, ptr) =>
          some { name := cstr buf2 name, score := score, buf := buf2, ptr := ptr }

/-- The loop `while ((ch = *++ptr) < '!') g->location = (ch == '0' | ch == 'n') ? 0 : 1;`:
the final `ptr` and `location`. -/
def locationLoop (buf : List Char) : Nat → Int → Int → Option (Int × Int)
  | 0, _, _ => none
  | n + 1, ptr, location =>
    let ch := rd buf (ptr + 1)
    if ch < '!' then locationLoop buf n (ptr + 1) (if ch = '0' ∨ ch = 'n' then 0 else 1)
    else some (ptr + 1, location)

/-- A game as read from a line, before its teams are looked up. -/
structure ParsedGame where
  vname : List Char
  vscore : Int
  hname : List Char
  hscore : Int
  location : Int
  deriving DecidableEq

/-- The outcome of the loop body of `readGames` for one line. -/
inductive LineResult where
  | skipped
  | game (g : ParsedGame)
  | undefined
  deriving DecidableEq

/-- The loop body of `readGames` for the line in `buf`, up to the point where the
game is complete; `location` starts at 0, as `chmalloc` zeroes the game. -/
def parseLine (buf : List Char) : LineResult :=
  match scan (fun ch => decide (ch ≠ NUL) && decide (ch ≤ '!')) buf 256 (-1) with
  | none => LineResult.undefined
  | some ptr =>
    if rd buf ptr = NUL ∨ rd buf ptr = '#' then LineResult.skipped
    else
      -- the date field: ten times `ptr++`, then `ptr--`
      match parseTeam buf (ptr + 10 - 1) with
      | none => LineResult.undefined
      | some v =>
        match parseTeam v.buf v.ptr with
        | none => LineResult.undefined
        | some h =>
          match locationLoop h.buf 256 h.ptr 0 with
          | none => LineResult.undefined
          | some (ptr, location) =>
            match scan (fun ch => decide (ch ≠ NUL) && decide (ch < '!')) h.buf 256 ptr with
            | none => LineResult.undefined
            | some _ =>
              LineResult.game
                { vname := v.name, vscore := v.score, hname := h.name, hscore := h.score,
                  location := location }

/-- The function `strcmp` on the names, by its sign. -/
def strcmp : List Char → List Char → Int
  | [], [] => 0
  | [], _ :: _ => -1
  | _ :: _, [] => 1
  | a :: as, b :: bs => if a = b then strcmp as bs else (a.toNat : Int) - (b.toNat : Int)

/-- The function `lookup_team`, on the heap and the team list. -/
def lookup_team (h : Heap) (name : List Char) : List Nat → Option Nat
  | [] => none
  | t :: rest =>
    if strcmp (h t).name name ≤ 0 then
      if strcmp (h t).name name = 0 then some t else lookup_team h name rest
    else none

/-- The loop of `new_team` that links the new record into the sorted list. -/
def linkTeam (h : Heap) (name : List Char) (new : Nat) : List Nat → List Nat
  | [] => [new]
  | t :: rest =>
    if strcmp (h t).name name < 0 then t :: linkTeam h name new rest else new :: t :: rest

/-- The function `new_team`: the new state and the address of the new record. -/
def new_team (s : State) (name : List Char) : State × Nat :=
  let new := s.nteams
  let h := modify s.teams new (fun _ => freshTeam name)
  ({ s with teams := h, nteams := s.nteams + 1, teamlist := linkTeam s.teams name new s.teamlist },
   new)

/-- The step `lookup_team`, then `new_team` on a miss. -/
def findTeam (s : State) (name : List Char) : State × Nat :=
  match lookup_team s.teams name s.teamlist with
  | some t => (s, t)
  | none => new_team s name

/-- The program state before `readGames`: no team, no game. -/
def emptyState : State :=
  { teams := fun _ => freshTeam [], nteams := 0, teamlist := [], gamelist := [] }

/-- The loop of `readGames` over the lines of the file: each game read is linked
in at the head of the game list. -/
def readLines (s : State) : List (List Char) → Option State
  | [] => some s
  | line :: rest =>
    match parseLine line with
    | LineResult.undefined => none
    | LineResult.skipped => readLines s rest
    | LineResult.game g =>
      let sv := findTeam s g.vname
      let sh := findTeam sv.1 g.hname
      readLines
        { sh.1 with
          gamelist :=
            { visitor := sv.2, home := sh.2, vscore := g.vscore, hscore := g.hscore,
              location := g.location, ratio := 0 } :: sh.1.gamelist }
        rest

/-- The function `readGames` on the lines of the input file. -/
def readGames (lines : List (List Char)) : Option State :=
  readLines emptyState lines

/-! ## Notions used in the statements and proofs -/

/-- Heap `h2` differs from heap `h1` at most in the fields `grate` and `rating`
of its records. -/
def SolverFrame (h1 h2 : Heap) : Prop :=
  ∀ T, h2 T = { h1 T with grate := (h2 T).grate, rating := (h2 T).rating }

/-- The ratings of the opponents of team `T`, one entry for every game of the
list in which `T` is the visitor or the home team: the home team's rating when
`T` visits, the visitor's rating otherwise. -/
def opponentRatings (h : Heap) (T : Nat) (gs : List Game) : List ℚ :=
  (gs.filter (fun g => decide (g.visitor = T ∨ g.home = T))).map
    (fun g => if g.visitor = T then (h g.home).rating else (h g.visitor).rating)

/-- The expected ratio of the visiting team of game `g`, for the ratings held
in heap `h`: `1 / (1 + 10^((home.rating - visitor.rating) / 10))`, with `pw`
for the power. -/
def expectedRatio (pw : ℚ → ℚ → ℚ) (h : Heap) (g : Game) : ℚ :=
  1 / (1 + pw 10 (((h g.home).rating - (h g.visitor).rating) / 10))

/-- The sum of `ratio - v_expected` over the games of the list with `T` as
visitor, minus the same sum over the games with `T` as home team; the expected
ratios are those for the ratings held in heap `h`. -/
def residual (pw : ℚ → ℚ → ℚ) (h : Heap) (T : Nat) (gs : List Game) : ℚ :=
  ((gs.filter (fun g => decide (g.visitor = T))).map
      (fun g => g.ratio - expectedRatio pw h g)).sum -
    ((gs.filter (fun g => decide (g.home = T))).map
      (fun g => g.ratio - expectedRatio pw h g)).sum

/-- The state and the local variables after `k` runs of the body of the loop of
`calcRating`. -/
def solverPasses (pw : ℚ → ℚ → ℚ) (sq : ℚ → ℚ) : Nat → State → SolverVars → State × SolverVars
  | 0, s, v => (s, v)
  | k + 1, s, v => solverPasses pw sq k (solverPass pw sq s v).1 (solverPass pw sq s v).2

/-- The residual sum of `T` when every expected ratio is 1/2: the sum of
`ratio - 1/2` over the games `T` visits minus the same sum over the games `T`
hosts. -/
def evenResidual (T : Nat) (gs : List Game) : ℚ :=
  ((gs.filter (fun g => decide (g.visitor = T))).map (fun g => g.ratio - 1 / 2)).sum -
    ((gs.filter (fun g => decide (g.home = T))).map (fun g => g.ratio - 1 / 2)).sum

/-- Game `g` is between `W` and `L`, either of them the visitor, with `W`
scoring `w` and `L` scoring `l`. -/
def Outcome (g : Game) (W L : Nat) (w l : Int) : Prop :=
  (g.visitor = W ∧ g.home = L ∧ g.vscore = w ∧ g.hscore = l) ∨
    (g.visitor = L ∧ g.home = W ∧ g.vscore = l ∧ g.hscore = w)

/-- The `ratio` of a game with visitor score `a` and home score `b`. -/
def scoreRatio (a b : Int) : ℚ :=
  gameRatio { visitor := 0, home := 0, vscore := a, hscore := b, location := 0, ratio := 0 }

/-- What one game adds to the residual sum of `T` at expected ratio 1/2. -/
def evenTerm (T : Nat) (g : Game) : ℚ :=
  (if g.visitor = T then g.ratio - 1 / 2 else 0) - (if g.home = T then g.ratio - 1 / 2 else 0)

/-- The loop of `new_team` seen on the names of the list: the new name is put
in before the first name that does not compare below it. -/
def insertName (name : List Char) : List (List Char) → List (List Char)
  | [] => [name]
  | a :: rest => if strcmp a name < 0 then a :: insertName name rest else name :: a :: rest

/-- The state after the lookup-or-create step has been run on the names of a
sequence, in order, from the empty state. -/
def registry (names : List (List Char)) : State :=
  names.foldl (fun s name => (findTeam s name).1) emptyState

/-- The names of the teams of the team list, in the order of the list. -/
def teamNames (s : State) : List (List Char) :=
  s.teamlist.map (fun t => (s.teams t).name)

/-- What the ingest keeps true of the heap and the team list: the addresses of
the list are allocated ones, the names of the list ascend strictly, and every
record is as `new_team` initialises it. -/
def RegistryOk (s : State) : Prop :=
  (∀ t ∈ s.teamlist, t < s.nteams) ∧
    (teamNames s).Pairwise (fun a b => strcmp a b < 0) ∧
    ∀ U, s.teams U = freshTeam (s.teams U).name

/-- What `readGames` keeps true of the state: the registry is in order, both
teams of every game are on the team list, and every team of the list is in a
game. -/
def IngestOk (s : State) : Prop :=
  RegistryOk s ∧
    (∀ g ∈ s.gamelist, g.visitor ∈ s.teamlist ∧ g.home ∈ s.teamlist) ∧
    ∀ T ∈ s.teamlist, ∃ g ∈ s.gamelist, g.visitor = T ∨ g.home = T

/-- The games-weighted rating sum: the sum of `(won + lost + tied) * rating`
over the team list. -/
def weightedSum (s : State) : ℚ :=
  (s.teamlist.map (fun T =>
    (((s.teams T).won + (s.teams T).lost + (s.teams T).tied : Int) : ℚ) * (s.teams T).rating)).sum

/-- The sum of `won + lost + tied` over the team list. -/
def totalPlayed (s : State) : ℚ :=
  (s.teamlist.map (fun T =>
    (((s.teams T).won + (s.teams T).lost + (s.teams T).tied : Int) : ℚ))).sum

/-- The sum of `grate` over the team list. -/
def grateSum (s : State) : ℚ :=
  (s.teamlist.map (fun T => (s.teams T).grate)).sum

/-- What the solver needs of a state for its sums to balance: the team list is
duplicate-free and holds both teams of every game, and no team of the list has
`won + lost + tied = 0`. -/
def SolverReady (s : State) : Prop :=
  s.teamlist.Nodup ∧
    (∀ g ∈ s.gamelist, g.visitor ∈ s.teamlist ∧ g.home ∈ s.teamlist) ∧
    ∀ T ∈ s.teamlist, (s.teams T).won + (s.teams T).lost + (s.teams T).tied ≠ 0

/-- The range of a C `int` (32 bits, two's complement). -/
def FitsInt (x : Int) : Prop :=
  -2147483648 ≤ x ∧ x ≤ 2147483647

/-- The points team `T` scores over the games of the list: the visitor score
where `T` visits plus the home score where `T` is at home. -/
def pointsScored (T : Nat) (gs : List Game) : Int :=
  ((gs.filter (fun g => decide (g.visitor = T))).map Game.vscore).sum +
    ((gs.filter (fun g => decide (g.home = T))).map Game.hscore).sum

/-- The points scored against team `T` over the games of the list. -/
def pointsAgainst (T : Nat) (gs : List Game) : Int :=
  ((gs.filter (fun g => decide (g.visitor = T))).map Game.hscore).sum +
    ((gs.filter (fun g => decide (g.home = T))).map Game.vscore).sum

/-- The points `T` scores in the games with `location` 1 in which it is the
home team. -/
def homePointsScored (T : Nat) (gs : List Game) : Int :=
  ((gs.filter (fun g => decide (g.location = 1 ∧ g.home = T))).map Game.hscore).sum

/-- The points scored against `T` in the games with `location` 1 in which it is
the home team. -/
def homePointsAgainst (T : Nat) (gs : List Game) : Int :=
  ((gs.filter (fun g => decide (g.location = 1 ∧ g.home = T))).map Game.vscore).sum

/-- The points `T` scores in the games with `location` 1 in which it is the
visitor. -/
def roadPointsScored (T : Nat) (gs : List Game) : Int :=
  ((gs.filter (fun g => decide (g.location = 1 ∧ g.visitor = T))).map Game.vscore).sum

/-- The points scored against `T` in the games with `location` 1 in which it is
the visitor. -/
def roadPointsAgainst (T : Nat) (gs : List Game) : Int :=
  ((gs.filter (fun g => decide (g.location = 1 ∧ g.visitor = T))).map Game.hscore).sum

/-! ## Example inputs -/

/-- The text of a line of the input file, with its newline. -/
def fileLine (text : String) : List Char :=
  text.toList ++ [Char.ofNat 10]

/-- The line `YYYY-MM-DD A 30 B 10 1`. -/
def homeLossLine : List Char := fileLine "YYYY-MM-DD A 30 B 10 1"

/-- The line `YYYY-MM-DD A 7 B 21  n`, with two blanks before the flag. -/
def neutralLine : List Char := fileLine "YYYY-MM-DD A 7 B 21  n"

/-- The state `readGames` builds from the one line `YYYY-MM-DD A 30 B 10  1`
(two blanks before the flag): one game between two teams, at the home team's
ground. -/
def oneGameState : State :=
  { teams := fun p => if p = 0 then freshTeam ['A'] else if p = 1 then freshTeam ['B']
      else freshTeam []
    nteams := 2
    teamlist := [0, 1]
    gamelist := [{ visitor := 0, home := 1, vscore := 30, hscore := 10, location := 1, ratio := 0 }] }

/-- An input file whose one line names the same team as visitor and as home
team. -/
def selfGameLines : List (List Char) := [fileLine "YYYY-MM-DD A 10 A 7 n"]

/-- The state `readGames` builds from `selfGameLines`: one team, at address 0,
and one game in which it is visitor and home team. -/
def selfGameState : State :=
  { teams := fun p => if p = 0 then freshTeam ['A'] else freshTeam []
    nteams := 1
    teamlist := [0]
    gamelist := [{ visitor := 0, home := 0, vscore := 10, hscore := 7, location := 0, ratio := 0 }] }

/-- An input file in which team `A` visits `B` and plays one game against
itself. -/
def selfGameSeasonLines : List (List Char) :=
  [fileLine "YYYY-MM-DD A 30 B 10 n", fileLine "YYYY-MM-DD A 10 A 10 n"]

/-- The state `readGames` builds from `selfGameSeasonLines` (addresses 0 and 1
for `A` and `B`; the game list holds the lines last first). -/
def selfGameSeason : State :=
  { teams := fun p => if p = 0 then freshTeam ['A'] else if p = 1 then freshTeam ['B']
      else freshTeam []
    nteams := 2
    teamlist := [0, 1]
    gamelist :=
      [{ visitor := 0, home := 0, vscore := 10, hscore := 10, location := 0, ratio := 0 },
       { visitor := 0, home := 1, vscore := 30, hscore := 10, location := 0, ratio := 0 }] }

/-- The state of `selfGameSeason` after `calcRatio`, with the ratings 60 for `A`
and 40 for `B` standing for the ratings the solver leaves. -/
def selfGameRated : State :=
  { calcRatio selfGameSeason with
    teams := fun p =>
      { (calcRatio selfGameSeason).teams p with rating := if p = 0 then 60 else 40 } }

/-- The input file of the three-team cycle on neutral sites. -/
def cycleLines : List (List Char) :=
  [fileLine "YYYY-MM-DD A 20 B 10 n", fileLine "YYYY-MM-DD B 20 C 10 n",
    fileLine "YYYY-MM-DD C 20 A 10 n"]

/-- The state `readGames` builds from `cycleLines` (addresses 0, 1, 2 for `A`,
`B`, `C`; the game list holds the lines last first). -/
def cycleSeason : State :=
  { teams := fun p =>
      if p = 0 then freshTeam ['A'] else if p = 1 then freshTeam ['B']
      else if p = 2 then freshTeam ['C'] else freshTeam []
    nteams := 3
    teamlist := [0, 1, 2]
    gamelist :=
      [{ visitor := 2, home := 0, vscore := 20, hscore := 10, location := 0, ratio := 0 },
       { visitor := 1, home := 2, vscore := 20, hscore := 10, location := 0, ratio := 0 },
       { visitor := 0, home := 1, vscore := 20, hscore := 10, location := 0, ratio := 0 }] }

/-- The input file of the two-team split: `A` beats `B` 14-7 at home, then `B`
beats `A` 14-7 at home (two blanks before the flag, so that the games are read
as played at the home team's ground). -/
def splitLines : List (List Char) :=
  [fileLine "YYYY-MM-DD B 7 A 14  1", fileLine "YYYY-MM-DD A 7 B 14  1"]

/-- The state `readGames` builds from `splitLines` (address 0 for `B`, which is
named first, and 1 for `A`; the team list is in the order of the names and the
game list holds the lines last first). -/
def splitSeason : State :=
  { teams := fun p => if p = 0 then freshTeam ['B'] else if p = 1 then freshTeam ['A']
      else freshTeam []
    nteams := 2
    teamlist := [1, 0]
    gamelist :=
      [{ visitor := 1, home := 0, vscore := 7, hscore := 14, location := 1, ratio := 0 },
       { visitor := 0, home := 1, vscore := 7, hscore := 14, location := 1, ratio := 0 }] }

/-- The state `readGames` builds from the one line `YYYY-MM-DD A 10 B 10 1`. -/
def tieGameState : State :=
  { teams := fun p => if p = 0 then freshTeam ['A'] else if p = 1 then freshTeam ['B']
      else freshTeam []
    nteams := 2
    teamlist := [0, 1]
    gamelist := [{ visitor := 0, home := 1, vscore := 10, hscore := 10, location := 0, ratio := 0 }] }

/-- An input file with a three-team cycle on neutral sites in which every game
is won by 10 points, with different scores. -/
def marginLines : List (List Char) :=
  [fileLine "YYYY-MM-DD A 20 B 10 n", fileLine "YYYY-MM-DD B 30 C 20 n",
    fileLine "YYYY-MM-DD C 10 A 0 n"]

/-- The state `readGames` builds from `marginLines` (addresses 0, 1, 2 for `A`,
`B`, `C`; the game list holds the lines last first). -/
def marginSeason : State :=
  { teams := fun p =>
      if p = 0 then freshTeam ['A'] else if p = 1 then freshTeam ['B']
      else if p = 2 then freshTeam ['C'] else freshTeam []
    nteams := 3
    teamlist := [0, 1, 2]
    gamelist :=
      [{ visitor := 2, home := 0, vscore := 10, hscore := 0, location := 0, ratio := 0 },
       { visitor := 1, home := 2, vscore := 30, hscore := 20, location := 0, ratio := 0 },
       { visitor := 0, home := 1, vscore := 20, hscore := 10, location := 0, ratio := 0 }] }

/-- An input file of two lines in which `A` scores 2000000000 points against
`B`. -/
def bigScoreLines : List (List Char) :=
  [fileLine "YYYY-MM-DD A 2000000000 B 0 n", fileLine "YYYY-MM-DD A 2000000000 B 0 n"]

/-- An input file of two lines in which `A` scores 2000000000 points against
`B` and against `C`. -/
def bigScoreSplitLines : List (List Char) :=
  [fileLine "YYYY-MM-DD A 2000000000 B 0 n", fileLine "YYYY-MM-DD A 2000000000 C 0 n"]

/-! ## Theorems -/

/-- The base quotient of `gameRatio` lies strictly between 0 and 1. -/
theorem base_quotient_bounds (a b : ℚ) :
    0 < (a * a + 1) / (a * a + b * b + 2) ∧ (a * a + 1) / (a * a + b * b + 2) < 1 := by
  have ha : 0 ≤ a * a := mul_self_nonneg a
  have hb : 0 ≤ b * b := mul_self_nonneg b
  have hden : 0 < a * a + b * b + 2 := by linarith
  refine ⟨div_pos (by linarith) hden, ?_⟩
  rw [div_lt_one hden]
  linarith

/-- With equal adjusted scores the bumped and halved quotient is exactly 1/2. -/
theorem tie_quotient (a : ℚ) :
    ((a * a + 1) / (a * a + a * a + 2) + 1 / 2) * (1 / 2) = 1 / 2 := by
  have ha : 0 ≤ a * a := mul_self_nonneg a
  have hne : a * a + a * a + 2 ≠ 0 := by linarith
  have : (a * a + 1) / (a * a + a * a + 2) = 1 / 2 := by
    rw [div_eq_div_iff hne (by norm_num)]
    ring
  rw [this]
  norm_num

/-- C1: for all integer scores (in particular all non-negative ones), with
exact arithmetic, `gameRatio` lies strictly between 0 and 1, is above 1/2 when
the visitor scored more, is exactly 1/2 when the scores are equal, and is below
1/2 when the visitor scored less. -/
theorem gameRatio_bounds (g : Game) :
    (0 < gameRatio g ∧ gameRatio g < 1) ∧
    (g.vscore > g.hscore → gameRatio g > 1 / 2) ∧
    (g.vscore = g.hscore → gameRatio g = 1 / 2) ∧
    (g.vscore < g.hscore → gameRatio g < 1 / 2) := by
  obtain ⟨h0, h1⟩ := base_quotient_bounds (adjPoints g.vscore / 6) (adjPoints g.hscore / 6)
  have htie : g.vscore = g.hscore → gameRatio g = 1 / 2 := by
    intro he
    simp only [gameRatio, he, gt_iff_lt, lt_self_iff_false, if_false, if_true]
    exact tie_quotient (adjPoints g.hscore / 6)
  have hwin : g.vscore > g.hscore → gameRatio g > 1 / 2 ∧ gameRatio g < 1 := by
    intro hgt
    simp only [gameRatio, hgt, if_true]
    constructor <;> linarith
  have hloss : g.vscore < g.hscore → 0 < gameRatio g ∧ gameRatio g < 1 / 2 := by
    intro hlt
    have h1n : ¬ g.vscore > g.hscore := by omega
    have h2n : ¬ g.vscore = g.hscore := by omega
    simp only [gameRatio, h1n, h2n, if_false]
    constructor <;> linarith
  refine ⟨?_, fun h => (hwin h).1, htie, fun h => (hloss h).2⟩
  rcases lt_trichotomy g.vscore g.hscore with h | h | h
  · obtain ⟨a, b⟩ := hloss h
    exact ⟨a, by linarith⟩
  · rw [htie h]; norm_num
  · obtain ⟨a, b⟩ := hwin h
    exact ⟨by linarith, b⟩

/-- Witness of C1: a 30-10 win of the visitor. -/
theorem gameRatio_bounds_witness :
    gameRatio { visitor := 0, home := 1, vscore := 30, hscore := 10, location := 1, ratio := 0 }
      > 1 / 2 :=
  (gameRatio_bounds _).2.1 (by decide)

/-! ### calcRatio: what one game adds to a record -/

theorem calcRatioGame_played (h : Heap) (g : Game) (T : Nat) :
    played (calcRatioGame h g T) = played (h T) + ((if T = g.visitor then 1 else 0) + (if T = g.home then 1 else 0)) := by
  obtain ⟨v, hm, vs, hs, loc, r⟩ := g
  unfold calcRatioGame played
  rcases eq_or_ne T v with rfl | hv <;> rcases eq_or_ne T hm with rfl | hh <;>
    by_cases hl : loc = 1 <;> by_cases h1 : vs > hs <;> by_cases h2 : vs < hs <;>
    simp only [modify, if_true, if_false, eq_self_iff_true, true_and, and_true, false_and,
      and_false, *] <;>
    omega

theorem calcRatioGame_hplayed (h : Heap) (g : Game) (T : Nat) :
    hplayed (calcRatioGame h g T) = hplayed (h T) + (if g.location = 1 ∧ T = g.home then 1 else 0) := by
  obtain ⟨v, hm, vs, hs, loc, r⟩ := g
  unfold calcRatioGame hplayed
  rcases eq_or_ne T v with rfl | hv <;> rcases eq_or_ne T hm with rfl | hh <;>
    by_cases hl : loc = 1 <;> by_cases h1 : vs > hs <;> by_cases h2 : vs < hs <;>
    simp only [modify, if_true, if_false, eq_self_iff_true, true_and, and_true, false_and,
      and_false, *] <;>
    omega

theorem calcRatioGame_vplayed (h : Heap) (g : Game) (T : Nat) :
    vplayed (calcRatioGame h g T) = vplayed (h T) + (if g.location = 1 ∧ T = g.visitor then 1 else 0) := by
  obtain ⟨v, hm, vs, hs, loc, r⟩ := g
  unfold calcRatioGame vplayed
  rcases eq_or_ne T v with rfl | hv <;> rcases eq_or_ne T hm with rfl | hh <;>
    by_cases hl : loc = 1 <;> by_cases h1 : vs > hs <;> by_cases h2 : vs < hs <;>
    simp only [modify, if_true, if_false, eq_self_iff_true, true_and, and_true, false_and,
      and_false, *] <;>
    omega

/-- The value `wrap32` gives is in the range of `int`. -/
theorem wrap32_fits (x : Int) : FitsInt (wrap32 x) := by
  unfold FitsInt wrap32
  omega

/-- A value in the range of `int` is held as it is. -/
theorem wrap32_of_fits (x : Int) (h : FitsInt x) : wrap32 x = x := by
  unfold FitsInt at h
  unfold wrap32
  omega

/-- What is held after adding `x` depends on the value held before only. -/
theorem wrap32_congr_add (a b x : Int) (e : wrap32 a = wrap32 b) :
    wrap32 (a + x) = wrap32 (b + x) := by
  unfold wrap32 at e ⊢
  omega

theorem calcRatioGame_pf (h : Heap) (g : Game) (T : Nat) :
    wrap32 (Team.pf (calcRatioGame h g T)) =
        wrap32 (Team.pf (h T) + ((if T = g.visitor then g.vscore else 0) + (if T = g.home then g.hscore else 0))) ∧
      (FitsInt (Team.pf (h T)) → FitsInt (Team.pf (calcRatioGame h g T))) := by
  obtain ⟨v, hm, vs, hs, loc, r⟩ := g
  unfold calcRatioGame
  rcases eq_or_ne T v with rfl | hv <;> rcases eq_or_ne T hm with rfl | hh <;>
    by_cases hl : loc = 1 <;> by_cases h1 : vs > hs <;> by_cases h2 : vs < hs <;>
    simp only [modify, if_true, if_false, eq_self_iff_true, true_and, and_true, false_and,
      and_false, *] <;>
    simp only [wrap32, FitsInt] <;>
    omega

theorem calcRatioGame_pa (h : Heap) (g : Game) (T : Nat) :
    wrap32 (Team.pa (calcRatioGame h g T)) =
        wrap32 (Team.pa (h T) + ((if T = g.visitor then g.hscore else 0) + (if T = g.home then g.vscore else 0))) ∧
      (FitsInt (Team.pa (h T)) → FitsInt (Team.pa (calcRatioGame h g T))) := by
  obtain ⟨v, hm, vs, hs, loc, r⟩ := g
  unfold calcRatioGame
  rcases eq_or_ne T v with rfl | hv <;> rcases eq_or_ne T hm with rfl | hh <;>
    by_cases hl : loc = 1 <;> by_cases h1 : vs > hs <;> by_cases h2 : vs < hs <;>
    simp only [modify, if_true, if_false, eq_self_iff_true, true_and, and_true, false_and,
      and_false, *] <;>
    simp only [wrap32, FitsInt] <;>
    omega

theorem calcRatioGame_hpf (h : Heap) (g : Game) (T : Nat) :
    wrap32 (Team.hpf (calcRatioGame h g T)) =
        wrap32 (Team.hpf (h T) + (if g.location = 1 ∧ T = g.home then g.hscore else 0)) ∧
      (FitsInt (Team.hpf (h T)) → FitsInt (Team.hpf (calcRatioGame h g T))) := by
  obtain ⟨v, hm, vs, hs, loc, r⟩ := g
  unfold calcRatioGame
  rcases eq_or_ne T v with rfl | hv <;> rcases eq_or_ne T hm with rfl | hh <;>
    by_cases hl : loc = 1 <;> by_cases h1 : vs > hs <;> by_cases h2 : vs < hs <;>
    simp only [modify, if_true, if_false, eq_self_iff_true, true_and, and_true, false_and,
      and_false, *] <;>
    simp only [wrap32, FitsInt] <;>
    omega

theorem calcRatioGame_hpa (h : Heap) (g : Game) (T : Nat) :
    wrap32 (Team.hpa (calcRatioGame h g T)) =
        wrap32 (Team.hpa (h T) + (if g.location = 1 ∧ T = g.home then g.vscore else 0)) ∧
      (FitsInt (Team.hpa (h T)) → FitsInt (Team.hpa (calcRatioGame h g T))) := by
  obtain ⟨v, hm, vs, hs, loc, r⟩ := g
  unfold calcRatioGame
  rcases eq_or_ne T v with rfl | hv <;> rcases eq_or_ne T hm with rfl | hh <;>
    by_cases hl : loc = 1 <;> by_cases h1 : vs > hs <;> by_cases h2 : vs < hs <;>
    simp only [modify, if_true, if_false, eq_self_iff_true, true_and, and_true, false_and,
      and_false, *] <;>
    simp only [wrap32, FitsInt] <;>
    omega

theorem calcRatioGame_vpf (h : Heap) (g : Game) (T : Nat) :
    wrap32 (Team.vpf (calcRatioGame h g T)) =
        wrap32 (Team.vpf (h T) + (if g.location = 1 ∧ T = g.visitor then g.vscore else 0)) ∧
      (FitsInt (Team.vpf (h T)) → FitsInt (Team.vpf (calcRatioGame h g T))) := by
  obtain ⟨v, hm, vs, hs, loc, r⟩ := g
  unfold calcRatioGame
  rcases eq_or_ne T v with rfl | hv <;> rcases eq_or_ne T hm with rfl | hh <;>
    by_cases hl : loc = 1 <;> by_cases h1 : vs > hs <;> by_cases h2 : vs < hs <;>
    simp only [modify, if_true, if_false, eq_self_iff_true, true_and, and_true, false_and,
      and_false, *] <;>
    simp only [wrap32, FitsInt] <;>
    omega

theorem calcRatioGame_vpa (h : Heap) (g : Game) (T : Nat) :
    wrap32 (Team.vpa (calcRatioGame h g T)) =
        wrap32 (Team.vpa (h T) + (if g.location = 1 ∧ T = g.visitor then g.hscore else 0)) ∧
      (FitsInt (Team.vpa (h T)) → FitsInt (Team.vpa (calcRatioGame h g T))) := by
  obtain ⟨v, hm, vs, hs, loc, r⟩ := g
  unfold calcRatioGame
  rcases eq_or_ne T v with rfl | hv <;> rcases eq_or_ne T hm with rfl | hh <;>
    by_cases hl : loc = 1 <;> by_cases h1 : vs > hs <;> by_cases h2 : vs < hs <;>
    simp only [modify, if_true, if_false, eq_self_iff_true, true_and, and_true, false_and,
      and_false, *] <;>
    simp only [wrap32, FitsInt] <;>
    omega

/-- A game away from the home team's ground (`location` other than 1) leaves
the six split tallies of every record as they were. -/
theorem calcRatioGame_neutral (h : Heap) (g : Game) (T : Nat) (hl : g.location ≠ 1) :
    (calcRatioGame h g T).hwon = (h T).hwon ∧ (calcRatioGame h g T).hlost = (h T).hlost ∧
    (calcRatioGame h g T).htied = (h T).htied ∧ (calcRatioGame h g T).vwon = (h T).vwon ∧
    (calcRatioGame h g T).vlost = (h T).vlost ∧ (calcRatioGame h g T).vtied = (h T).vtied := by
  obtain ⟨v, hm, vs, hs, loc, r⟩ := g
  unfold calcRatioGame
  rcases eq_or_ne T v with rfl | hv <;> rcases eq_or_ne T hm with rfl | hh <;>
    by_cases h1 : vs > hs <;> by_cases h2 : vs < hs <;>
    simp only [modify, if_true, if_false, eq_self_iff_true, and_self, *]

/-! ### calcRatio: the loop over the game list -/

/-- A quantity of a record that one game advances by `c g` is advanced by the
sum of `c` over the game list. -/
theorem calcRatioTeams_measure (m : Team → Int) (c : Game → Int) (T : Nat)
    (hstep : ∀ h g, m (calcRatioGame h g T) = m (h T) + c g) (gs : List Game) :
    ∀ h : Heap, m (calcRatioTeams h gs T) = m (h T) + (gs.map c).sum := by
  induction gs with
  | nil => intro h; simp [calcRatioTeams]
  | cons g gs ih =>
    intro h
    simp only [calcRatioTeams, List.map_cons, List.sum_cons]
    rw [ih, hstep]
    ring

/-- Summing an indicator counts the games that satisfy the condition. -/
theorem sum_indicator (p : Game → Prop) [DecidablePred p] (gs : List Game) :
    (gs.map (fun g => if p g then (1 : Int) else 0)).sum = (gs.countP (fun g => decide (p g)) : Int) := by
  induction gs with
  | nil => simp
  | cons g gs ih =>
    by_cases hp : p g
    · simp [List.countP_cons, hp, ih]; ring
    · simp [List.countP_cons, hp, ih]

/-- Summing a guarded quantity is summing it over the games that pass the guard. -/
theorem sum_guarded (p : Game → Prop) [DecidablePred p] (f : Game → Int) (gs : List Game) :
    (gs.map (fun g => if p g then f g else 0)).sum =
      ((gs.filter (fun g => decide (p g))).map f).sum := by
  induction gs with
  | nil => simp
  | cons g gs ih =>
    by_cases hp : p g <;> simp [List.filter_cons, hp, ih]

/-- Summing a pointwise sum is adding the two sums. -/
theorem sum_map_add_int (f k : Game → Int) (gs : List Game) :
    (gs.map (fun g => f g + k g)).sum = (gs.map f).sum + (gs.map k).sum := by
  induction gs with
  | nil => simp
  | cons g gs ih => simp [ih]; ring

/-- Without a game that pairs a team with itself, the games in which `T` is
visitor or home are counted by the two separate counts. -/
theorem countP_either (T : Nat) (gs : List Game) (hne : ∀ g ∈ gs, g.visitor ≠ g.home) :
    (gs.countP (fun g => decide (g.visitor = T ∨ g.home = T)) : Int) =
      (gs.countP (fun g => decide (g.visitor = T)) : Int) +
        (gs.countP (fun g => decide (g.home = T)) : Int) := by
  induction gs with
  | nil => simp
  | cons g gs ih =>
    have hg : g.visitor ≠ g.home := hne g (List.mem_cons_self _ _)
    have ih2 := ih (fun x hx => hne x (List.mem_cons_of_mem _ hx))
    by_cases hv : g.visitor = T <;> by_cases hh : g.home = T
    · exact absurd (hv.trans hh.symm) hg
    all_goals
      simp only [List.countP_cons, hv, hh, true_or, or_true, or_false, decide_True,
        decide_False, if_true, if_false, Bool.false_eq_true] at ih2 ⊢
      omega

/-- The overall games of a record after `calcRatio`, from any starting tallies. -/
theorem calcRatioTeams_played (h : Heap) (gs : List Game) (T : Nat) :
    played (calcRatioTeams h gs T) =
      played (h T) + ((gs.countP (fun g => decide (g.visitor = T)) : Int) +
        (gs.countP (fun g => decide (g.home = T)) : Int)) := by
  rw [calcRatioTeams_measure played _ T (fun h g => calcRatioGame_played h g T) gs h,
    sum_map_add_int, sum_indicator (fun g => T = g.visitor), sum_indicator (fun g => T = g.home)]
  simp only [eq_comm]

/-- C2 (as amended): after `calcRatio` over a record whose overall tallies start
at zero, `won + lost + tied` of team `T` is the number of games with `T` as
visitor plus the number of games with `T` as home team; when no game has the
same team on both sides this is the number of games in which `T` is the visitor
or the home team. -/
theorem calcRatio_played (s : State) (T : Nat)
    (h0 : (s.teams T).won = 0 ∧ (s.teams T).lost = 0 ∧ (s.teams T).tied = 0) :
    (((calcRatio s).teams T).won + ((calcRatio s).teams T).lost + ((calcRatio s).teams T).tied =
      (s.gamelist.countP (fun g => decide (g.visitor = T)) : Int) +
        (s.gamelist.countP (fun g => decide (g.home = T)) : Int)) ∧
    ((∀ g ∈ s.gamelist, g.visitor ≠ g.home) →
      ((calcRatio s).teams T).won + ((calcRatio s).teams T).lost + ((calcRatio s).teams T).tied =
        (s.gamelist.countP (fun g => decide (g.visitor = T ∨ g.home = T)) : Int)) := by
  have key := calcRatioTeams_played s.teams s.gamelist T
  have hz : played (s.teams T) = 0 := by
    obtain ⟨a, b, c⟩ := h0
    simp [played, a, b, c]
  rw [hz, zero_add] at key
  refine ⟨key, fun hne => ?_⟩
  rw [countP_either T s.gamelist hne]
  exact key

/-- Witness of C2 (as amended): the one-game season, visiting team. -/
theorem calcRatio_played_witness :
    ((calcRatio oneGameState).teams 0).won + ((calcRatio oneGameState).teams 0).lost +
      ((calcRatio oneGameState).teams 0).tied =
      (oneGameState.gamelist.countP (fun g => decide (g.visitor = 0 ∨ g.home = 0)) : Int) :=
  (calcRatio_played oneGameState 0 (by decide)).2 (by decide)

/-- C2 as stated fails: when a game has the same team as visitor and home, that
team's `won + lost + tied` is 2 although it appears in one game. -/
theorem calcRatio_played_selfgame :
    ((calcRatio selfGameState).teams 0).won + ((calcRatio selfGameState).teams 0).lost +
      ((calcRatio selfGameState).teams 0).tied = 2 ∧
    selfGameState.gamelist.countP (fun g => decide (g.visitor = 0 ∨ g.home = 0)) = 1 := by
  decide

/-- C3: after `calcRatio` over a record whose split tallies start at zero,
`hwon + hlost + htied` of team `T` is the number of games with `location` 1 in
which `T` is the home team, `vwon + vlost + vtied` is the number of games with
`location` 1 in which `T` is the visitor, and a game whose `location` is not 1
(in particular a neutral-site game, `location` 0) changes none of the six split
tallies of any team. -/
theorem calcRatio_split_tallies (s : State) (T : Nat)
    (hh0 : (s.teams T).hwon = 0 ∧ (s.teams T).hlost = 0 ∧ (s.teams T).htied = 0)
    (hv0 : (s.teams T).vwon = 0 ∧ (s.teams T).vlost = 0 ∧ (s.teams T).vtied = 0) :
    (((calcRatio s).teams T).hwon + ((calcRatio s).teams T).hlost +
        ((calcRatio s).teams T).htied =
      (s.gamelist.countP (fun g => decide (g.location = 1 ∧ g.home = T)) : Int)) ∧
    (((calcRatio s).teams T).vwon + ((calcRatio s).teams T).vlost +
        ((calcRatio s).teams T).vtied =
      (s.gamelist.countP (fun g => decide (g.location = 1 ∧ g.visitor = T)) : Int)) ∧
    (∀ (h : Heap) (g : Game) (U : Nat), g.location ≠ 1 →
      (calcRatioGame h g U).hwon = (h U).hwon ∧ (calcRatioGame h g U).hlost = (h U).hlost ∧
      (calcRatioGame h g U).htied = (h U).htied ∧ (calcRatioGame h g U).vwon = (h U).vwon ∧
      (calcRatioGame h g U).vlost = (h U).vlost ∧ (calcRatioGame h g U).vtied = (h U).vtied) := by
  refine ⟨?_, ?_, fun h g U hl => calcRatioGame_neutral h g U hl⟩
  · have key := calcRatioTeams_measure hplayed _ T (fun h g => calcRatioGame_hplayed h g T)
      s.gamelist s.teams
    rw [sum_indicator (fun g => g.location = 1 ∧ T = g.home)] at key
    obtain ⟨a, b, c⟩ := hh0
    simp only [hplayed, a, b, c, add_zero, zero_add] at key
    simpa only [eq_comm] using key
  · have key := calcRatioTeams_measure vplayed _ T (fun h g => calcRatioGame_vplayed h g T)
      s.gamelist s.teams
    rw [sum_indicator (fun g => g.location = 1 ∧ T = g.visitor)] at key
    obtain ⟨a, b, c⟩ := hv0
    simp only [vplayed, a, b, c, add_zero, zero_add] at key
    simpa only [eq_comm] using key

/-- Witness of C3: the one-game season, home team. -/
theorem calcRatio_split_tallies_witness :
    ((calcRatio oneGameState).teams 1).hwon + ((calcRatio oneGameState).teams 1).hlost +
        ((calcRatio oneGameState).teams 1).htied =
      (oneGameState.gamelist.countP (fun g => decide (g.location = 1 ∧ g.home = 1)) : Int) :=
  (calcRatio_split_tallies oneGameState 1 (by decide) (by decide)).1

/-- A point total of a record that one game advances by `c g`, with wrap-around,
holds after the loop the sum of `c` over the game list, added to its starting
value and reduced to the range of `int`. -/
theorem calcRatioTeams_wrapped (m : Team → Int) (c : Game → Int) (T : Nat)
    (hstep : ∀ h g, wrap32 (m (calcRatioGame h g T)) = wrap32 (m (h T) + c g) ∧
      (FitsInt (m (h T)) → FitsInt (m (calcRatioGame h g T)))) (gs : List Game) :
    ∀ h : Heap, FitsInt (m (h T)) →
      m (calcRatioTeams h gs T) = wrap32 (m (h T) + (gs.map c).sum) := by
  induction gs with
  | nil =>
    intro h hf
    simp only [calcRatioTeams, List.map_nil, List.sum_nil, add_zero]
    exact (wrap32_of_fits _ hf).symm
  | cons g gs ih =>
    intro h hf
    obtain ⟨e, r⟩ := hstep h g
    simp only [calcRatioTeams, List.map_cons, List.sum_cons]
    rw [ih (calcRatioGame h g) (r hf), wrap32_congr_add _ _ _ e, add_assoc]

theorem fitsInt_zero : FitsInt 0 := by
  unfold FitsInt
  omega

/-- The six point totals of a record after `calcRatio`, from totals that start
at zero: the sums over the game list, reduced to the range of `int`. -/
theorem calcRatio_points_wrapped (s : State) (T : Nat)
    (h0 : (s.teams T).pf = 0 ∧ (s.teams T).pa = 0 ∧ (s.teams T).hpf = 0 ∧
      (s.teams T).hpa = 0 ∧ (s.teams T).vpf = 0 ∧ (s.teams T).vpa = 0) :
    ((calcRatio s).teams T).pf = wrap32 (pointsScored T s.gamelist) ∧
    ((calcRatio s).teams T).pa = wrap32 (pointsAgainst T s.gamelist) ∧
    ((calcRatio s).teams T).hpf = wrap32 (homePointsScored T s.gamelist) ∧
    ((calcRatio s).teams T).hpa = wrap32 (homePointsAgainst T s.gamelist) ∧
    ((calcRatio s).teams T).vpf = wrap32 (roadPointsScored T s.gamelist) ∧
    ((calcRatio s).teams T).vpa = wrap32 (roadPointsAgainst T s.gamelist) := by
  obtain ⟨z1, z2, z3, z4, z5, z6⟩ := h0
  unfold pointsScored pointsAgainst homePointsScored homePointsAgainst roadPointsScored
    roadPointsAgainst
  refine ⟨?_, ?_, ?_, ?_, ?_, ?_⟩
  · have key := calcRatioTeams_wrapped Team.pf _ T (fun h g => calcRatioGame_pf h g T)
      s.gamelist s.teams (by rw [z1]; exact fitsInt_zero)
    rw [sum_map_add_int, sum_guarded (fun g => T = g.visitor),
      sum_guarded (fun g => T = g.home), z1, zero_add] at key
    simpa only [eq_comm] using key
  · have key := calcRatioTeams_wrapped Team.pa _ T (fun h g => calcRatioGame_pa h g T)
      s.gamelist s.teams (by rw [z2]; exact fitsInt_zero)
    rw [sum_map_add_int, sum_guarded (fun g => T = g.visitor),
      sum_guarded (fun g => T = g.home), z2, zero_add] at key
    simpa only [eq_comm] using key
  · have key := calcRatioTeams_wrapped Team.hpf _ T (fun h g => calcRatioGame_hpf h g T)
      s.gamelist s.teams (by rw [z3]; exact fitsInt_zero)
    rw [sum_guarded (fun g => g.location = 1 ∧ T = g.home), z3, zero_add] at key
    simpa only [eq_comm] using key
  · have key := calcRatioTeams_wrapped Team.hpa _ T (fun h g => calcRatioGame_hpa h g T)
      s.gamelist s.teams (by rw [z4]; exact fitsInt_zero)
    rw [sum_guarded (fun g => g.location = 1 ∧ T = g.home), z4, zero_add] at key
    simpa only [eq_comm] using key
  · have key := calcRatioTeams_wrapped Team.vpf _ T (fun h g => calcRatioGame_vpf h g T)
      s.gamelist s.teams (by rw [z5]; exact fitsInt_zero)
    rw [sum_guarded (fun g => g.location = 1 ∧ T = g.visitor), z5, zero_add] at key
    simpa only [eq_comm] using key
  · have key := calcRatioTeams_wrapped Team.vpa _ T (fun h g => calcRatioGame_vpa h g T)
      s.gamelist s.teams (by rw [z6]; exact fitsInt_zero)
    rw [sum_guarded (fun g => g.location = 1 ∧ T = g.visitor), z6, zero_add] at key
    simpa only [eq_comm] using key

/-- C4 (as amended): after `calcRatio` over a record whose point totals start at
zero, each of the six point totals of team `T` holds its sum over the game
list reduced to the range of a C `int`, and so holds the sum itself whenever the
sum is in that range: `pf` the points `T` scored over all its games, `pa` the
points scored against it, `hpf`/`hpa` those sums over the games with
`location` 1 in which `T` is the home team, `vpf`/`vpa` over the games with
`location` 1 in which `T` is the visitor. -/
theorem calcRatio_points (s : State) (T : Nat)
    (h0 : (s.teams T).pf = 0 ∧ (s.teams T).pa = 0 ∧ (s.teams T).hpf = 0 ∧
      (s.teams T).hpa = 0 ∧ (s.teams T).vpf = 0 ∧ (s.teams T).vpa = 0) :
    (((calcRatio s).teams T).pf = wrap32 (pointsScored T s.gamelist) ∧
      ((calcRatio s).teams T).pa = wrap32 (pointsAgainst T s.gamelist) ∧
      ((calcRatio s).teams T).hpf = wrap32 (homePointsScored T s.gamelist) ∧
      ((calcRatio s).teams T).hpa = wrap32 (homePointsAgainst T s.gamelist) ∧
      ((calcRatio s).teams T).vpf = wrap32 (roadPointsScored T s.gamelist) ∧
      ((calcRatio s).teams T).vpa = wrap32 (roadPointsAgainst T s.gamelist)) ∧
    (FitsInt (pointsScored T s.gamelist) →
      ((calcRatio s).teams T).pf = pointsScored T s.gamelist) ∧
    (FitsInt (pointsAgainst T s.gamelist) →
      ((calcRatio s).teams T).pa = pointsAgainst T s.gamelist) ∧
    (FitsInt (homePointsScored T s.gamelist) →
      ((calcRatio s).teams T).hpf = homePointsScored T s.gamelist) ∧
    (FitsInt (homePointsAgainst T s.gamelist) →
      ((calcRatio s).teams T).hpa = homePointsAgainst T s.gamelist) ∧
    (FitsInt (roadPointsScored T s.gamelist) →
      ((calcRatio s).teams T).vpf = roadPointsScored T s.gamelist) ∧
    (FitsInt (roadPointsAgainst T s.gamelist) →
      ((calcRatio s).teams T).vpa = roadPointsAgainst T s.gamelist) := by
  have key := calcRatio_points_wrapped s T h0
  obtain ⟨k1, k2, k3, k4, k5, k6⟩ := key
  exact ⟨⟨k1, k2, k3, k4, k5, k6⟩, fun f => k1.trans (wrap32_of_fits _ f),
    fun f => k2.trans (wrap32_of_fits _ f), fun f => k3.trans (wrap32_of_fits _ f),
    fun f => k4.trans (wrap32_of_fits _ f), fun f => k5.trans (wrap32_of_fits _ f),
    fun f => k6.trans (wrap32_of_fits _ f)⟩

/-- Witness of C4 (as amended): the one-game season, visiting team. -/
theorem calcRatio_points_witness :
    ((calcRatio oneGameState).teams 0).pf = pointsScored 0 oneGameState.gamelist :=
  (calcRatio_points oneGameState 0 (by decide)).2.1 ⟨by decide, by decide⟩

/-- C4 as stated fails: for the input file of two lines
`YYYY-MM-DD A 2000000000 B 0 n`, the points `A` scored over its games are
4000000000, more than an `int` holds (2147483647 at most), and `pf` of `A`
after `calcRatio` is -294967296. -/
theorem calcRatio_points_overflow :
    (readGames bigScoreLines).map (fun s => pointsScored 0 s.gamelist) = some 4000000000 ∧
    (readGames bigScoreLines).map (fun s => ((calcRatio s).teams 0).pf) = some (-294967296) ∧
    (readGames bigScoreLines).map (fun s => (s.teams 0).name) = some ['A'] := by
  refine ⟨by decide, by decide, by decide⟩

/-- Over a duplicate-free list that contains `a`, the quantity guarded by
`T = a` sums to the quantity. -/
theorem sum_single (L : List Nat) (a : Nat) (x : Int) (hn : L.Nodup) (ha : a ∈ L) :
    (L.map (fun T => if T = a then x else 0)).sum = x := by
  induction L with
  | nil => cases ha
  | cons b L ih =>
    rw [List.nodup_cons] at hn
    rcases List.mem_cons.mp ha with rfl | hin
    · have hz : (L.map (fun T => if T = a then x else 0)).sum = 0 := by
        apply List.sum_eq_zero
        intro y hy
        obtain ⟨T, hT, rfl⟩ := List.mem_map.mp hy
        have : T ≠ a := fun e => hn.1 (e ▸ hT)
        simp [this]
      simp [hz]
    · have hb : b ≠ a := fun e => hn.1 (e ▸ hin)
      simp [hb, ih hn.2 hin]

/-- Summing a pointwise sum over a list of addresses. -/
theorem sum_map_add_nat (f k : Nat → Int) (L : List Nat) :
    (L.map (fun T => f T + k T)).sum = (L.map f).sum + (L.map k).sum := by
  induction L with
  | nil => simp
  | cons a L ih => simp [ih]; ring

theorem pointsScored_cons (T : Nat) (g : Game) (gs : List Game) :
    pointsScored T (g :: gs) =
      pointsScored T gs + ((if T = g.visitor then g.vscore else 0) + (if T = g.home then g.hscore else 0)) := by
  obtain ⟨v, hm, vs, sc, loc, r⟩ := g
  unfold pointsScored
  rcases eq_or_ne T v with rfl | hv <;> rcases eq_or_ne T hm with rfl | hh
  · simp [List.filter_cons]
    omega
  · have hh2 : ¬ hm = T := fun e => hh e.symm
    simp [List.filter_cons, hh, hh2]
    omega
  · have hv2 : ¬ v = T := fun e => hv e.symm
    simp [List.filter_cons, hv, hv2]
    omega
  · have hv2 : ¬ v = T := fun e => hv e.symm
    have hh2 : ¬ hm = T := fun e => hh e.symm
    simp [List.filter_cons, hv, hv2, hh, hh2]

theorem pointsAgainst_cons (T : Nat) (g : Game) (gs : List Game) :
    pointsAgainst T (g :: gs) =
      pointsAgainst T gs + ((if T = g.visitor then g.hscore else 0) + (if T = g.home then g.vscore else 0)) := by
  obtain ⟨v, hm, vs, sc, loc, r⟩ := g
  unfold pointsAgainst
  rcases eq_or_ne T v with rfl | hv <;> rcases eq_or_ne T hm with rfl | hh
  · simp [List.filter_cons]
    omega
  · have hh2 : ¬ hm = T := fun e => hh e.symm
    simp [List.filter_cons, hh, hh2]
    omega
  · have hv2 : ¬ v = T := fun e => hv e.symm
    simp [List.filter_cons, hv, hv2]
    omega
  · have hv2 : ¬ v = T := fun e => hv e.symm
    have hh2 : ¬ hm = T := fun e => hh e.symm
    simp [List.filter_cons, hv, hv2, hh, hh2]

/-- Over a duplicate-free team list that holds both teams of every game, the
points scored by the teams add up to the points of the games, and so do the
points scored against them. -/
theorem points_total (L : List Nat) (hn : L.Nodup) (gs : List Game)
    (hin : ∀ g ∈ gs, g.visitor ∈ L ∧ g.home ∈ L) :
    (L.map (fun T => pointsScored T gs)).sum = (gs.map (fun g => g.vscore + g.hscore)).sum ∧
    (L.map (fun T => pointsAgainst T gs)).sum = (gs.map (fun g => g.vscore + g.hscore)).sum := by
  induction gs with
  | nil => simp [pointsScored, pointsAgainst]
  | cons g gs ih =>
    obtain ⟨hv, hh⟩ := hin g (List.mem_cons_self _ _)
    obtain ⟨i1, i2⟩ := ih (fun x hx => hin x (List.mem_cons_of_mem _ hx))
    simp only [pointsScored_cons, pointsAgainst_cons, List.map_cons, List.sum_cons]
    rw [sum_map_add_nat, sum_map_add_nat, sum_single L g.visitor g.vscore hn hv,
      sum_single L g.home g.hscore hn hh, i1, sum_map_add_nat, sum_map_add_nat,
      sum_single L g.visitor g.hscore hn hv, sum_single L g.home g.vscore hn hh, i2]
    constructor <;> ring

/-- C5 (as amended): after `calcRatio`, over a team list without duplicates that
holds both teams of every game and whose point totals start at zero, when for
every team the points it scored and the points scored against it are each in
the range of a C `int`, the sum of `pf` over all teams equals the sum of `pa`
over all teams, and both equal the sum of `vscore + hscore` over all games. -/
theorem calcRatio_symmetric_points (s : State) (hn : s.teamlist.Nodup)
    (hin : ∀ g ∈ s.gamelist, g.visitor ∈ s.teamlist ∧ g.home ∈ s.teamlist)
    (h0 : ∀ T ∈ s.teamlist, (s.teams T).pf = 0 ∧ (s.teams T).pa = 0)
    (hfit : ∀ T ∈ s.teamlist,
      FitsInt (pointsScored T s.gamelist) ∧ FitsInt (pointsAgainst T s.gamelist)) :
    (s.teamlist.map (fun T => ((calcRatio s).teams T).pf)).sum =
      (s.teamlist.map (fun T => ((calcRatio s).teams T).pa)).sum ∧
    (s.teamlist.map (fun T => ((calcRatio s).teams T).pf)).sum =
      (s.gamelist.map (fun g => g.vscore + g.hscore)).sum := by
  obtain ⟨t1, t2⟩ := points_total s.teamlist hn s.gamelist hin
  have p1 : ∀ T ∈ s.teamlist, ((calcRatio s).teams T).pf = pointsScored T s.gamelist := by
    intro T hT
    have key := calcRatioTeams_wrapped Team.pf _ T (fun h g => calcRatioGame_pf h g T)
      s.gamelist s.teams (by rw [(h0 T hT).1]; exact fitsInt_zero)
    rw [sum_map_add_int, sum_guarded (fun g => T = g.visitor),
      sum_guarded (fun g => T = g.home), (h0 T hT).1, zero_add] at key
    have key2 : ((calcRatio s).teams T).pf = wrap32 (pointsScored T s.gamelist) := by
      unfold pointsScored
      simpa only [eq_comm] using key
    rw [key2, wrap32_of_fits _ (hfit T hT).1]
  have p2 : ∀ T ∈ s.teamlist, ((calcRatio s).teams T).pa = pointsAgainst T s.gamelist := by
    intro T hT
    have key := calcRatioTeams_wrapped Team.pa _ T (fun h g => calcRatioGame_pa h g T)
      s.gamelist s.teams (by rw [(h0 T hT).2]; exact fitsInt_zero)
    rw [sum_map_add_int, sum_guarded (fun g => T = g.visitor),
      sum_guarded (fun g => T = g.home), (h0 T hT).2, zero_add] at key
    have key2 : ((calcRatio s).teams T).pa = wrap32 (pointsAgainst T s.gamelist) := by
      unfold pointsAgainst
      simpa only [eq_comm] using key
    rw [key2, wrap32_of_fits _ (hfit T hT).2]
  rw [List.map_congr_left p1, List.map_congr_left p2, t1, t2]
  exact ⟨rfl, rfl⟩

/-- Witness of C5 (as amended): the one-game season. -/
theorem calcRatio_symmetric_points_witness :
    (oneGameState.teamlist.map (fun T => ((calcRatio oneGameState).teams T).pf)).sum =
      (oneGameState.teamlist.map (fun T => ((calcRatio oneGameState).teams T).pa)).sum ∧
    (oneGameState.teamlist.map (fun T => ((calcRatio oneGameState).teams T).pf)).sum =
      (oneGameState.gamelist.map (fun g => g.vscore + g.hscore)).sum :=
  calcRatio_symmetric_points oneGameState (by decide) (by decide) (by decide)
    (fun T hT => by
      have hT2 : T = 0 ∨ T = 1 := by simpa [oneGameState] using hT
      rcases hT2 with rfl | rfl <;> exact ⟨⟨by decide, by decide⟩, ⟨by decide, by decide⟩⟩)

/-- C5 as stated fails: for the input file `YYYY-MM-DD A 2000000000 B 0 n`,
`YYYY-MM-DD A 2000000000 C 0 n` the points of the two games add up to
4000000000 and so does `pa` over the three teams (2000000000 for `B` and for
`C`), while `pf` of `A`, which an `int` holds, is -294967296, and that is the sum
of `pf` over the three teams. -/
theorem calcRatio_symmetric_points_overflow :
    (readGames bigScoreSplitLines).map
        (fun s => (s.gamelist.map (fun g => g.vscore + g.hscore)).sum) = some 4000000000 ∧
    (readGames bigScoreSplitLines).map
        (fun s => (s.teamlist.map (fun T => ((calcRatio s).teams T).pa)).sum) =
      some 4000000000 ∧
    (readGames bigScoreSplitLines).map
        (fun s => (s.teamlist.map (fun T => ((calcRatio s).teams T).pf)).sum) =
      some (-294967296) := by
  refine ⟨by decide, by decide, by decide⟩

/-! ### The solver touches only `grate` and `rating` -/

theorem SolverFrame.refl (h : Heap) : SolverFrame h h := fun _ => rfl

theorem SolverFrame.modify {h1 h2 : Heap} (hf : SolverFrame h1 h2) (p : Nat) (f : Team → Team)
    (hupd : ∀ r : Team, f r = { r with grate := (f r).grate, rating := (f r).rating }) :
    SolverFrame h1 (modify h2 p f) := by
  intro T
  unfold NflRatings.modify
  by_cases hT : T = p
  · simp only [hT, if_true]
    rw [hupd (h2 p)]
    have := hf p
    rw [this]
  · simp only [hT, if_false]
    exact hf T

theorem zeroGrates_frame (L : List Nat) :
    ∀ h1 h2 : Heap, SolverFrame h1 h2 → SolverFrame h1 (zeroGrates h2 L) := by
  induction L with
  | nil => intro h1 h2 hf; exact hf
  | cons t ts ih =>
    intro h1 h2 hf
    exact ih h1 _ (hf.modify t _ (fun r => rfl))

theorem expectGame_frame (pw : ℚ → ℚ → ℚ) (h1 : Heap) (hs : Heap × ℚ) (g : Game)
    (hf : SolverFrame h1 hs.1) : SolverFrame h1 (expectGame pw hs g).1 := by
  have key : SolverFrame h1
      (NflRatings.modify
        (NflRatings.modify hs.1 g.visitor (fun r => { r with grate := r.grate + (g.ratio -
          1 / (1 + pw 10 (((hs.1 g.home).rating - (hs.1 g.visitor).rating) / Kfactor))) }))
        g.home (fun r => { r with grate := r.grate + (1 - g.ratio - (1 -
          1 / (1 + pw 10 (((hs.1 g.home).rating - (hs.1 g.visitor).rating) / Kfactor)))) })) :=
    (hf.modify g.visitor _ (fun r => rfl)).modify g.home _ (fun r => rfl)
  unfold expectGame
  simp only []
  split <;> exact key

theorem expectGames_frame (pw : ℚ → ℚ → ℚ) (h1 : Heap) (gs : List Game) :
    ∀ hs : Heap × ℚ, SolverFrame h1 hs.1 → SolverFrame h1 (expectGames pw hs gs).1 := by
  induction gs with
  | nil => intro hs hf; exact hf
  | cons g gs ih =>
    intro hs hf
    exact ih _ (expectGame_frame pw h1 hs g hf)

theorem updateRatings_frame (L : List Nat) :
    ∀ h1 h2 : Heap, SolverFrame h1 h2 → SolverFrame h1 (updateRatings h2 L) := by
  induction L with
  | nil => intro h1 h2 hf; exact hf
  | cons t ts ih =>
    intro h1 h2 hf
    exact ih h1 _ (hf.modify t _ (fun r => rfl))

/-- One iteration keeps the two lists and changes the heap at most in `grate`
and `rating`. -/
theorem solverPass_frame (pw : ℚ → ℚ → ℚ) (sq : ℚ → ℚ) (h1 : Heap) (s : State)
    (v : SolverVars) (hf : SolverFrame h1 s.teams) :
    SolverFrame h1 (solverPass pw sq s v).1.teams ∧
    (solverPass pw sq s v).1.teamlist = s.teamlist ∧
    (solverPass pw sq s v).1.gamelist = s.gamelist := by
  refine ⟨?_, rfl, rfl⟩
  exact updateRatings_frame _ h1 _
    (expectGames_frame pw h1 _ (_, 0) (zeroGrates_frame _ h1 _ hf))

theorem solverLoop_frame (pw : ℚ → ℚ → ℚ) (sq : ℚ → ℚ) (h1 : Heap) (n : Nat) :
    ∀ (s : State) (v : SolverVars), SolverFrame h1 s.teams →
      SolverFrame h1 (solverLoop pw sq n s v).1.teams ∧
      (solverLoop pw sq n s v).1.teamlist = s.teamlist ∧
      (solverLoop pw sq n s v).1.gamelist = s.gamelist := by
  induction n with
  | zero => intro s v hf; exact ⟨hf, rfl, rfl⟩
  | succ n ih =>
    intro s v hf
    unfold solverLoop
    split
    · obtain ⟨a, b, c⟩ := solverPass_frame pw sq h1 s v hf
      obtain ⟨a2, b2, c2⟩ := ih _ (solverPass pw sq s v).2 a
      exact ⟨a2, b2.trans b, c2.trans c⟩
    · exact ⟨hf, rfl, rfl⟩

/-- The solver keeps the two lists and changes the heap at most in `grate` and
`rating`. -/
theorem calcRating_frame (pw : ℚ → ℚ → ℚ) (sq : ℚ → ℚ) (s : State) :
    SolverFrame s.teams (calcRating pw sq s).teams ∧
    (calcRating pw sq s).teamlist = s.teamlist ∧
    (calcRating pw sq s).gamelist = s.gamelist :=
  solverLoop_frame pw sq s.teams 25000 s solverInit (SolverFrame.refl _)

/-! ### calcSchedStrength: the schedule value -/

theorem schedGame_sched (h : Heap) (g : Game) (T : Nat) :
    (schedGame h g T).sched =
      (h T).sched + ((if T = g.visitor then (h g.home).rating else 0) +
        (if T = g.home then (h g.visitor).rating else 0)) := by
  obtain ⟨v, hm, vs, hs, loc, r⟩ := g
  unfold schedGame
  rcases eq_or_ne T v with rfl | hv <;> rcases eq_or_ne T hm with rfl | hh <;>
    simp only [modify, if_true, if_false, eq_self_iff_true, *] <;> ring

theorem schedGame_keeps (h : Heap) (g : Game) (T : Nat) :
    (schedGame h g T).rating = (h T).rating ∧ (schedGame h g T).won = (h T).won ∧
    (schedGame h g T).lost = (h T).lost ∧ (schedGame h g T).tied = (h T).tied := by
  obtain ⟨v, hm, vs, hs, loc, r⟩ := g
  unfold schedGame
  rcases eq_or_ne T v with rfl | hv <;> rcases eq_or_ne T hm with rfl | hh <;>
    simp only [modify, if_true, if_false, eq_self_iff_true, and_self, *]

theorem schedGames_keeps (gs : List Game) (T : Nat) :
    ∀ h : Heap, (schedGames h gs T).rating = (h T).rating ∧
      (schedGames h gs T).won = (h T).won ∧ (schedGames h gs T).lost = (h T).lost ∧
      (schedGames h gs T).tied = (h T).tied := by
  induction gs with
  | nil => intro h; exact ⟨rfl, rfl, rfl, rfl⟩
  | cons g gs ih =>
    intro h
    obtain ⟨a, b, c, d⟩ := ih (schedGame h g)
    obtain ⟨a2, b2, c2, d2⟩ := schedGame_keeps h g T
    exact ⟨a.trans a2, b.trans b2, c.trans c2, d.trans d2⟩

/-- After the first loop of `calcSchedStrength` the schedule value of `T` has
grown by the rating of the other side of every game `T` plays, once for each
side `T` is on. -/
theorem schedGames_sched (gs : List Game) (T : Nat) :
    ∀ h : Heap, (schedGames h gs T).sched =
      (h T).sched + (gs.map (fun g => (if T = g.visitor then (h g.home).rating else 0) +
        (if T = g.home then (h g.visitor).rating else 0))).sum := by
  induction gs with
  | nil => intro h; simp [schedGames]
  | cons g gs ih =>
    intro h
    simp only [schedGames, List.map_cons, List.sum_cons]
    rw [ih, schedGame_sched]
    have hr : ∀ U, (schedGame h g U).rating = (h U).rating := fun U => (schedGame_keeps h g U).1
    simp only [hr]
    ring

theorem schedDivide_keeps (L : List Nat) (T : Nat) :
    ∀ h : Heap, (schedDivide h L T).rating = (h T).rating ∧
      (schedDivide h L T).won = (h T).won ∧ (schedDivide h L T).lost = (h T).lost ∧
      (schedDivide h L T).tied = (h T).tied := by
  induction L with
  | nil => intro h; exact ⟨rfl, rfl, rfl, rfl⟩
  | cons t ts ih =>
    intro h
    obtain ⟨a, b, c, d⟩ := ih (NflRatings.modify h t (fun r =>
      { r with sched := r.sched / ((r.won + r.lost + r.tied : Int) : ℚ) }))
    unfold schedDivide
    rw [a, b, c, d]
    by_cases hT : T = t <;> simp [NflRatings.modify, hT]

theorem schedDivide_not_mem (L : List Nat) (T : Nat) (hT : T ∉ L) :
    ∀ h : Heap, (schedDivide h L T).sched = (h T).sched := by
  induction L with
  | nil => intro h; rfl
  | cons t ts ih =>
    intro h
    have h1 : T ≠ t := fun e => hT (e ▸ List.mem_cons_self _ _)
    have h2 : T ∉ ts := fun e => hT (List.mem_cons_of_mem _ e)
    unfold schedDivide
    rw [ih h2]
    simp [NflRatings.modify, h1]

/-- The second loop of `calcSchedStrength` divides the schedule value of a team
of a duplicate-free list once, by its `won + lost + tied`. -/
theorem schedDivide_mem (L : List Nat) (T : Nat) (hn : L.Nodup) (hT : T ∈ L) :
    ∀ h : Heap, (schedDivide h L T).sched =
      (h T).sched / (((h T).won + (h T).lost + (h T).tied : Int) : ℚ) := by
  induction L with
  | nil => cases hT
  | cons t ts ih =>
    intro h
    rw [List.nodup_cons] at hn
    unfold schedDivide
    rcases List.mem_cons.mp hT with rfl | hin
    · rw [schedDivide_not_mem ts T hn.1]
      simp [NflRatings.modify]
    · have h1 : T ≠ t := fun e => hn.1 (e ▸ hin)
      rw [ih hn.2 hin]
      simp [NflRatings.modify, h1]

theorem placeLoop_keeps (L : List Nat) (T : Nat) :
    ∀ (h : Heap) (place : Int) (last : Option ℚ),
      (placeLoop h place last L T).sched = (h T).sched ∧
      (placeLoop h place last L T).rating = (h T).rating := by
  induction L with
  | nil => intro h place last; exact ⟨rfl, rfl⟩
  | cons t ts ih =>
    intro h place last
    unfold placeLoop
    simp only []
    split
    · obtain ⟨a, b⟩ := ih (NflRatings.modify h t (fun r => { r with schedplace := place + 1 }))
        (place + 1) (some (h t).sched)
      rw [a, b]
      by_cases hT : T = t <;> simp [NflRatings.modify, hT]
    · obtain ⟨a, b⟩ := ih (NflRatings.modify h t (fun r => { r with schedplace := place + 1 - 1 }))
        (place + 1) last
      rw [a, b]
      by_cases hT : T = t <;> simp [NflRatings.modify, hT]

/-- The schedule value and the rating `calcSchedStrength` leaves in the record
of a team of a duplicate-free team list. -/
theorem calcSchedStrength_sched (s : State) (T : Nat) (hn : s.teamlist.Nodup)
    (hT : T ∈ s.teamlist) :
    ((calcSchedStrength s).teams T).sched =
      ((s.teams T).sched +
        (s.gamelist.map (fun g => (if T = g.visitor then (s.teams g.home).rating else 0) +
          (if T = g.home then (s.teams g.visitor).rating else 0))).sum) /
        (((s.teams T).won + (s.teams T).lost + (s.teams T).tied : Int) : ℚ) ∧
    ∀ U, ((calcSchedStrength s).teams U).rating = (s.teams U).rating := by
  constructor
  · show (placeLoop _ 0 none _ T).sched = _
    rw [(placeLoop_keeps _ T _ 0 none).1, schedDivide_mem _ T hn hT, schedGames_sched]
    obtain ⟨_, b, c, d⟩ := schedGames_keeps s.gamelist T s.teams
    rw [b, c, d]
  · intro U
    show (placeLoop _ 0 none _ U).rating = _
    rw [(placeLoop_keeps _ U _ 0 none).2, (schedDivide_keeps _ U _).1,
      (schedGames_keeps _ U _).1]

/-! ### The schedule value after calcRatio and the solver -/

theorem calcRatioGame_keeps (h : Heap) (g : Game) (T : Nat) :
    (calcRatioGame h g T).sched = (h T).sched ∧ (calcRatioGame h g T).rating = (h T).rating ∧
    (calcRatioGame h g T).grate = (h T).grate := by
  obtain ⟨v, hm, vs, hs, loc, r⟩ := g
  unfold calcRatioGame
  rcases eq_or_ne T v with rfl | hv <;> rcases eq_or_ne T hm with rfl | hh <;>
    by_cases hl : loc = 1 <;> by_cases h1 : vs > hs <;> by_cases h2 : vs < hs <;>
    simp only [modify, if_true, if_false, eq_self_iff_true, and_self, *]

theorem calcRatioTeams_keeps (gs : List Game) (T : Nat) :
    ∀ h : Heap, (calcRatioTeams h gs T).sched = (h T).sched ∧
      (calcRatioTeams h gs T).rating = (h T).rating ∧
      (calcRatioTeams h gs T).grate = (h T).grate := by
  induction gs with
  | nil => intro h; exact ⟨rfl, rfl, rfl⟩
  | cons g gs ih =>
    intro h
    obtain ⟨a, b, c⟩ := ih (calcRatioGame h g)
    obtain ⟨a2, b2, c2⟩ := calcRatioGame_keeps h g T
    exact ⟨a.trans a2, b.trans b2, c.trans c2⟩

/-- What the solver frame says about the fields the schedule pass reads. -/
theorem SolverFrame.fields {h1 h2 : Heap} (hf : SolverFrame h1 h2) (T : Nat) :
    (h2 T).won = (h1 T).won ∧ (h2 T).lost = (h1 T).lost ∧ (h2 T).tied = (h1 T).tied ∧
    (h2 T).sched = (h1 T).sched := by
  refine ⟨?_, ?_, ?_, ?_⟩ <;> rw [hf T]

/-- Rational sums of a guarded quantity over the game list. -/
theorem sum_guarded_rat (p : Game → Prop) [DecidablePred p] (f : Game → ℚ) (gs : List Game) :
    (gs.map (fun g => if p g then f g else 0)).sum =
      ((gs.filter (fun g => decide (p g))).map f).sum := by
  induction gs with
  | nil => simp
  | cons g gs ih =>
    by_cases hp : p g <;> simp [List.filter_cons, hp, ih]

theorem sum_map_add_rat (f k : Game → ℚ) (gs : List Game) :
    (gs.map (fun g => f g + k g)).sum = (gs.map f).sum + (gs.map k).sum := by
  induction gs with
  | nil => simp
  | cons g gs ih => simp [ih]; ring

/-- Without a game that pairs a team with itself, the two guarded sums of the
schedule pass add up to the sum of the ratings of the opponents of `T`, and
these are as many as the games `T` plays. -/
theorem opponentRatings_sum (h : Heap) (T : Nat) (gs : List Game)
    (hne : ∀ g ∈ gs, g.visitor ≠ g.home) :
    (gs.map (fun g => (if T = g.visitor then (h g.home).rating else 0) +
        (if T = g.home then (h g.visitor).rating else 0))).sum =
      (opponentRatings h T gs).sum ∧
    ((opponentRatings h T gs).length : Int) =
      (gs.countP (fun g => decide (g.visitor = T)) : Int) +
        (gs.countP (fun g => decide (g.home = T)) : Int) := by
  induction gs with
  | nil => simp [opponentRatings]
  | cons g gs ih =>
    have hg : g.visitor ≠ g.home := hne g (List.mem_cons_self _ _)
    obtain ⟨i1, i2⟩ := ih (fun x hx => hne x (List.mem_cons_of_mem _ hx))
    obtain ⟨v, hm, vs, hs, loc, r⟩ := g
    unfold opponentRatings at i1 i2 ⊢
    simp only at hg
    by_cases hv : v = T
    · subst hv
      have hh : ¬ hm = v := fun e => hg e.symm
      simp only [List.map_cons, List.sum_cons, List.filter_cons, List.countP_cons, hh, hg,
        true_or, decide_True, decide_False, if_true, if_false, List.length_cons,
        Bool.false_eq_true, eq_self_iff_true] at i1 i2 ⊢
      rw [i1]
      constructor
      · ring
      · push_cast; omega
    · by_cases hh : hm = T
      · subst hh
        have hv2 : ¬ hm = v := fun e => hv e.symm
        simp only [List.map_cons, List.sum_cons, List.filter_cons, List.countP_cons, hv, hv2,
          or_true, decide_True, decide_False, if_true, if_false, List.length_cons,
          Bool.false_eq_true, eq_self_iff_true] at i1 i2 ⊢
        rw [i1]
        constructor
        · ring
        · push_cast; omega
      · have hv2 : ¬ T = v := fun e => hv e.symm
        have hh2 : ¬ T = hm := fun e => hh e.symm
        simp only [List.map_cons, List.sum_cons, List.filter_cons, List.countP_cons, hv, hh,
          hv2, hh2, or_self, decide_False, if_false, Bool.false_eq_true] at i1 i2 ⊢
        rw [i1]
        constructor
        · ring
        · omega

/-- The schedule value after `calcRatio`, the solver and `calcSchedStrength`, by
the two sides on which `T` plays. -/
theorem pipeline_sched (pw : ℚ → ℚ → ℚ) (sq : ℚ → ℚ) (s0 : State) (T : Nat)
    (hn : s0.teamlist.Nodup) (hT : T ∈ s0.teamlist)
    (h0 : (s0.teams T).won = 0 ∧ (s0.teams T).lost = 0 ∧ (s0.teams T).tied = 0 ∧
      (s0.teams T).sched = 0) :
    ((calcSchedStrength (calcRating pw sq (calcRatio s0))).teams T).sched =
      (s0.gamelist.map (fun g =>
          (if T = g.visitor then ((calcRating pw sq (calcRatio s0)).teams g.home).rating else 0) +
          (if T = g.home then ((calcRating pw sq (calcRatio s0)).teams g.visitor).rating
            else 0))).sum /
        (((s0.gamelist.countP (fun g => decide (g.visitor = T)) : Int) +
          (s0.gamelist.countP (fun g => decide (g.home = T)) : Int) : Int) : ℚ) := by
  obtain ⟨hf, htl, hgl⟩ := calcRating_frame pw sq (calcRatio s0)
  obtain ⟨f1, f2, f3, f4⟩ := hf.fields T
  have hn2 : (calcRating pw sq (calcRatio s0)).teamlist.Nodup := by rw [htl]; exact hn
  have hT2 : T ∈ (calcRating pw sq (calcRatio s0)).teamlist := by rw [htl]; exact hT
  obtain ⟨key, _⟩ := calcSchedStrength_sched (calcRating pw sq (calcRatio s0)) T hn2 hT2
  rw [key, f1, f2, f3, f4, hgl]
  have hp := calcRatioTeams_played s0.teams s0.gamelist T
  have hs := (calcRatioTeams_keeps s0.gamelist T s0.teams).1
  obtain ⟨z1, z2, z3, z4⟩ := h0
  simp only [played, z1, z2, z3, add_zero, zero_add] at hp
  have e1 : (calcRatio s0).teams T = calcRatioTeams s0.teams s0.gamelist T := rfl
  have e2 : (calcRatio s0).gamelist =
      s0.gamelist.map (fun g => { g with ratio := gameRatio g }) := rfl
  rw [e1, hp, hs, z4, zero_add, e2, List.map_map]
  rfl

/-- C6 (as amended): after `calcRatio`, the solver and `calcSchedStrength`, for a
team `T` of a duplicate-free team list whose tallies and schedule value started
at zero, the ratings are the ones the solver left, `sched` of `T` is the sum of
the home team's final rating over the games `T` visits plus the sum of the
visitor's final rating over the games `T` hosts, divided by the number of the
former plus the number of the latter (neutral-site games included); when no game
has the same team as visitor and home, this is the arithmetic mean, over all
games `T` played, of the opponent's final rating. -/
theorem calcSchedStrength_mean (pw : ℚ → ℚ → ℚ) (sq : ℚ → ℚ) (s0 : State) (T : Nat)
    (hn : s0.teamlist.Nodup) (hT : T ∈ s0.teamlist)
    (h0 : (s0.teams T).won = 0 ∧ (s0.teams T).lost = 0 ∧ (s0.teams T).tied = 0 ∧
      (s0.teams T).sched = 0) :
    (∀ U, ((calcSchedStrength (calcRating pw sq (calcRatio s0))).teams U).rating =
      ((calcRating pw sq (calcRatio s0)).teams U).rating) ∧
    ((calcSchedStrength (calcRating pw sq (calcRatio s0))).teams T).sched =
      (((s0.gamelist.filter (fun g => decide (g.visitor = T))).map
          (fun g => ((calcRating pw sq (calcRatio s0)).teams g.home).rating)).sum +
        ((s0.gamelist.filter (fun g => decide (g.home = T))).map
          (fun g => ((calcRating pw sq (calcRatio s0)).teams g.visitor).rating)).sum) /
        (((s0.gamelist.countP (fun g => decide (g.visitor = T)) : Int) +
          (s0.gamelist.countP (fun g => decide (g.home = T)) : Int) : Int) : ℚ) ∧
    ((∀ g ∈ s0.gamelist, g.visitor ≠ g.home) →
      ((calcSchedStrength (calcRating pw sq (calcRatio s0))).teams T).sched =
        (opponentRatings (calcRating pw sq (calcRatio s0)).teams T s0.gamelist).sum /
          ((opponentRatings (calcRating pw sq (calcRatio s0)).teams T s0.gamelist).length : ℚ)) := by
  have key := pipeline_sched pw sq s0 T hn hT h0
  obtain ⟨hf, htl, hgl⟩ := calcRating_frame pw sq (calcRatio s0)
  have hn2 : (calcRating pw sq (calcRatio s0)).teamlist.Nodup := by rw [htl]; exact hn
  have hT2 : T ∈ (calcRating pw sq (calcRatio s0)).teamlist := by rw [htl]; exact hT
  refine ⟨(calcSchedStrength_sched _ T hn2 hT2).2, ?_, fun hne => ?_⟩
  · rw [key, sum_map_add_rat, sum_guarded_rat (fun g => T = g.visitor),
      sum_guarded_rat (fun g => T = g.home)]
    simp only [eq_comm]
  · obtain ⟨o1, o2⟩ := opponentRatings_sum (calcRating pw sq (calcRatio s0)).teams T
      s0.gamelist hne
    rw [key, o1, ← o2]
    norm_cast

/-- Witness of C6 (as amended): the one-game season, visiting team. -/
theorem calcSchedStrength_mean_witness :
    ((calcSchedStrength (calcRating (fun _ _ => 1) (fun x => x) (calcRatio oneGameState))).teams
        0).sched =
      (opponentRatings (calcRating (fun _ _ => 1) (fun x => x) (calcRatio oneGameState)).teams 0
          oneGameState.gamelist).sum /
        ((opponentRatings (calcRating (fun _ _ => 1) (fun x => x) (calcRatio oneGameState)).teams 0
          oneGameState.gamelist).length : ℚ) :=
  (calcSchedStrength_mean (fun _ _ => 1) (fun x => x) oneGameState 0 (by decide) (by decide)
    (by decide)).2.2 (by decide)

/-- C6 as stated fails: in the season where `A` plays itself once and visits `B`
once, with the solver's ratings standing at 60 for `A` and 40 for `B`,
`calcSchedStrength` leaves `sched` of `A` at (60 + 60 + 40) / 3, while the mean
of the opponent's rating over the two games `A` played is (60 + 40) / 2. -/
theorem calcSchedStrength_selfgame :
    ((calcSchedStrength selfGameRated).teams 0).sched = 160 / 3 ∧
    (opponentRatings selfGameRated.teams 0 selfGameRated.gamelist).sum /
      ((opponentRatings selfGameRated.teams 0 selfGameRated.gamelist).length : ℚ) = 50 := by
  have h0 : (selfGameRated.teams 0).rating = 60 := by decide
  have h1 : (selfGameRated.teams 1).rating = 40 := by decide
  constructor
  · rw [(calcSchedStrength_sched selfGameRated 0 (by decide) (by decide)).1]
    have hw : (selfGameRated.teams 0).won + (selfGameRated.teams 0).lost +
        (selfGameRated.teams 0).tied = 3 := by decide
    have hs : (selfGameRated.teams 0).sched = 0 := by decide
    have hg : selfGameRated.gamelist.map (fun g => (g.visitor, g.home)) = [(0, 0), (0, 1)] := by
      decide
    have hm : selfGameRated.gamelist.map (fun g =>
          (if 0 = g.visitor then (selfGameRated.teams g.home).rating else 0) +
            (if 0 = g.home then (selfGameRated.teams g.visitor).rating else 0)) =
        (selfGameRated.gamelist.map (fun g => (g.visitor, g.home))).map (fun p =>
          (if 0 = p.1 then (selfGameRated.teams p.2).rating else 0) +
            (if 0 = p.2 then (selfGameRated.teams p.1).rating else 0)) := by
      rw [List.map_map]
      rfl
    rw [hw, hs, hm, hg]
    simp only [List.map_cons, List.map_nil, List.sum_cons, List.sum_nil, h0, h1]
    norm_num
  · have hg : opponentRatings selfGameRated.teams 0 selfGameRated.gamelist =
        [(selfGameRated.teams 0).rating, (selfGameRated.teams 1).rating] := by decide
    rw [hg, h0, h1]
    norm_num

/-! ### calcSchedStrength: the places of a tied run -/

/-- The last loop of `calcSchedStrength` on three teams with equal schedule
values: the first two get place 1, the third gets place 2. -/
theorem placeLoop_three_tied (h : Heap) (a b c : Nat) (hab : a ≠ b) (hac : a ≠ c)
    (hbc : b ≠ c) (e1 : (h a).sched = (h b).sched) (e2 : (h b).sched = (h c).sched) :
    (placeLoop h 0 none [a, b, c] a).schedplace = 1 ∧
    (placeLoop h 0 none [a, b, c] b).schedplace = 1 ∧
    (placeLoop h 0 none [a, b, c] c).schedplace = 2 := by
  have hba : b ≠ a := hab.symm
  have hca : c ≠ a := hac.symm
  have hcb : c ≠ b := hbc.symm
  simp only [placeLoop, NflRatings.modify, ne_eq, reduceCtorEq, not_false_eq_true, if_true,
    if_false, hab, hac, hbc, hba, hca, hcb, eq_self_iff_true, e1, e2, Option.some.injEq,
    not_true_eq_false]
  norm_num

/-- With equal keys the sort returns the list in reverse order. -/
theorem sortTeams_three_tied (key : Nat → ℚ) (a b c : Nat) (e1 : key a = key b)
    (e2 : key b = key c) : sortTeams key [a, b, c] = [c, b, a] := by
  simp [sortTeams, sortLoop, insertTeam, e1, e2]

/-- C7 fails on the code: for the three-team cycle (ratings at 50, where the
solver leaves them), `calcSchedStrength` gives all three teams the schedule
value 50, sorts them as `C`, `B`, `A`, and sets `schedplace` to 1 for `C`, 1 for
`B` and 2 for `A`: the third member of the tied run does not get the first
member's position. -/
theorem calcSchedStrength_cycle_places :
    (calcSchedStrength (calcRatio cycleSeason)).teamlist = [2, 1, 0] ∧
    (((calcSchedStrength (calcRatio cycleSeason)).teams 2).sched = 50 ∧
      ((calcSchedStrength (calcRatio cycleSeason)).teams 1).sched = 50 ∧
      ((calcSchedStrength (calcRatio cycleSeason)).teams 0).sched = 50) ∧
    ((calcSchedStrength (calcRatio cycleSeason)).teams 2).schedplace = 1 ∧
    ((calcSchedStrength (calcRatio cycleSeason)).teams 1).schedplace = 1 ∧
    ((calcSchedStrength (calcRatio cycleSeason)).teams 0).schedplace = 2 := by
  have hr : ∀ U, ((calcRatio cycleSeason).teams U).rating = 50 := by
    intro U
    rw [show (calcRatio cycleSeason).teams U =
      calcRatioTeams cycleSeason.teams cycleSeason.gamelist U from rfl,
      (calcRatioTeams_keeps _ U _).2.1]
    simp only [cycleSeason]
    split_ifs <;> rfl
  have hg : (calcRatio cycleSeason).gamelist.map (fun g => (g.visitor, g.home)) =
      [(2, 0), (1, 2), (0, 1)] := by decide
  have hm : ∀ T : Nat, (calcRatio cycleSeason).gamelist.map (fun g =>
        (if T = g.visitor then ((calcRatio cycleSeason).teams g.home).rating else 0) +
          (if T = g.home then ((calcRatio cycleSeason).teams g.visitor).rating else 0)) =
      ((calcRatio cycleSeason).gamelist.map (fun g => (g.visitor, g.home))).map (fun p =>
        (if T = p.1 then (50 : ℚ) else 0) + (if T = p.2 then (50 : ℚ) else 0)) := by
    intro T
    rw [List.map_map]
    simp only [hr]
    rfl
  -- the schedule values after the first two loops
  have key : ∀ T ∈ [0, 1, 2],
      (schedDivide (schedGames (calcRatio cycleSeason).teams (calcRatio cycleSeason).gamelist)
        (calcRatio cycleSeason).teamlist T).sched = 50 := by
    intro T hT
    rw [schedDivide_mem (calcRatio cycleSeason).teamlist T (by decide) hT, schedGames_sched]
    obtain ⟨_, b, c, d⟩ := schedGames_keeps (calcRatio cycleSeason).gamelist T
      (calcRatio cycleSeason).teams
    rw [b, c, d, hm T, hg]
    simp only [List.mem_cons, List.mem_singleton, List.not_mem_nil, or_false] at hT
    rcases hT with rfl | rfl | rfl
    · have hw : ((calcRatio cycleSeason).teams 0).won + ((calcRatio cycleSeason).teams 0).lost +
          ((calcRatio cycleSeason).teams 0).tied = 2 := by decide
      have hs : ((calcRatio cycleSeason).teams 0).sched = 0 := by decide
      rw [hw, hs]
      norm_num
    · have hw : ((calcRatio cycleSeason).teams 1).won + ((calcRatio cycleSeason).teams 1).lost +
          ((calcRatio cycleSeason).teams 1).tied = 2 := by decide
      have hs : ((calcRatio cycleSeason).teams 1).sched = 0 := by decide
      rw [hw, hs]
      norm_num
    · have hw : ((calcRatio cycleSeason).teams 2).won + ((calcRatio cycleSeason).teams 2).lost +
          ((calcRatio cycleSeason).teams 2).tied = 2 := by decide
      have hs : ((calcRatio cycleSeason).teams 2).sched = 0 := by decide
      rw [hw, hs]
      norm_num
  have k0 := key 0 (by decide)
  have k1 := key 1 (by decide)
  have k2 := key 2 (by decide)
  have hsort : (calcSchedStrength (calcRatio cycleSeason)).teamlist = [2, 1, 0] :=
    sortTeams_three_tied _ 0 1 2 (k0.trans k1.symm) (k1.trans k2.symm)
  have hteams : (calcSchedStrength (calcRatio cycleSeason)).teams =
      placeLoop (schedDivide (schedGames (calcRatio cycleSeason).teams
        (calcRatio cycleSeason).gamelist) (calcRatio cycleSeason).teamlist) 0 none [2, 1, 0] := by
    show placeLoop _ 0 none (sortTeams _ _) = _
    rw [show sortTeams _ (calcRatio cycleSeason).teamlist = [2, 1, 0] from hsort]
  obtain ⟨p2, p1, p0⟩ := placeLoop_three_tied _ 2 1 0 (by decide) (by decide) (by decide)
    (k2.trans k1.symm) (k1.trans k0.symm)
  refine ⟨hsort, ⟨?_, ?_, ?_⟩, ?_, ?_, ?_⟩
  · rw [hteams, (placeLoop_keeps _ 2 _ 0 none).1]; exact k2
  · rw [hteams, (placeLoop_keeps _ 1 _ 0 none).1]; exact k1
  · rw [hteams, (placeLoop_keeps _ 0 _ 0 none).1]; exact k0
  · rw [hteams]; exact p2
  · rw [hteams]; exact p1
  · rw [hteams]; exact p0

/-! ### The sort of the team list -/

theorem insertTeam_perm (key : Nat → ℚ) (t : Nat) (l : List Nat) :
    (insertTeam key t l).Perm (t :: l) := by
  induction l with
  | nil => exact List.Perm.refl _
  | cons sortp rest ih =>
    unfold insertTeam
    split
    · exact (List.Perm.cons sortp ih).trans (List.Perm.swap t sortp rest)
    · exact List.Perm.refl _

theorem insertTeam_sorted (key : Nat → ℚ) (t : Nat) (l : List Nat)
    (hl : l.Pairwise (fun a b => key a ≥ key b)) :
    (insertTeam key t l).Pairwise (fun a b => key a ≥ key b) := by
  induction l with
  | nil => exact List.pairwise_singleton _ _
  | cons sortp rest ih =>
    rw [List.pairwise_cons] at hl
    unfold insertTeam
    split
    · rename_i hlt
      rw [List.pairwise_cons]
      refine ⟨fun a ha => ?_, ih hl.2⟩
      rcases List.mem_cons.mp ((insertTeam_perm key t rest).subset ha) with rfl | hin
      · exact le_of_lt hlt
      · exact hl.1 a hin
    · rename_i hge
      have h1 : key t ≥ key sortp := not_lt.mp hge
      rw [List.pairwise_cons, List.pairwise_cons]
      refine ⟨fun a ha => ?_, hl⟩
      rcases List.mem_cons.mp ha with rfl | hin
      · exact h1
      · exact le_trans (hl.1 a hin) h1

theorem sortLoop_perm (key : Nat → ℚ) (l : List Nat) :
    ∀ sorted : List Nat, (sortLoop key sorted l).Perm (sorted ++ l) := by
  induction l with
  | nil => intro sorted; simp [sortLoop]
  | cons t ts ih =>
    intro sorted
    unfold sortLoop
    refine (ih _).trans ?_
    refine ((insertTeam_perm key t sorted).append_right ts).trans ?_
    have hmid : List.Perm (sorted ++ t :: ts) (t :: (sorted ++ ts)) := List.perm_middle
    simpa using hmid.symm

theorem sortLoop_sorted (key : Nat → ℚ) (l : List Nat) :
    ∀ sorted : List Nat, sorted.Pairwise (fun a b => key a ≥ key b) →
      (sortLoop key sorted l).Pairwise (fun a b => key a ≥ key b) := by
  induction l with
  | nil => intro sorted hs; exact hs
  | cons t ts ih =>
    intro sorted hs
    exact ih _ (insertTeam_sorted key t sorted hs)

/-- The sort returns a rearrangement of the team list. -/
theorem sortTeams_perm (key : Nat → ℚ) (l : List Nat) : (sortTeams key l).Perm l := by
  simpa [sortTeams] using sortLoop_perm key l []

/-- The sort returns the teams with non-increasing keys. -/
theorem sortTeams_sorted (key : Nat → ℚ) (l : List Nat) :
    (sortTeams key l).Pairwise (fun a b => key a ≥ key b) :=
  sortLoop_sorted key l [] List.Pairwise.nil

/-! ### displayRankings: the ranks -/

/-- In a non-increasing list every entry is at least the last one. -/
theorem ge_getLast_of_sorted (kp : List ℚ) (l : ℚ) (hs : kp.Pairwise (fun a b => a ≥ b))
    (hl : kp.getLast? = some l) : ∀ x ∈ kp, x ≥ l := by
  obtain ⟨ys, rfl⟩ := List.getLast?_eq_some_iff.mp hl
  intro x hx
  rw [List.pairwise_append] at hs
  rcases List.mem_append.mp hx with h | h
  · exact hs.2.2 x h l (List.mem_singleton_self l)
  · rw [List.mem_singleton.mp h]

/-- The rank loop, started after a prefix with keys `kp` of a list with
non-increasing ratings: it emits the teams in order, each with the 1-based
position of the first entry of the whole list that has the team's rating. -/
theorem rankLoop_spec (h : Heap) (rest : List Nat) :
    ∀ (kp : List ℚ) (place : Int) (last : Option ℚ) (ranking : Int),
      (kp ++ rest.map (fun t => (h t).rating)).Pairwise (fun a b => a ≥ b) →
      place = (kp.length : Int) → last = kp.getLast? →
      (∀ k, last = some k → ranking = (List.indexOf k kp : Int) + 1) →
      (rankLoop h place last ranking rest).map Prod.snd = rest ∧
      ∀ p ∈ rankLoop h place last ranking rest,
        p.1 = (List.indexOf (h p.2).rating (kp ++ rest.map (fun t => (h t).rating)) : Int) + 1 := by
  induction rest with
  | nil => intro kp place last ranking _ _ _ _; simp [rankLoop]
  | cons t ts ih =>
    intro kp place last ranking hs hp hl hr
    have hs2 : ((kp ++ [(h t).rating]) ++ ts.map (fun t => (h t).rating)).Pairwise
        (fun a b => a ≥ b) := by
      simpa [List.append_assoc] using hs
    have hlist : kp ++ (t :: ts).map (fun t => (h t).rating) =
        (kp ++ [(h t).rating]) ++ ts.map (fun t => (h t).rating) := by
      simp [List.append_assoc]
    have hpl : place + 1 = ((kp ++ [(h t).rating]).length : Int) := by
      rw [hp]; simp
    have hkp : kp.Pairwise (fun a b => a ≥ b) := (List.pairwise_append.mp hs).1
    have ha : ∀ x ∈ kp, x ≥ (h t).rating := fun x hx =>
      (List.pairwise_append.mp hs).2.2 x hx _ (by simp)
    unfold rankLoop
    simp only []
    by_cases hc : last = some (h t).rating
    · -- the rating of `t` equals the previous one: the rank is kept
      have hmem : (h t).rating ∈ kp := by
        rw [hc] at hl
        exact List.mem_of_getLast?_eq_some hl.symm
      have hrank : ranking = (List.indexOf (h t).rating kp : Int) + 1 := hr _ hc
      rw [if_neg (not_not.mpr hc)]
      obtain ⟨i1, i2⟩ := ih (kp ++ [(h t).rating]) (place + 1) last ranking hs2 hpl
        (by rw [List.getLast?_concat]; exact hc)
        (by
          intro k hk
          rw [hc] at hk
          cases hk
          rw [List.indexOf_append_of_mem hmem]
          exact hrank)
      refine ⟨by simp [i1], ?_⟩
      intro p hpm
      rcases List.mem_cons.mp hpm with rfl | hin
      · simp only []
        rw [List.indexOf_append_of_mem hmem]
        exact hrank
      · rw [hlist]
        exact i2 p hin
    · -- a new rating: the rank is the position
      have hnot : (h t).rating ∉ kp := by
        intro hin
        have hne : kp.getLast? ≠ none := by
          intro e
          rw [List.getLast?_eq_none_iff] at e
          rw [e] at hin
          cases hin
        obtain ⟨l, hlast⟩ := Option.ne_none_iff_exists'.mp hne
        have h1 : l ≥ (h t).rating := ha l (List.mem_of_getLast?_eq_some hlast)
        have h2 : (h t).rating ≥ l := ge_getLast_of_sorted kp l hkp hlast _ hin
        apply hc
        rw [hl, hlast, le_antisymm h1 h2]
      have hidx : List.indexOf (h t).rating (kp ++ [(h t).rating]) = kp.length := by
        rw [List.indexOf_append_of_not_mem hnot]
        simp
      rw [if_pos hc]
      obtain ⟨i1, i2⟩ := ih (kp ++ [(h t).rating]) (place + 1) (some (h t).rating) (place + 1)
        hs2 hpl (by rw [List.getLast?_concat])
        (by
          intro k hk
          cases hk
          rw [hidx, hp])
      refine ⟨by simp [i1], ?_⟩
      intro p hpm
      rcases List.mem_cons.mp hpm with rfl | hin
      · simp only []
        rw [hlist, List.indexOf_append_of_mem (by simp), hidx, hp]
      · rw [hlist]
        exact i2 p hin

/-- C8: `displayRankings` prints the teams of the list in an order that is a
rearrangement of the list with non-increasing ratings, and the rank it prints
for each team is the 1-based position, in that order, of the first team whose
rating equals the team's rating (the first team of its run of equal ratings);
the value the uninitialised `ranking` starts with plays no part. -/
theorem displayRankings_ranks (s : State) (ranking0 : Int) :
    (displayRankings s ranking0).2.map Prod.snd = (displayRankings s ranking0).1.teamlist ∧
    (displayRankings s ranking0).1.teamlist.Perm s.teamlist ∧
    (displayRankings s ranking0).1.teamlist.Pairwise
      (fun a b => (s.teams a).rating ≥ (s.teams b).rating) ∧
    ∀ p ∈ (displayRankings s ranking0).2,
      p.1 = (List.indexOf (s.teams p.2).rating
        ((displayRankings s ranking0).1.teamlist.map (fun t => (s.teams t).rating)) : Int) + 1 := by
  have hsorted := sortTeams_sorted (fun t => (s.teams t).rating) s.teamlist
  have hperm := sortTeams_perm (fun t => (s.teams t).rating) s.teamlist
  obtain ⟨r1, r2⟩ := rankLoop_spec s.teams
    (sortTeams (fun t => (s.teams t).rating) s.teamlist) [] 0 none ranking0
    (by simpa [List.pairwise_map] using hsorted) (by simp) (by simp) (by intro k hk; cases hk)
  exact ⟨r1, hperm, hsorted, by simpa using r2⟩

/-! ### calcRating: the iteration cap and the message -/

theorem solverPass_i (pw : ℚ → ℚ → ℚ) (sq : ℚ → ℚ) (s : State) (v : SolverVars) :
    (solverPass pw sq s v).2.i = v.i + 1 ∧
    (solverPass pw sq s v).2.iterations = v.iterations + 1 := ⟨rfl, rfl⟩

/-- The loop counter never passes `max_iterations`, and `iterations` moves with
it. -/
theorem solverLoop_i_le (pw : ℚ → ℚ → ℚ) (sq : ℚ → ℚ) (n : Nat) :
    ∀ (s : State) (v : SolverVars), v.i ≤ max_iterations → v.iterations = v.i →
      (solverLoop pw sq n s v).2.i ≤ max_iterations ∧
      (solverLoop pw sq n s v).2.iterations = (solverLoop pw sq n s v).2.i := by
  induction n with
  | zero => intro s v hi hit; exact ⟨hi, hit⟩
  | succ n ih =>
    intro s v hi hit
    unfold solverLoop
    split
    · rename_i hc
      obtain ⟨e1, e2⟩ := solverPass_i pw sq s v
      apply ih
      · rw [e1]; have := hc.1; omega
      · rw [e1, e2, hit]
    · exact ⟨hi, hit⟩

/-- The bound 25000 on the recursion is never what stops the loop: when the loop
is left, its test `i < max_iterations && stdDevRatioDiff > tolerance` is false. -/
theorem solverLoop_exit (pw : ℚ → ℚ → ℚ) (sq : ℚ → ℚ) (n : Nat) :
    ∀ (s : State) (v : SolverVars), v.i + (n : Int) = max_iterations →
      ¬ ((solverLoop pw sq n s v).2.i < max_iterations ∧
        (solverLoop pw sq n s v).2.stdDevRatioDiff > tolerance) := by
  induction n with
  | zero =>
    intro s v hi hc
    have := hc.1
    simp only [solverLoop] at this
    simp at hi
    omega
  | succ n ih =>
    intro s v hi
    unfold solverLoop
    split
    · apply ih
      rw [(solverPass_i pw sq s v).1]
      push_cast at hi ⊢
      omega
    · rename_i hc
      exact hc

/-- C9, the part that holds and the part that fails on the code: the loop of
`calcRating` never runs more than 25000 iterations, its counter `i` ends at most
at `max_iterations`, and therefore the test `i > max_iterations` after the loop
is never true: for every input, also one on which the cap stopped the loop with
`stdDevRatioDiff` still above `tolerance`, the message is the one of the
"have converged" branch. -/
theorem calcRating_never_reports_nonconvergence (pw : ℚ → ℚ → ℚ) (sq : ℚ → ℚ) (s : State) :
    calcRatingIterations pw sq s ≤ 25000 ∧
    (solverRun pw sq s).2.i ≤ max_iterations ∧
    calcRatingReport pw sq s = Report.converged := by
  have key := solverLoop_i_le pw sq 25000 s solverInit (by decide) rfl
  have hrun : solverRun pw sq s = solverLoop pw sq 25000 s solverInit := rfl
  rw [← hrun] at key
  refine ⟨?_, key.1, ?_⟩
  · unfold calcRatingIterations
    rw [key.2]
    exact key.1
  · unfold calcRatingReport
    rw [if_neg (not_lt.mpr key.1)]

theorem tolerance_lt_one : tolerance < 1 := by
  unfold tolerance
  norm_num

/-- When every iteration leaves `stdDevRatioDiff` above `tolerance`, the loop
stops at the cap, with `i = max_iterations`. -/
theorem solverLoop_cap (pw : ℚ → ℚ → ℚ) (sq : ℚ → ℚ)
    (hbig : ∀ s v, (solverPass pw sq s v).2.stdDevRatioDiff > tolerance) (n : Nat) :
    ∀ (s : State) (v : SolverVars), v.i + (n : Int) = max_iterations →
      v.stdDevRatioDiff > tolerance →
      (solverLoop pw sq n s v).2.i = max_iterations ∧
      (solverLoop pw sq n s v).2.stdDevRatioDiff > tolerance := by
  induction n with
  | zero =>
    intro s v hi hd
    simp at hi
    exact ⟨hi, hd⟩
  | succ n ih =>
    intro s v hi hd
    have hlt : v.i < max_iterations := by push_cast at hi; omega
    unfold solverLoop
    rw [if_pos ⟨hlt, hd⟩]
    apply ih
    · rw [(solverPass_i pw sq s v).1]
      push_cast at hi ⊢
      omega
    · exact hbig s v

/-- The cap branch in the model: with a `pow` whose value is always 1 (so that
`stdDevRatioDiff` is 1 after every iteration) the loop is stopped by the cap with
`stdDevRatioDiff` above `tolerance`, and the message is still the one of the
"have converged" branch. -/
theorem calcRating_cap_reached (sq : ℚ → ℚ) (s : State) :
    (solverRun (fun _ _ => 1) sq s).2.i = max_iterations ∧
    (solverRun (fun _ _ => 1) sq s).2.stdDevRatioDiff > tolerance ∧
    calcRatingReport (fun _ _ => 1) sq s = Report.converged := by
  have hbig : ∀ s v, (solverPass (fun _ _ => 1) sq s v).2.stdDevRatioDiff > tolerance := by
    intro s v
    show (1 : ℚ) > tolerance
    exact tolerance_lt_one
  have h100 : solverInit.stdDevRatioDiff > tolerance := by
    show (100 : ℚ) > tolerance
    have := tolerance_lt_one
    linarith
  have key := solverLoop_cap (fun _ _ => 1) sq hbig 25000 s solverInit (by decide) h100
  have hrun : solverRun (fun _ _ => 1) sq s = solverLoop (fun _ _ => 1) sq 25000 s solverInit :=
    rfl
  rw [← hrun] at key
  refine ⟨key.1, key.2, ?_⟩
  unfold calcRatingReport
  rw [if_neg (by rw [key.1]; exact lt_irrefl _)]

/-! ### readGames: the location flag -/

/-- C10 fails on the code: the loop that should read the flag runs its body only
on characters below `'!'`, so the flag character itself is never looked at.  For
the line `YYYY-MM-DD A 30 B 10 1` (one blank before the flag) the body never
runs and `location` keeps the 0 of the zeroed game: after `readGames` and
`calcRatio`, `A` has `won = 1` but `vwon = 0`, and `B` has `lost = 1` but
`hlost = 0`.  For a line with two blanks before the flag `n` the body runs on the
second blank and sets `location` to 1. -/
theorem readGames_location_flag :
    parseLine homeLossLine =
      LineResult.game
        { vname := ['A'], vscore := 30, hname := ['B'], hscore := 10, location := 0 } ∧
    (readGames [homeLossLine]).map (fun s =>
        s.gamelist.map (fun g => (g.visitor, g.home, g.location))) = some [(0, 1, 0)] ∧
    (readGames [homeLossLine]).map (fun s => ((s.teams 0).name, (s.teams 1).name)) =
      some (['A'], ['B']) ∧
    (readGames [homeLossLine]).map (fun s =>
        (((calcRatio s).teams 0).won, ((calcRatio s).teams 0).vwon)) = some (1, 0) ∧
    (readGames [homeLossLine]).map (fun s =>
        (((calcRatio s).teams 1).lost, ((calcRatio s).teams 1).hlost)) = some (1, 0) ∧
    parseLine neutralLine =
      LineResult.game
        { vname := ['A'], vscore := 7, hname := ['B'], hscore := 21, location := 1 } := by
  refine ⟨by decide, by decide, by decide, by decide, by decide, by decide⟩

/-! ### The example states are what readGames builds -/

/-- `readGames` on the line `YYYY-MM-DD A 30 B 10  1` gives `oneGameState`. -/
theorem oneGameState_read :
    (readGames [fileLine "YYYY-MM-DD A 30 B 10  1"]).map
        (fun s => (s.teamlist, s.gamelist, s.nteams)) =
      some (oneGameState.teamlist, oneGameState.gamelist, oneGameState.nteams) ∧
    (readGames [fileLine "YYYY-MM-DD A 30 B 10  1"]).map (fun s => [s.teams 0, s.teams 1]) =
      some [oneGameState.teams 0, oneGameState.teams 1] := by
  refine ⟨by decide, by decide⟩

/-- `readGames` on `selfGameLines` gives `selfGameState`. -/
theorem selfGameState_read :
    (readGames selfGameLines).map (fun s => (s.teamlist, s.gamelist, s.nteams)) =
      some (selfGameState.teamlist, selfGameState.gamelist, selfGameState.nteams) ∧
    (readGames selfGameLines).map (fun s => s.teams 0) = some (selfGameState.teams 0) := by
  refine ⟨by decide, by decide⟩

/-- `readGames` on `selfGameSeasonLines` gives `selfGameSeason`. -/
theorem selfGameSeason_read :
    (readGames selfGameSeasonLines).map (fun s => (s.teamlist, s.gamelist, s.nteams)) =
      some (selfGameSeason.teamlist, selfGameSeason.gamelist, selfGameSeason.nteams) ∧
    (readGames selfGameSeasonLines).map (fun s => [s.teams 0, s.teams 1]) =
      some [selfGameSeason.teams 0, selfGameSeason.teams 1] := by
  refine ⟨by decide, by decide⟩

/-- `readGames` on `cycleLines` gives `cycleSeason`. -/
theorem cycleSeason_read :
    (readGames cycleLines).map (fun s => (s.teamlist, s.gamelist, s.nteams)) =
      some (cycleSeason.teamlist, cycleSeason.gamelist, cycleSeason.nteams) ∧
    (readGames cycleLines).map (fun s => [s.teams 0, s.teams 1, s.teams 2]) =
      some [cycleSeason.teams 0, cycleSeason.teams 1, cycleSeason.teams 2] := by
  refine ⟨by decide, by decide⟩

/-- `readGames` on `splitLines` gives `splitSeason`. -/
theorem splitSeason_read :
    (readGames splitLines).map (fun s => (s.teamlist, s.gamelist, s.nteams)) =
      some (splitSeason.teamlist, splitSeason.gamelist, splitSeason.nteams) ∧
    (readGames splitLines).map (fun s => [s.teams 0, s.teams 1]) =
      some [splitSeason.teams 0, splitSeason.teams 1] := by
  refine ⟨by decide, by decide⟩

/-! ### adjPoints: the adjustment law -/

/-- C11: `adjPoints s` is `s - s*s/400`; it is 0 at 0, 100 at 200, and
non-negative for every integer score from 0 to 400. -/
theorem adjPoints_law :
    adjPoints 0 = 0 ∧ adjPoints 200 = 100 ∧
    ∀ s : Int, 0 ≤ s → s ≤ 400 →
      adjPoints s = (s : ℚ) - (s : ℚ) * (s : ℚ) / 400 ∧ adjPoints s ≥ 0 := by
  refine ⟨by norm_num [adjPoints], by norm_num [adjPoints], fun s h0 h1 => ?_⟩
  have e : adjPoints s = (s : ℚ) - (s : ℚ) * (s : ℚ) / 400 := by
    unfold adjPoints
    push_cast
    ring
  refine ⟨e, ?_⟩
  have a : (0 : ℚ) ≤ s := by exact_mod_cast h0
  have b : (s : ℚ) ≤ 400 := by exact_mod_cast h1
  have e2 : adjPoints s = (s : ℚ) * (400 - (s : ℚ)) / 400 := by
    rw [e]
    ring
  rw [e2]
  exact div_nonneg (mul_nonneg a (by linarith)) (by norm_num)

/-- Witness of C11: the score 100. -/
theorem adjPoints_law_witness :
    (0 : Int) ≤ 100 ∧ (100 : Int) ≤ 400 ∧
      adjPoints 100 = ((100 : Int) : ℚ) - ((100 : Int) : ℚ) * ((100 : Int) : ℚ) / 400 ∧
      adjPoints 100 ≥ 0 :=
  ⟨by decide, by decide, adjPoints_law.2.2 100 (by decide) (by decide)⟩

/-! ### gameRatio: the two sides of a result -/

/-- The ratios of two games whose scores are each other's mirror add up to 1. -/
theorem gameRatio_mirror (g g2 : Game) (h1 : g2.vscore = g.hscore) (h2 : g2.hscore = g.vscore) :
    gameRatio g + gameRatio g2 = 1 := by
  unfold gameRatio
  rw [h1, h2]
  have hx : (0 : ℚ) ≤ (adjPoints g.vscore / 6) * (adjPoints g.vscore / 6) := mul_self_nonneg _
  have hy : (0 : ℚ) ≤ (adjPoints g.hscore / 6) * (adjPoints g.hscore / 6) := mul_self_nonneg _
  generalize (adjPoints g.vscore / 6) * (adjPoints g.vscore / 6) = x at hx ⊢
  generalize (adjPoints g.hscore / 6) * (adjPoints g.hscore / 6) = y at hy ⊢
  have d1 : x + y + 2 ≠ 0 := by positivity
  have d2 : y + x + 2 ≠ 0 := by positivity
  rcases lt_trichotomy g.vscore g.hscore with h | h | h
  · have n1 : ¬ g.vscore > g.hscore := not_lt.mpr (le_of_lt h)
    have n2 : ¬ g.vscore = g.hscore := ne_of_lt h
    simp only [n1, n2, if_false, gt_iff_lt, h, if_true]
    field_simp
    ring
  · have n1 : ¬ g.hscore > g.hscore := lt_irrefl _
    simp only [h, n1, if_false, if_true]
    field_simp
    ring
  · have n1 : ¬ g.hscore > g.vscore := not_lt.mpr (le_of_lt h)
    have n2 : ¬ g.hscore = g.vscore := ne_of_lt h
    simp only [n1, n2, if_false, gt_iff_lt, h, if_true]
    field_simp
    ring

/-- C19: for all integer scores `a` and `b` (the non-negative ones among them),
`gameRatio` of a game with visitor score `a` and home score `b` plus
`gameRatio` of a game with visitor score `b` and home score `a` is 1, whatever
the other fields of the two games are. -/
theorem gameRatio_swap (v h v2 h2 : Nat) (a b loc loc2 : Int) (r r2 : ℚ) :
    gameRatio { visitor := v, home := h, vscore := a, hscore := b, location := loc, ratio := r } +
      gameRatio
        { visitor := v2, home := h2, vscore := b, hscore := a, location := loc2, ratio := r2 } =
      1 :=
  gameRatio_mirror _ _ rfl rfl

/-! ### The sort of the team list: rearrangement, order, ties -/

/-- C17: the insertion sort returns a rearrangement of the team list it is given
(no team lost or duplicated) in which the keys never increase; so do
`calcSchedStrength`, for the key `sched`, and `displayRankings`, for the key
`rating`. -/
theorem sortTeams_perm_sorted (key : Nat → ℚ) (l : List Nat) (s : State) (ranking0 : Int) :
    ((sortTeams key l).Perm l ∧ (sortTeams key l).Pairwise (fun a b => key a ≥ key b)) ∧
    ((calcSchedStrength s).teamlist.Perm s.teamlist ∧
      (calcSchedStrength s).teamlist.Pairwise (fun a b =>
        ((calcSchedStrength s).teams a).sched ≥ ((calcSchedStrength s).teams b).sched)) ∧
    ((displayRankings s ranking0).1.teamlist.Perm s.teamlist ∧
      (displayRankings s ranking0).1.teamlist.Pairwise (fun a b =>
        ((displayRankings s ranking0).1.teams a).rating ≥
          ((displayRankings s ranking0).1.teams b).rating)) := by
  refine ⟨⟨sortTeams_perm key l, sortTeams_sorted key l⟩, ⟨sortTeams_perm _ _, ?_⟩,
    ⟨sortTeams_perm _ _, sortTeams_sorted _ _⟩⟩
  have hs := sortTeams_sorted
    (fun t => (schedDivide (schedGames s.teams s.gamelist) s.teamlist t).sched) s.teamlist
  refine hs.imp ?_
  intro a b hab
  show (placeLoop _ 0 none _ a).sched ≥ (placeLoop _ 0 none _ b).sched
  rw [(placeLoop_keeps _ a _ 0 none).1, (placeLoop_keeps _ b _ 0 none).1]
  exact hab

/-- The teams with a given key, after one insertion: the new team comes before
the teams that have its key. -/
theorem insertTeam_filter (key : Nat → ℚ) (t : Nat) (k : ℚ) (l : List Nat) :
    (insertTeam key t l).filter (fun a => decide (key a = k)) =
      if key t = k then t :: l.filter (fun a => decide (key a = k))
      else l.filter (fun a => decide (key a = k)) := by
  induction l with
  | nil => by_cases h : key t = k <;> simp [insertTeam, h]
  | cons sortp rest ih =>
    unfold insertTeam
    by_cases hlt : key t < key sortp
    · simp only [hlt, if_true, List.filter_cons, ih]
      by_cases h : key t = k
      · have h2 : ¬ key sortp = k := fun e => by rw [h, e] at hlt; exact lt_irrefl _ hlt
        simp [h, h2]
      · simp [h]
    · simp only [hlt, if_false, List.filter_cons]
      by_cases h : key t = k <;> simp [h]

/-- The teams with a given key, after the outer loop of the sort: the teams of
the old list in reverse order, then those already linked in. -/
theorem sortLoop_filter (key : Nat → ℚ) (k : ℚ) (l : List Nat) :
    ∀ sorted : List Nat,
      (sortLoop key sorted l).filter (fun a => decide (key a = k)) =
        (l.filter (fun a => decide (key a = k))).reverse ++
          sorted.filter (fun a => decide (key a = k)) := by
  induction l with
  | nil => intro sorted; simp [sortLoop]
  | cons t ts ih =>
    intro sorted
    unfold sortLoop
    rw [ih, insertTeam_filter]
    by_cases h : key t = k <;> simp [h, List.filter_cons]

/-- Teams with equal keys come out of the sort in the reverse of the order in
which they went in. -/
theorem sortTeams_filter (key : Nat → ℚ) (k : ℚ) (l : List Nat) :
    (sortTeams key l).filter (fun a => decide (key a = k)) =
      (l.filter (fun a => decide (key a = k))).reverse := by
  simpa [sortTeams] using sortLoop_filter key k l []

/-- C15 (as amended): the sort by `sched` in `calcSchedStrength` reverses ties.
For every state and every value `k`, the teams whose `sched` is `k` stand in the
sorted list in the reverse of the order they had in the list before the sort;
so of two teams `a`, `b` with equal `sched`, `a` before `b` in the old list, `b`
comes before `a` in the sorted list. -/
theorem calcSchedStrength_reverses_ties (s : State) :
    (∀ k : ℚ,
      (calcSchedStrength s).teamlist.filter
          (fun t => decide (((calcSchedStrength s).teams t).sched = k)) =
        (s.teamlist.filter
          (fun t => decide (((calcSchedStrength s).teams t).sched = k))).reverse) ∧
    (∀ a b : Nat, ((calcSchedStrength s).teams a).sched = ((calcSchedStrength s).teams b).sched →
      List.Sublist [a, b] s.teamlist → List.Sublist [b, a] (calcSchedStrength s).teamlist) := by
  have hkey : ∀ t, ((calcSchedStrength s).teams t).sched =
      (schedDivide (schedGames s.teams s.gamelist) s.teamlist t).sched := by
    intro t
    show (placeLoop _ 0 none _ t).sched = _
    rw [(placeLoop_keeps _ t _ 0 none).1]
  have hfil : ∀ k : ℚ,
      (calcSchedStrength s).teamlist.filter
          (fun t => decide (((calcSchedStrength s).teams t).sched = k)) =
        (s.teamlist.filter
          (fun t => decide (((calcSchedStrength s).teams t).sched = k))).reverse := by
    intro k
    simp only [hkey]
    exact sortTeams_filter _ k s.teamlist
  refine ⟨hfil, fun a b hab hsub => ?_⟩
  have h1 := hsub.filter (fun t => decide (((calcSchedStrength s).teams t).sched =
    ((calcSchedStrength s).teams b).sched))
  simp only [List.filter_cons, hab, decide_True, if_true, List.filter_nil] at h1
  have h2 := h1.reverse
  rw [← hfil] at h2
  simp only [List.reverse_cons, List.reverse_nil, List.nil_append, List.singleton_append] at h2
  exact h2.trans (List.filter_sublist _)

/-! ### calcRating: what one iteration does to a rating -/

theorem zeroGrates_apply (L : List Nat) (T : Nat) :
    ∀ h : Heap, zeroGrates h L T = if T ∈ L then { h T with grate := 0 } else h T := by
  induction L with
  | nil => intro h; simp [zeroGrates]
  | cons t ts ih =>
    intro h
    unfold zeroGrates
    rw [ih]
    by_cases hT : T = t
    · subst hT
      by_cases hm : T ∈ ts <;> simp [NflRatings.modify, hm]
    · by_cases hm : T ∈ ts <;> simp [NflRatings.modify, hm, hT]

theorem expectGame_rating (pw : ℚ → ℚ → ℚ) (hs : Heap × ℚ) (g : Game) (T : Nat) :
    ((expectGame pw hs g).1 T).rating = (hs.1 T).rating := by
  obtain ⟨v, hm, vs, sc, loc, r⟩ := g
  unfold expectGame
  simp only []
  split <;> rcases eq_or_ne T v with rfl | hv <;> rcases eq_or_ne T hm with rfl | hh <;>
    simp only [modify, if_true, if_false, eq_self_iff_true, *]

theorem expectGame_grate (pw : ℚ → ℚ → ℚ) (hs : Heap × ℚ) (g : Game) (T : Nat) :
    ((expectGame pw hs g).1 T).grate =
      (hs.1 T).grate + ((if T = g.visitor then g.ratio - expectedRatio pw hs.1 g else 0) +
        (if T = g.home then 1 - g.ratio - (1 - expectedRatio pw hs.1 g) else 0)) := by
  obtain ⟨v, hm, vs, sc, loc, r⟩ := g
  unfold expectGame expectedRatio Kfactor
  simp only []
  split <;> rcases eq_or_ne T v with rfl | hv <;> rcases eq_or_ne T hm with rfl | hh <;>
    simp only [modify, if_true, if_false, eq_self_iff_true, *] <;> ring

theorem expectedRatio_congr (pw : ℚ → ℚ → ℚ) (h1 h2 : Heap) (g : Game)
    (hr : ∀ U, (h1 U).rating = (h2 U).rating) : expectedRatio pw h1 g = expectedRatio pw h2 g := by
  unfold expectedRatio
  rw [hr, hr]

theorem expectGames_rating (pw : ℚ → ℚ → ℚ) (gs : List Game) (T : Nat) :
    ∀ hs : Heap × ℚ, ((expectGames pw hs gs).1 T).rating = (hs.1 T).rating := by
  induction gs with
  | nil => intro hs; rfl
  | cons g gs ih =>
    intro hs
    unfold expectGames
    rw [ih, expectGame_rating]

/-- After the loop over the games, `grate` of `T` has grown by `ratio - v_expected`
for every game `T` visits and by `1 - ratio - (1 - v_expected)` for every game
`T` hosts, the expected ratios being those for the ratings before the loop. -/
theorem expectGames_grate (pw : ℚ → ℚ → ℚ) (gs : List Game) (T : Nat) :
    ∀ hs : Heap × ℚ, ((expectGames pw hs gs).1 T).grate =
      (hs.1 T).grate + (gs.map (fun g =>
        (if T = g.visitor then g.ratio - expectedRatio pw hs.1 g else 0) +
          (if T = g.home then 1 - g.ratio - (1 - expectedRatio pw hs.1 g) else 0))).sum := by
  induction gs with
  | nil => intro hs; simp [expectGames]
  | cons g gs ih =>
    intro hs
    unfold expectGames
    rw [ih, expectGame_grate]
    have hc : ∀ x : Game, expectedRatio pw (expectGame pw hs g).1 x = expectedRatio pw hs.1 x :=
      fun x => expectedRatio_congr pw _ _ x (fun U => expectGame_rating pw hs g U)
    simp only [hc, List.map_cons, List.sum_cons]
    ring

theorem updateRatings_keeps (L : List Nat) (T : Nat) :
    ∀ h : Heap, (updateRatings h L T).grate = (h T).grate ∧
      (updateRatings h L T).won = (h T).won ∧ (updateRatings h L T).lost = (h T).lost ∧
      (updateRatings h L T).tied = (h T).tied := by
  induction L with
  | nil => intro h; exact ⟨rfl, rfl, rfl, rfl⟩
  | cons t ts ih =>
    intro h
    unfold updateRatings
    obtain ⟨a, b, c, d⟩ := ih (NflRatings.modify h t (fun r =>
      { r with rating := r.rating + Kfactor * (r.grate / ((r.won + r.lost + r.tied : Int) : ℚ)) }))
    rw [a, b, c, d]
    by_cases hT : T = t <;> simp [NflRatings.modify, hT]

/-- The last inner loop adds `Kfactor * (grate / (won + lost + tied))` to the
rating of `T` once for every place `T` has in the list. -/
theorem updateRatings_rating (L : List Nat) (T : Nat) :
    ∀ h : Heap, (updateRatings h L T).rating =
      (h T).rating + (L.count T : ℚ) *
        (Kfactor * ((h T).grate / (((h T).won + (h T).lost + (h T).tied : Int) : ℚ))) := by
  induction L with
  | nil => intro h; simp [updateRatings]
  | cons t ts ih =>
    intro h
    unfold updateRatings
    rw [ih]
    by_cases hT : T = t
    · subst hT
      simp only [NflRatings.modify, if_true, List.count_cons_self]
      push_cast
      ring
    · have hT2 : ¬ (t == T) = true := by simpa using fun e : t = T => hT e.symm
      simp only [NflRatings.modify, hT, if_false, List.count_cons, hT2, add_zero,
        Bool.false_eq_true]

/-- The two guarded terms of the games loop, summed over the game list, are the
residual sum of `T`. -/
theorem residual_sum (pw : ℚ → ℚ → ℚ) (h : Heap) (T : Nat) (gs : List Game) :
    (gs.map (fun g =>
        (if T = g.visitor then g.ratio - expectedRatio pw h g else 0) +
          (if T = g.home then 1 - g.ratio - (1 - expectedRatio pw h g) else 0))).sum =
      residual pw h T gs := by
  unfold residual
  induction gs with
  | nil => simp
  | cons g gs ih =>
    obtain ⟨v, hm, vs, sc, loc, r⟩ := g
    simp only [List.map_cons, List.sum_cons, List.filter_cons, ih]
    rcases eq_or_ne T v with rfl | hv <;> rcases eq_or_ne T hm with rfl | hh
    · simp
    · have hh2 : ¬ hm = T := fun e => hh e.symm
      simp [hh, hh2]
      ring
    · have hv2 : ¬ v = T := fun e => hv e.symm
      simp [hv, hv2]
      ring
    · have hv2 : ¬ v = T := fun e => hv e.symm
      have hh2 : ¬ hm = T := fun e => hh e.symm
      simp [hv, hv2, hh, hh2]

/-- The rating of any record after one iteration. -/
theorem solverPass_rating (pw : ℚ → ℚ → ℚ) (sq : ℚ → ℚ) (s : State) (v : SolverVars) (T : Nat) :
    ((solverPass pw sq s v).1.teams T).rating =
      (s.teams T).rating + (s.teamlist.count T : ℚ) *
        (Kfactor * (((if T ∈ s.teamlist then 0 else (s.teams T).grate) +
          residual pw s.teams T s.gamelist) / (played (s.teams T) : ℚ))) := by
  show (updateRatings (expectGames pw (zeroGrates s.teams s.teamlist, 0) s.gamelist).1
    s.teamlist T).rating = _
  have hz : ∀ U, (zeroGrates s.teams s.teamlist U).rating = (s.teams U).rating := by
    intro U
    rw [zeroGrates_apply]
    split <;> rfl
  have hc : ∀ x : Game, expectedRatio pw (zeroGrates s.teams s.teamlist) x =
      expectedRatio pw s.teams x := fun x => expectedRatio_congr pw _ _ x hz
  obtain ⟨f1, f2, f3, _⟩ :=
    (expectGames_frame pw s.teams s.gamelist (zeroGrates s.teams s.teamlist, 0)
      (zeroGrates_frame s.teamlist s.teams s.teams (SolverFrame.refl _))).fields T
  rw [updateRatings_rating, expectGames_rating, expectGames_grate, f1, f2, f3]
  simp only [hc, residual_sum, hz, played]
  congr 5
  rw [zeroGrates_apply]
  split <;> rfl

/-- C18: in a state whose team list is duplicate-free, one iteration of the
solver sets the rating of a team `T` of the list with `won + lost + tied > 0` to
its old rating plus `10 * g(T) / (won + lost + tied)`, where `g(T)` is the sum of
`ratio - v_expected` over the games `T` visits minus that sum over the games `T`
hosts, with every `v_expected` taken for the ratings at the start of the
iteration; `grate` as left by the previous iteration plays no part.  In
division-free form, `(won + lost + tied) * (new rating - old rating) = 10 * g(T)`. -/
theorem solverPass_update (pw : ℚ → ℚ → ℚ) (sq : ℚ → ℚ) (s : State) (v : SolverVars) (T : Nat)
    (hn : s.teamlist.Nodup) (hT : T ∈ s.teamlist) (hp : played (s.teams T) > 0) :
    ((solverPass pw sq s v).1.teams T).rating =
      (s.teams T).rating +
        10 * residual pw s.teams T s.gamelist /
          (((s.teams T).won + (s.teams T).lost + (s.teams T).tied : Int) : ℚ) ∧
    (((s.teams T).won + (s.teams T).lost + (s.teams T).tied : Int) : ℚ) *
        (((solverPass pw sq s v).1.teams T).rating - (s.teams T).rating) =
      10 * residual pw s.teams T s.gamelist := by
  have hc : s.teamlist.count T = 1 := List.count_eq_one_of_mem hn hT
  have hne : (((s.teams T).won + (s.teams T).lost + (s.teams T).tied : Int) : ℚ) ≠ 0 := by
    have : ((s.teams T).won + (s.teams T).lost + (s.teams T).tied : Int) ≠ 0 := ne_of_gt hp
    exact_mod_cast this
  have key := solverPass_rating pw sq s v T
  rw [hc, if_pos hT] at key
  simp only [played, Kfactor, Nat.cast_one, one_mul, zero_add] at key
  constructor
  · rw [key]
    ring
  · rw [key]
    generalize (((s.teams T).won + (s.teams T).lost + (s.teams T).tied : Int) : ℚ) = n at hne
    field_simp
    ring

/-- Witness of C18: the one-game season after `calcRatio`, visiting team. -/
theorem solverPass_update_witness :
    ((solverPass (fun _ _ => 1) (fun x => x) (calcRatio oneGameState) solverInit).1.teams 0).rating =
      ((calcRatio oneGameState).teams 0).rating +
        10 * residual (fun _ _ => 1) (calcRatio oneGameState).teams 0
            (calcRatio oneGameState).gamelist /
          ((((calcRatio oneGameState).teams 0).won + ((calcRatio oneGameState).teams 0).lost +
            ((calcRatio oneGameState).teams 0).tied : Int) : ℚ) :=
  (solverPass_update (fun _ _ => 1) (fun x => x) (calcRatio oneGameState) solverInit 0
    (by decide) (by decide) (by decide)).1

/-! ### calcRating: seasons in which the ratings do not move -/

/-- The `ratio` of a game depends on its two scores only. -/
theorem gameRatio_scores (g g2 : Game) (h1 : g.vscore = g2.vscore) (h2 : g.hscore = g2.hscore) :
    gameRatio g = gameRatio g2 := by
  unfold gameRatio
  rw [h1, h2]

/-- The `ratio` of a game with equal scores is 1/2. -/
theorem gameRatio_tie (g : Game) (h : g.vscore = g.hscore) : gameRatio g = 1 / 2 := by
  have key := gameRatio_mirror g g h h.symm
  linarith

/-- When all ratings are 50 every expected ratio is 1/2. -/
theorem expectedRatio_even (pw : ℚ → ℚ → ℚ) (hp0 : pw 10 0 = 1) (h : Heap)
    (hr : ∀ U, (h U).rating = 50) (g : Game) : expectedRatio pw h g = 1 / 2 := by
  unfold expectedRatio
  rw [hr, hr]
  norm_num [hp0]

theorem residual_even (pw : ℚ → ℚ → ℚ) (hp0 : pw 10 0 = 1) (h : Heap)
    (hr : ∀ U, (h U).rating = 50) (T : Nat) (gs : List Game) :
    residual pw h T gs = evenResidual T gs := by
  unfold residual evenResidual
  simp only [expectedRatio_even pw hp0 h hr]

/-- One iteration from ratings that are all 50, in a state where the residual
sum at expected ratio 1/2 vanishes for every team of the list, leaves all
ratings at 50. -/
theorem solverPass_even (pw : ℚ → ℚ → ℚ) (sq : ℚ → ℚ) (hp0 : pw 10 0 = 1) (s : State)
    (v : SolverVars) (hr : ∀ U, (s.teams U).rating = 50)
    (hb : ∀ T ∈ s.teamlist, evenResidual T s.gamelist = 0) :
    ∀ U, ((solverPass pw sq s v).1.teams U).rating = 50 := by
  intro U
  rw [solverPass_rating, hr U]
  by_cases hU : U ∈ s.teamlist
  · rw [if_pos hU, residual_even pw hp0 s.teams hr, hb U hU]
    simp
  · rw [List.count_eq_zero_of_not_mem hU]
    simp

theorem solverPasses_even (pw : ℚ → ℚ → ℚ) (sq : ℚ → ℚ) (hp0 : pw 10 0 = 1) (k : Nat) :
    ∀ (s : State) (v : SolverVars), (∀ U, (s.teams U).rating = 50) →
      (∀ T ∈ s.teamlist, evenResidual T s.gamelist = 0) →
      ∀ U, ((solverPasses pw sq k s v).1.teams U).rating = 50 := by
  induction k with
  | zero => intro s v hr _; exact hr
  | succ k ih =>
    intro s v hr hb
    exact ih _ _ (solverPass_even pw sq hp0 s v hr hb) hb

/-- The loop of `calcRating` runs its body some number of times, not more than
its bound. -/
theorem solverLoop_passes (pw : ℚ → ℚ → ℚ) (sq : ℚ → ℚ) (n : Nat) :
    ∀ (s : State) (v : SolverVars),
      ∃ k, k ≤ n ∧ solverLoop pw sq n s v = solverPasses pw sq k s v := by
  induction n with
  | zero => intro s v; exact ⟨0, le_refl _, rfl⟩
  | succ n ih =>
    intro s v
    unfold solverLoop
    split
    · obtain ⟨k, hk, e⟩ := ih (solverPass pw sq s v).1 (solverPass pw sq s v).2
      exact ⟨k + 1, Nat.succ_le_succ hk, e⟩
    · exact ⟨0, Nat.zero_le _, rfl⟩

theorem calcRating_even (pw : ℚ → ℚ → ℚ) (sq : ℚ → ℚ) (hp0 : pw 10 0 = 1) (s : State)
    (hr : ∀ U, (s.teams U).rating = 50)
    (hb : ∀ T ∈ s.teamlist, evenResidual T s.gamelist = 0) :
    ∀ U, ((calcRating pw sq s).teams U).rating = 50 := by
  obtain ⟨k, _, e⟩ := solverLoop_passes pw sq 25000 s solverInit
  intro U
  show ((solverLoop pw sq 25000 s solverInit).1.teams U).rating = 50
  rw [e]
  exact solverPasses_even pw sq hp0 k s solverInit hr hb U

/-- The ratings `calcRatio` leaves are the ratings it finds. -/
theorem calcRatio_rating (s : State) (U : Nat) :
    ((calcRatio s).teams U).rating = (s.teams U).rating :=
  (calcRatioTeams_keeps s.gamelist U s.teams).2.1

/-- C12: in a season in which every game has equal scores and all ratings start
at 50, `calcRatio` gives every game the ratio 1/2, and the ratings of all teams
are 50 after any number of iterations of the solver and when `calcRating`
returns (`pw`, the power function, gives `10^0 = 1`). -/
theorem tied_season_even (pw : ℚ → ℚ → ℚ) (sq : ℚ → ℚ) (hp0 : pw 10 0 = 1) (s0 : State)
    (ht : ∀ g ∈ s0.gamelist, g.vscore = g.hscore) (hr : ∀ U, (s0.teams U).rating = 50) :
    (∀ g ∈ (calcRatio s0).gamelist, g.ratio = 1 / 2) ∧
    (∀ (k : Nat) (v : SolverVars) (U : Nat),
      ((solverPasses pw sq k (calcRatio s0) v).1.teams U).rating = 50) ∧
    (∀ U, ((calcRating pw sq (calcRatio s0)).teams U).rating = 50) := by
  have h1 : ∀ g ∈ (calcRatio s0).gamelist, g.ratio = 1 / 2 := by
    intro g hg
    obtain ⟨g0, hg0, rfl⟩ := List.mem_map.mp hg
    exact gameRatio_tie g0 (ht g0 hg0)
  have hr2 : ∀ U, ((calcRatio s0).teams U).rating = 50 := fun U =>
    (calcRatio_rating s0 U).trans (hr U)
  have hz : ∀ (p : Game → Bool), (((calcRatio s0).gamelist.filter p).map
      (fun g => g.ratio - 1 / 2)).sum = 0 := by
    intro p
    apply List.sum_eq_zero
    intro x hx
    obtain ⟨g, hg, rfl⟩ := List.mem_map.mp hx
    rw [h1 g (List.mem_of_mem_filter hg)]
    norm_num
  have hb : ∀ T ∈ (calcRatio s0).teamlist, evenResidual T (calcRatio s0).gamelist = 0 := by
    intro T _
    unfold evenResidual
    rw [hz, hz]
    norm_num
  exact ⟨h1, fun k v U => solverPasses_even pw sq hp0 k _ v hr2 hb U,
    calcRating_even pw sq hp0 _ hr2 hb⟩

/-- `readGames` on the line `YYYY-MM-DD A 10 B 10 1` gives `tieGameState`. -/
theorem tieGameState_read :
    (readGames [fileLine "YYYY-MM-DD A 10 B 10 1"]).map
        (fun s => (s.teamlist, s.gamelist, s.nteams)) =
      some (tieGameState.teamlist, tieGameState.gamelist, tieGameState.nteams) ∧
    (readGames [fileLine "YYYY-MM-DD A 10 B 10 1"]).map (fun s => [s.teams 0, s.teams 1]) =
      some [tieGameState.teams 0, tieGameState.teams 1] := by
  refine ⟨by decide, by decide⟩

/-- Witness of C12: the single game `A 10 B 10 1`. -/
theorem tied_season_even_witness :
    (∀ g ∈ (calcRatio tieGameState).gamelist, g.ratio = 1 / 2) ∧
    (∀ (k : Nat) (v : SolverVars) (U : Nat),
      ((solverPasses (fun _ _ => 1) (fun x => x) k (calcRatio tieGameState) v).1.teams U).rating =
        50) ∧
    (∀ U, ((calcRating (fun _ _ => 1) (fun x => x) (calcRatio tieGameState)).teams U).rating =
      50) :=
  tied_season_even (fun _ _ => 1) (fun x => x) rfl tieGameState (by decide)
    (fun U => by simp only [tieGameState]; split_ifs <;> rfl)

/-! ### calcSchedStrength: when all ratings are 50 -/

theorem sched_sum_even (h : Heap) (hr : ∀ U, (h U).rating = 50) (T : Nat) (gs : List Game) :
    (gs.map (fun g => (if T = g.visitor then (h g.home).rating else 0) +
        (if T = g.home then (h g.visitor).rating else 0))).sum =
      50 * (((gs.countP (fun g => decide (g.visitor = T)) : Int) +
        (gs.countP (fun g => decide (g.home = T)) : Int) : Int) : ℚ) := by
  induction gs with
  | nil => simp
  | cons g gs ih =>
    obtain ⟨v, hm, vs, sc, loc, r⟩ := g
    rw [List.map_cons, List.sum_cons, ih]
    simp only [hr, List.countP_cons]
    rcases eq_or_ne T v with rfl | hv <;> rcases eq_or_ne T hm with rfl | hh
    · simp
      ring
    · have hh2 : ¬ hm = T := fun e => hh e.symm
      simp [hh, hh2]
      ring
    · have hv2 : ¬ v = T := fun e => hv e.symm
      simp [hv, hv2]
      ring
    · have hv2 : ¬ v = T := fun e => hv e.symm
      have hh2 : ¬ hm = T := fun e => hh e.symm
      simp [hv, hv2, hh, hh2]

theorem countP_sides_pos (T : Nat) (gs : List Game)
    (hg : ∃ g ∈ gs, g.visitor = T ∨ g.home = T) :
    0 < (gs.countP (fun g => decide (g.visitor = T)) : Int) +
      (gs.countP (fun g => decide (g.home = T)) : Int) := by
  obtain ⟨g, hmem, hor⟩ := hg
  rcases hor with h | h
  · have : 0 < gs.countP (fun g => decide (g.visitor = T)) :=
      List.countP_pos_iff.mpr ⟨g, hmem, by simpa using h⟩
    omega
  · have : 0 < gs.countP (fun g => decide (g.home = T)) :=
      List.countP_pos_iff.mpr ⟨g, hmem, by simpa using h⟩
    omega

/-- With all ratings at 50, `calcSchedStrength` leaves the schedule value 50 in
the record of a team that plays a game, when that value started at 0 and the
record's `won + lost + tied` counts the sides the team is on. -/
theorem calcSchedStrength_even (s : State) (T : Nat) (hn : s.teamlist.Nodup)
    (hT : T ∈ s.teamlist) (hr : ∀ U, (s.teams U).rating = 50) (hs : (s.teams T).sched = 0)
    (hp : (s.teams T).won + (s.teams T).lost + (s.teams T).tied =
      (s.gamelist.countP (fun g => decide (g.visitor = T)) : Int) +
        (s.gamelist.countP (fun g => decide (g.home = T)) : Int))
    (hg : ∃ g ∈ s.gamelist, g.visitor = T ∨ g.home = T) :
    ((calcSchedStrength s).teams T).sched = 50 := by
  rw [(calcSchedStrength_sched s T hn hT).1, hs, sched_sum_even s.teams hr, hp, zero_add]
  have hpos := countP_sides_pos T s.gamelist hg
  have hne : ((((s.gamelist.countP (fun g => decide (g.visitor = T)) : Int) +
      (s.gamelist.countP (fun g => decide (g.home = T)) : Int) : Int)) : ℚ) ≠ 0 := by
    exact_mod_cast ne_of_gt hpos
  exact mul_div_cancel_right₀ _ hne

/-- After `calcRatio`, a solver that leaves all ratings at 50, and
`calcSchedStrength`, the schedule value of a team that plays a game is 50. -/
theorem pipeline_sched_even (pw : ℚ → ℚ → ℚ) (sq : ℚ → ℚ) (s0 : State) (T : Nat)
    (hn : s0.teamlist.Nodup) (hT : T ∈ s0.teamlist)
    (h0 : (s0.teams T).won = 0 ∧ (s0.teams T).lost = 0 ∧ (s0.teams T).tied = 0 ∧
      (s0.teams T).sched = 0)
    (hr : ∀ U, ((calcRating pw sq (calcRatio s0)).teams U).rating = 50)
    (hg : ∃ g ∈ s0.gamelist, g.visitor = T ∨ g.home = T) :
    ((calcSchedStrength (calcRating pw sq (calcRatio s0))).teams T).sched = 50 := by
  rw [pipeline_sched pw sq s0 T hn hT h0, sched_sum_even _ hr]
  have hpos := countP_sides_pos T s0.gamelist hg
  have hne : ((((s0.gamelist.countP (fun g => decide (g.visitor = T)) : Int) +
      (s0.gamelist.countP (fun g => decide (g.home = T)) : Int) : Int)) : ℚ) ≠ 0 := by
    exact_mod_cast ne_of_gt hpos
  exact mul_div_cancel_right₀ _ hne

/-! ### The two-team split -/

theorem splitSeason_rating (U : Nat) : ((calcRatio splitSeason).teams U).rating = 50 := by
  rw [calcRatio_rating]
  simp only [splitSeason]
  split_ifs <;> rfl

theorem splitSeason_residual :
    ∀ T ∈ (calcRatio splitSeason).teamlist, evenResidual T (calcRatio splitSeason).gamelist = 0 := by
  have e : gameRatio
      { visitor := 1, home := 0, vscore := 7, hscore := 14, location := 1, ratio := 0 } =
    gameRatio { visitor := 0, home := 1, vscore := 7, hscore := 14, location := 1, ratio := 0 } :=
    gameRatio_scores _ _ rfl rfl
  intro T hT
  have hT2 : T = 1 ∨ T = 0 := by simpa [calcRatio, splitSeason] using hT
  rcases hT2 with rfl | rfl <;>
    simp [evenResidual, calcRatio, splitSeason, List.filter_cons, e]

/-- C13: for the season in which `A` beats `B` 14-7 at home and `B` beats `A`
14-7 at home, both ratings starting at 50, the ratings of both teams (of every
record) are 50 after any number of iterations of the solver and when
`calcRating` returns, and `calcSchedStrength` then leaves both teams the same
schedule value, 50 (`pw`, the power function, gives `10^0 = 1`). -/
theorem split_season_even (pw : ℚ → ℚ → ℚ) (sq : ℚ → ℚ) (hp0 : pw 10 0 = 1) :
    (∀ (k : Nat) (v : SolverVars) (U : Nat),
      ((solverPasses pw sq k (calcRatio splitSeason) v).1.teams U).rating = 50) ∧
    (∀ U, ((calcRating pw sq (calcRatio splitSeason)).teams U).rating = 50) ∧
    ((calcSchedStrength (calcRating pw sq (calcRatio splitSeason))).teams 1).sched =
      ((calcSchedStrength (calcRating pw sq (calcRatio splitSeason))).teams 0).sched ∧
    ((calcSchedStrength (calcRating pw sq (calcRatio splitSeason))).teams 0).sched = 50 := by
  have hr := calcRating_even pw sq hp0 _ splitSeason_rating splitSeason_residual
  have s1 := pipeline_sched_even pw sq splitSeason 1 (by decide) (by decide) (by decide) hr
    ⟨_, List.mem_cons_self _ _, Or.inl rfl⟩
  have s0 := pipeline_sched_even pw sq splitSeason 0 (by decide) (by decide) (by decide) hr
    ⟨_, List.mem_cons_self _ _, Or.inr rfl⟩
  exact ⟨fun k v U => solverPasses_even pw sq hp0 k _ v splitSeason_rating splitSeason_residual U,
    hr, s1.trans s0.symm, s0⟩

/-- Witness of C13: a power function with `10^0 = 1`. -/
theorem split_season_even_witness :
    ((calcSchedStrength (calcRating (fun _ _ => 1) (fun x => x) (calcRatio splitSeason))).teams
        1).sched =
      ((calcSchedStrength (calcRating (fun _ _ => 1) (fun x => x) (calcRatio splitSeason))).teams
        0).sched :=
  (split_season_even (fun _ _ => 1) (fun x => x) rfl).2.2.1

/-! ### calcSchedStrength: ties in the sort -/

theorem splitSeason_sched (T : Nat) (hT : T ∈ [1, 0]) :
    ((calcSchedStrength (calcRatio splitSeason)).teams T).sched = 50 := by
  have hT2 : T = 1 ∨ T = 0 := by simpa using hT
  rcases hT2 with rfl | rfl
  · exact calcSchedStrength_even _ 1 (by decide) (by decide) splitSeason_rating (by decide)
      (by decide) ⟨_, List.mem_cons_self _ _, Or.inl rfl⟩
  · exact calcSchedStrength_even _ 0 (by decide) (by decide) splitSeason_rating (by decide)
      (by decide) ⟨_, List.mem_cons_self _ _, Or.inr rfl⟩

/-- Witness of C15 (as amended): in the two-team split (ratings at 50, where the
solver leaves them) `A` and `B` have equal schedule values and `A` stands before
`B` in the list before the sort, so `B` stands before `A` after it. -/
theorem calcSchedStrength_reverses_ties_witness :
    List.Sublist [0, 1] (calcSchedStrength (calcRatio splitSeason)).teamlist :=
  (calcSchedStrength_reverses_ties (calcRatio splitSeason)).2 1 0
    ((splitSeason_sched 1 (by decide)).trans (splitSeason_sched 0 (by decide)).symm)
    (List.Sublist.refl _)

/-- C15 as stated fails: in the two-team split (ratings at 50, where the solver
leaves them) the team list before the sort is `A`, `B` (addresses 1, 0), both
teams get the schedule value 50, and the sorted list is `B`, `A`. -/
theorem calcSchedStrength_not_stable :
    (calcRatio splitSeason).teamlist = [1, 0] ∧
    ((calcSchedStrength (calcRatio splitSeason)).teams 1).sched =
      ((calcSchedStrength (calcRatio splitSeason)).teams 0).sched ∧
    (calcSchedStrength (calcRatio splitSeason)).teamlist = [0, 1] := by
  have e1 := splitSeason_sched 1 (by decide)
  have e0 := splitSeason_sched 0 (by decide)
  refine ⟨rfl, e1.trans e0.symm, ?_⟩
  have k : ∀ T, (schedDivide (schedGames (calcRatio splitSeason).teams
      (calcRatio splitSeason).gamelist) (calcRatio splitSeason).teamlist T).sched =
      ((calcSchedStrength (calcRatio splitSeason)).teams T).sched := by
    intro T
    show _ = (placeLoop _ 0 none _ T).sched
    rw [(placeLoop_keeps _ T _ 0 none).1]
  have hsort : (calcSchedStrength (calcRatio splitSeason)).teamlist =
      sortTeams (fun t => (schedDivide (schedGames (calcRatio splitSeason).teams
        (calcRatio splitSeason).gamelist) (calcRatio splitSeason).teamlist t).sched) [1, 0] := rfl
  rw [hsort]
  simp [sortTeams, sortLoop, insertTeam, k, e1, e0]

/-! ### The three-team cycle -/

theorem evenResidual_sum (T : Nat) (gs : List Game) :
    evenResidual T gs = (gs.map (evenTerm T)).sum := by
  unfold evenResidual
  induction gs with
  | nil => simp
  | cons g gs ih =>
    rw [List.map_cons, List.sum_cons, ← ih]
    unfold evenTerm
    by_cases hv : g.visitor = T <;> by_cases hh : g.home = T <;>
      simp [List.filter_cons, hv, hh] <;> ring

theorem evenResidual_perm (T : Nat) (l1 l2 : List Game) (hp : l1.Perm l2) :
    evenResidual T l1 = evenResidual T l2 := by
  rw [evenResidual_sum, evenResidual_sum]
  exact (hp.map _).sum_eq

/-- What a game between `W` and `L` adds to the residual sum of `T` once
`calcRatio` has set its ratio: the same on whichever side `W` is. -/
theorem evenTerm_outcome (T : Nat) (g : Game) (W L : Nat) (w l : Int)
    (ho : Outcome g W L w l) :
    evenTerm T { g with ratio := gameRatio g } =
      (if W = T then scoreRatio w l - 1 / 2 else 0) -
        (if L = T then scoreRatio w l - 1 / 2 else 0) := by
  unfold evenTerm
  rcases ho with ⟨h1, h2, h3, h4⟩ | ⟨h1, h2, h3, h4⟩
  · have e : gameRatio g = scoreRatio w l := gameRatio_scores _ _ h3 h4
    simp only [h1, h2, e]
  · have e : gameRatio g + scoreRatio w l = 1 := gameRatio_mirror g _ h4.symm h3.symm
    have e2 : gameRatio g = 1 - scoreRatio w l := by linarith
    simp only [h1, h2, e2]
    by_cases hW : W = T <;> by_cases hL : L = T <;> simp only [hW, hL, if_true, if_false] <;> ring

theorem cycle_residual (s0 : State) (A B C : Nat) (w l : Int) (g1 g2 g3 : Game)
    (h1 : Outcome g1 A B w l) (h2 : Outcome g2 B C w l) (h3 : Outcome g3 C A w l)
    (hg : s0.gamelist.Perm [g1, g2, g3]) (T : Nat) :
    evenResidual T (calcRatio s0).gamelist = 0 := by
  have hp : (calcRatio s0).gamelist.Perm
      ([g1, g2, g3].map (fun g => { g with ratio := gameRatio g })) := hg.map _
  rw [evenResidual_perm T _ _ hp, evenResidual_sum]
  simp only [List.map_cons, List.map_nil, List.sum_cons, List.sum_nil,
    evenTerm_outcome T g1 A B w l h1, evenTerm_outcome T g2 B C w l h2,
    evenTerm_outcome T g3 C A w l h3]
  ring

/-- C14 (as amended): for three teams `A`, `B`, `C` and a season of three games
in which `A` beats `B`, `B` beats `C` and `C` beats `A`, all with the same
winner's score `w` and the same loser's score `l` (on whichever side each team
is listed, at any location), starting from ratings 50 the ratings of all teams
are 50 after any number of iterations of the solver and when `calcRating`
returns, and `calcSchedStrength` then leaves the three teams the same schedule
value (`pw`, the power function, gives `10^0 = 1`; the team list is
duplicate-free and holds the three teams, with tallies and schedule values at
zero).  Neither that the teams are distinct nor that `w` exceeds `l` is needed,
so the statement covers these cases among others. -/
theorem cycle_season_even (pw : ℚ → ℚ → ℚ) (sq : ℚ → ℚ) (hp0 : pw 10 0 = 1) (s0 : State)
    (A B C : Nat) (w l : Int) (g1 g2 g3 : Game)
    (h1 : Outcome g1 A B w l) (h2 : Outcome g2 B C w l) (h3 : Outcome g3 C A w l)
    (hg : s0.gamelist.Perm [g1, g2, g3]) (hr : ∀ U, (s0.teams U).rating = 50)
    (hn : s0.teamlist.Nodup)
    (hT : ∀ T ∈ [A, B, C], T ∈ s0.teamlist ∧ (s0.teams T).won = 0 ∧ (s0.teams T).lost = 0 ∧
      (s0.teams T).tied = 0 ∧ (s0.teams T).sched = 0) :
    (∀ (k : Nat) (v : SolverVars) (U : Nat),
      ((solverPasses pw sq k (calcRatio s0) v).1.teams U).rating = 50) ∧
    (∀ U, ((calcRating pw sq (calcRatio s0)).teams U).rating = 50) ∧
    ((calcSchedStrength (calcRating pw sq (calcRatio s0))).teams A).sched =
      ((calcSchedStrength (calcRating pw sq (calcRatio s0))).teams B).sched ∧
    ((calcSchedStrength (calcRating pw sq (calcRatio s0))).teams B).sched =
      ((calcSchedStrength (calcRating pw sq (calcRatio s0))).teams C).sched := by
  have hr2 : ∀ U, ((calcRatio s0).teams U).rating = 50 := fun U =>
    (calcRatio_rating s0 U).trans (hr U)
  have hb : ∀ T ∈ (calcRatio s0).teamlist, evenResidual T (calcRatio s0).gamelist = 0 :=
    fun T _ => cycle_residual s0 A B C w l g1 g2 g3 h1 h2 h3 hg T
  have hfin := calcRating_even pw sq hp0 _ hr2 hb
  have m1 : g1 ∈ s0.gamelist := hg.symm.subset (by simp)
  have m2 : g2 ∈ s0.gamelist := hg.symm.subset (by simp)
  have m3 : g3 ∈ s0.gamelist := hg.symm.subset (by simp)
  have side : ∀ (g : Game) (W L : Nat), Outcome g W L w l → g.visitor = W ∨ g.home = W := by
    intro g W L ho
    rcases ho with ⟨a, _⟩ | ⟨_, a, _⟩
    · exact Or.inl a
    · exact Or.inr a
  obtain ⟨tA, zA⟩ := hT A (by simp)
  obtain ⟨tB, zB⟩ := hT B (by simp)
  obtain ⟨tC, zC⟩ := hT C (by simp)
  have sA := pipeline_sched_even pw sq s0 A hn tA zA hfin ⟨g1, m1, side g1 A B h1⟩
  have sB := pipeline_sched_even pw sq s0 B hn tB zB hfin ⟨g2, m2, side g2 B C h2⟩
  have sC := pipeline_sched_even pw sq s0 C hn tC zC hfin ⟨g3, m3, side g3 C A h3⟩
  exact ⟨fun k v U => solverPasses_even pw sq hp0 k _ v hr2 hb U, hfin, sA.trans sB.symm,
    sB.trans sC.symm⟩

/-- Witness of C14 (as amended): the cycle `A 20 B 10`, `B 20 C 10`, `C 20 A 10`. -/
theorem cycle_season_even_witness :
    (∀ U, ((calcRating (fun _ _ => 1) (fun x => x) (calcRatio cycleSeason)).teams U).rating = 50) ∧
    ((calcSchedStrength (calcRating (fun _ _ => 1) (fun x => x) (calcRatio cycleSeason))).teams
        0).sched =
      ((calcSchedStrength (calcRating (fun _ _ => 1) (fun x => x) (calcRatio cycleSeason))).teams
        1).sched ∧
    ((calcSchedStrength (calcRating (fun _ _ => 1) (fun x => x) (calcRatio cycleSeason))).teams
        1).sched =
      ((calcSchedStrength (calcRating (fun _ _ => 1) (fun x => x) (calcRatio cycleSeason))).teams
        2).sched :=
  (cycle_season_even (fun _ _ => 1) (fun x => x) rfl cycleSeason 0 1 2 20 10
    { visitor := 0, home := 1, vscore := 20, hscore := 10, location := 0, ratio := 0 }
    { visitor := 1, home := 2, vscore := 20, hscore := 10, location := 0, ratio := 0 }
    { visitor := 2, home := 0, vscore := 20, hscore := 10, location := 0, ratio := 0 }
    (Or.inl ⟨rfl, rfl, rfl, rfl⟩) (Or.inl ⟨rfl, rfl, rfl, rfl⟩) (Or.inl ⟨rfl, rfl, rfl, rfl⟩)
    (by decide) (fun U => by simp only [cycleSeason]; split_ifs <;> rfl) (by decide)
    (by decide)).2

/-- `readGames` on `marginLines` gives `marginSeason`. -/
theorem marginSeason_read :
    (readGames marginLines).map (fun s => (s.teamlist, s.gamelist, s.nteams)) =
      some (marginSeason.teamlist, marginSeason.gamelist, marginSeason.nteams) ∧
    (readGames marginLines).map (fun s => [s.teams 0, s.teams 1, s.teams 2]) =
      some [marginSeason.teams 0, marginSeason.teams 1, marginSeason.teams 2] := by
  refine ⟨by decide, by decide⟩

/-- In the cycle `A 20 B 10`, `B 30 C 20`, `C 10 A 0` the first iteration of the
solver, whatever the power and root functions are, moves the rating of `A` from
50 to `50 + 5 * (14801/16898 - 265/297)`, which is below 50. -/
theorem marginSeason_first_pass (pw : ℚ → ℚ → ℚ) (sq : ℚ → ℚ) :
    ((calcRatio marginSeason).teams 0).rating = 50 ∧
    ((solverPass pw sq (calcRatio marginSeason) solverInit).1.teams 0).rating =
      50 + 5 * (14801 / 16898 - 265 / 297) ∧
    ((solverPass pw sq (calcRatio marginSeason) solverInit).1.teams 0).rating < 50 := by
  have hrt : ∀ U, ((calcRatio marginSeason).teams U).rating = 50 := by
    intro U
    rw [calcRatio_rating]
    simp only [marginSeason]
    split_ifs <;> rfl
  have hpl : played ((calcRatio marginSeason).teams 0) = 2 := by decide
  have hgl : (calcRatio marginSeason).gamelist =
      [{ visitor := 2, home := 0, vscore := 10, hscore := 0, location := 0,
          ratio := scoreRatio 10 0 },
        { visitor := 1, home := 2, vscore := 30, hscore := 20, location := 0,
          ratio := scoreRatio 30 20 },
        { visitor := 0, home := 1, vscore := 20, hscore := 10, location := 0,
          ratio := scoreRatio 20 10 }] := rfl
  have hres : residual pw (calcRatio marginSeason).teams 0 (calcRatio marginSeason).gamelist =
      scoreRatio 20 10 - scoreRatio 10 0 := by
    unfold residual
    simp only [expectedRatio, hrt, hgl]
    simp [List.filter_cons]
  have r1 : scoreRatio 20 10 = 14801 / 16898 := by
    norm_num [scoreRatio, gameRatio, adjPoints]
  have r2 : scoreRatio 10 0 = 265 / 297 := by
    norm_num [scoreRatio, gameRatio, adjPoints]
  have key : ((solverPass pw sq (calcRatio marginSeason) solverInit).1.teams 0).rating =
      50 + 5 * (14801 / 16898 - 265 / 297) := by
    rw [solverPass_rating, hres, hpl, hrt, r1, r2]
    have hc : (calcRatio marginSeason).teamlist = [0, 1, 2] := rfl
    rw [hc]
    norm_num [Kfactor]
  refine ⟨hrt 0, key, ?_⟩
  rw [key]
  norm_num

/-- C14 as stated fails: in the cycle `A 20 B 10`, `B 30 C 20`, `C 10 A 0` on
neutral sites every game is won by 10 points, and the first iteration of the
solver moves the rating of `A` from 50 to `50 + 5 * (14801/16898 - 265/297)`,
which is below 50: the ratio of a game is computed from the two scores, not
from their difference.  The power function, which enters the ratings of this
iteration only as `pow(10, 0)`, is taken to give 1; by `marginSeason_first_pass`
the result is the same for any other. -/
theorem cycle_margin_uneven :
    ((calcRatio marginSeason).teams 0).rating = 50 ∧
    ((solverPass (fun _ _ => 1) (fun x => x) (calcRatio marginSeason) solverInit).1.teams
      0).rating = 50 + 5 * (14801 / 16898 - 265 / 297) ∧
    ((solverPass (fun _ _ => 1) (fun x => x) (calcRatio marginSeason) solverInit).1.teams
      0).rating < 50 :=
  marginSeason_first_pass (fun _ _ => 1) (fun x => x)

/-! ### strcmp on the names -/

theorem strcmp_self (a : List Char) : strcmp a a = 0 := by
  induction a with
  | nil => rfl
  | cons x xs ih => simp [strcmp, ih]

theorem char_eq_of_toNat (x y : Char) (h : x.toNat = y.toNat) : x = y := by
  rw [← Char.ofNat_toNat x, ← Char.ofNat_toNat y, h]

theorem strcmp_eq_zero (a : List Char) : ∀ b, strcmp a b = 0 → a = b := by
  induction a with
  | nil =>
    intro b h
    cases b with
    | nil => rfl
    | cons y ys => simp [strcmp] at h
  | cons x xs ih =>
    intro b h
    cases b with
    | nil => simp [strcmp] at h
    | cons y ys =>
      unfold strcmp at h
      by_cases hxy : x = y
      · rw [if_pos hxy] at h
        rw [hxy, ih ys h]
      · rw [if_neg hxy] at h
        exact absurd (char_eq_of_toNat x y (by omega)) hxy

theorem strcmp_swap (a : List Char) : ∀ b, strcmp a b < 0 ↔ 0 < strcmp b a := by
  induction a with
  | nil =>
    intro b
    cases b with
    | nil => simp [strcmp]
    | cons y ys => simp [strcmp]
  | cons x xs ih =>
    intro b
    cases b with
    | nil => simp [strcmp]
    | cons y ys =>
      unfold strcmp
      by_cases hxy : x = y
      · have hyx : y = x := hxy.symm
        rw [if_pos hxy, if_pos hyx]
        exact ih ys
      · have hyx : ¬ y = x := fun e => hxy e.symm
        rw [if_neg hxy, if_neg hyx]
        omega

theorem strcmp_trans (a : List Char) :
    ∀ b c, strcmp a b < 0 → strcmp b c < 0 → strcmp a c < 0 := by
  induction a with
  | nil =>
    intro b c h1 h2
    cases b with
    | nil => simp [strcmp] at h1
    | cons y ys =>
      cases c with
      | nil => simp [strcmp] at h2
      | cons z zs => simp [strcmp]
  | cons x xs ih =>
    intro b c h1 h2
    cases b with
    | nil => simp [strcmp] at h1
    | cons y ys =>
      cases c with
      | nil => simp [strcmp] at h2
      | cons z zs =>
        unfold strcmp at h1 h2 ⊢
        by_cases hxy : x = y
        · subst hxy
          rw [if_pos rfl] at h1
          by_cases hxz : x = z
          · subst hxz
            rw [if_pos rfl] at h2 ⊢
            exact ih ys zs h1 h2
          · rw [if_neg hxz] at h2 ⊢
            exact h2
        · rw [if_neg hxy] at h1
          by_cases hyz : y = z
          · subst hyz
            rw [if_neg hxy]
            exact h1
          · rw [if_neg hyz] at h2
            have hxz : ¬ x = z := fun e => by subst e; omega
            rw [if_neg hxz]
            omega

/-! ### lookup_team and new_team on a sorted list -/

theorem insertName_mem (name m : List Char) (l : List (List Char)) :
    m ∈ insertName name l ↔ m = name ∨ m ∈ l := by
  induction l with
  | nil => simp [insertName]
  | cons a rest ih =>
    unfold insertName
    split
    · simp only [List.mem_cons, ih]
      tauto
    · simp only [List.mem_cons]

theorem insertName_sorted (name : List Char) (l : List (List Char))
    (hs : l.Pairwise (fun a b => strcmp a b < 0)) (hn : name ∉ l) :
    (insertName name l).Pairwise (fun a b => strcmp a b < 0) := by
  induction l with
  | nil => exact List.pairwise_singleton _ _
  | cons a rest ih =>
    rw [List.pairwise_cons] at hs
    have hne : a ≠ name := fun e => hn (e ▸ List.mem_cons_self _ _)
    have hn2 : name ∉ rest := fun e => hn (List.mem_cons_of_mem _ e)
    unfold insertName
    split
    · rename_i hlt
      rw [List.pairwise_cons]
      refine ⟨fun b hb => ?_, ih hs.2 hn2⟩
      rcases (insertName_mem name b rest).mp hb with rfl | hin
      · exact hlt
      · exact hs.1 b hin
    · rename_i hge
      have hpos : 0 < strcmp a name := by
        rcases lt_trichotomy (strcmp a name) 0 with h | h | h
        · exact absurd h hge
        · exact absurd (strcmp_eq_zero a name h) hne
        · exact h
      have hlt : strcmp name a < 0 := (strcmp_swap name a).mpr hpos
      rw [List.pairwise_cons, List.pairwise_cons]
      refine ⟨fun b hb => ?_, hs⟩
      rcases List.mem_cons.mp hb with rfl | hin
      · exact hlt
      · exact strcmp_trans name a b hlt (hs.1 b hin)

theorem linkTeam_perm (h : Heap) (name : List Char) (new : Nat) (L : List Nat) :
    (linkTeam h name new L).Perm (new :: L) := by
  induction L with
  | nil => exact List.Perm.refl _
  | cons t rest ih =>
    unfold linkTeam
    split
    · exact (List.Perm.cons t ih).trans (List.Perm.swap new t rest)
    · exact List.Perm.refl _

/-- The names of the list `new_team` builds, read in a heap that holds the new
record and has kept the names of the old ones. -/
theorem linkTeam_names (h h2 : Heap) (name : List Char) (new : Nat) (L : List Nat)
    (hnew : (h2 new).name = name) (hold : ∀ t ∈ L, (h2 t).name = (h t).name) :
    (linkTeam h name new L).map (fun t => (h2 t).name) =
      insertName name (L.map (fun t => (h t).name)) := by
  induction L with
  | nil => simp [linkTeam, insertName, hnew]
  | cons t rest ih =>
    have ht : (h2 t).name = (h t).name := hold t (List.mem_cons_self _ _)
    have ih2 := ih (fun u hu => hold u (List.mem_cons_of_mem _ hu))
    unfold linkTeam
    simp only [List.map_cons, insertName]
    split
    · simp only [List.map_cons, ih2, ht]
    · have hr : rest.map (fun t => (h2 t).name) = rest.map (fun t => (h t).name) :=
        List.map_congr_left (fun u hu => hold u (List.mem_cons_of_mem _ hu))
      simp only [List.map_cons, hnew, ht, hr]

/-- A hit of `lookup_team` is a team of the list with the name asked for. -/
theorem lookup_team_some (h : Heap) (name : List Char) (L : List Nat) (t : Nat)
    (hl : lookup_team h name L = some t) : t ∈ L ∧ (h t).name = name := by
  induction L with
  | nil => simp [lookup_team] at hl
  | cons u rest ih =>
    unfold lookup_team at hl
    split at hl
    · split at hl
      · rename_i _ h0
        have : u = t := by simpa using hl
        subst this
        exact ⟨List.mem_cons_self _ _, strcmp_eq_zero _ _ h0⟩
      · obtain ⟨a, b⟩ := ih hl
        exact ⟨List.mem_cons_of_mem _ a, b⟩
    · cases hl

/-- On a list whose names ascend strictly, a miss of `lookup_team` means that no
team of the list has the name asked for. -/
theorem lookup_team_none (h : Heap) (name : List Char) (L : List Nat)
    (hs : (L.map (fun t => (h t).name)).Pairwise (fun a b => strcmp a b < 0))
    (hl : lookup_team h name L = none) : name ∉ L.map (fun t => (h t).name) := by
  induction L with
  | nil => simp
  | cons u rest ih =>
    rw [List.map_cons, List.pairwise_cons] at hs
    unfold lookup_team at hl
    intro hmem
    rw [List.map_cons, List.mem_cons] at hmem
    split at hl
    · split at hl
      · cases hl
      · rename_i _ h0
        rcases hmem with e | hin
        · exact h0 (by rw [← e]; exact strcmp_self _)
        · exact ih hs.2 hl hin
    · rename_i hgt
      rcases hmem with e | hin
      · exact hgt (by rw [← e, strcmp_self])
      · have := hs.1 name hin
        exact hgt (le_of_lt this)

/-! ### The lookup-or-create step -/

theorem emptyState_ok : RegistryOk emptyState := by
  unfold RegistryOk
  exact ⟨fun t ht => (List.not_mem_nil t ht).elim, List.Pairwise.nil, fun _ => rfl⟩

/-- The lookup-or-create step keeps the registry in order, returns a team of
the list with the name asked for, adds that name to the names of the list and
no other, keeps the teams that were on the list, adds no team but the one
returned, and leaves the game list alone. -/
theorem findTeam_ok (s : State) (name : List Char) (hok : RegistryOk s) :
    RegistryOk (findTeam s name).1 ∧
    (findTeam s name).2 ∈ (findTeam s name).1.teamlist ∧
    ((findTeam s name).1.teams (findTeam s name).2).name = name ∧
    (∀ m, m ∈ teamNames (findTeam s name).1 ↔ m = name ∨ m ∈ teamNames s) ∧
    (∀ t ∈ s.teamlist, t ∈ (findTeam s name).1.teamlist) ∧
    (∀ t ∈ (findTeam s name).1.teamlist, t ∈ s.teamlist ∨ t = (findTeam s name).2) ∧
    (findTeam s name).1.gamelist = s.gamelist := by
  obtain ⟨hb, hs, hf⟩ := hok
  cases hlk : lookup_team s.teams name s.teamlist with
  | some t =>
    have e : findTeam s name = (s, t) := by
      unfold findTeam
      rw [hlk]
    obtain ⟨h1, h2⟩ := lookup_team_some _ _ _ _ hlk
    rw [e]
    refine ⟨⟨hb, hs, hf⟩, h1, h2, fun m => ?_, fun t ht => ht, fun t ht => Or.inl ht, rfl⟩
    constructor
    · intro hm
      exact Or.inr hm
    · rintro (rfl | hm)
      · exact List.mem_map.mpr ⟨t, h1, h2⟩
      · exact hm
  | none =>
    have e : findTeam s name = new_team s name := by
      unfold findTeam
      rw [hlk]
    have hnot : name ∉ teamNames s := lookup_team_none _ _ _ hs hlk
    have hnew : (NflRatings.modify s.teams s.nteams (fun _ => freshTeam name) s.nteams).name =
        name := by
      simp [NflRatings.modify, freshTeam]
    have hold : ∀ t ∈ s.teamlist,
        (NflRatings.modify s.teams s.nteams (fun _ => freshTeam name) t).name =
          (s.teams t).name := by
      intro t ht
      have : t ≠ s.nteams := ne_of_lt (hb t ht)
      simp [NflRatings.modify, this]
    have hnames : teamNames (new_team s name).1 = insertName name (teamNames s) :=
      linkTeam_names s.teams _ name s.nteams s.teamlist hnew hold
    have hperm := linkTeam_perm s.teams name s.nteams s.teamlist
    rw [e]
    refine ⟨⟨fun t ht => ?_, ?_, fun U => ?_⟩, ?_, hnew, fun m => ?_, fun t ht => ?_,
      fun t ht => ?_, rfl⟩
    · rcases List.mem_cons.mp (hperm.subset ht) with rfl | hin
      · exact Nat.lt_succ_self _
      · exact Nat.lt_succ_of_lt (hb t hin)
    · rw [hnames]
      exact insertName_sorted name _ hs hnot
    · show NflRatings.modify s.teams s.nteams (fun _ => freshTeam name) U =
        freshTeam (NflRatings.modify s.teams s.nteams (fun _ => freshTeam name) U).name
      by_cases hU : U = s.nteams
      · simp [NflRatings.modify, hU, freshTeam]
      · simp only [NflRatings.modify, hU, if_false]
        exact hf U
    · exact hperm.symm.subset (List.mem_cons_self _ _)
    · rw [hnames]
      exact insertName_mem name m _
    · exact hperm.symm.subset (List.mem_cons_of_mem _ ht)
    · rcases List.mem_cons.mp (hperm.subset ht) with rfl | hin
      · exact Or.inr rfl
      · exact Or.inl hin

theorem foldl_findTeam_ok (names : List (List Char)) :
    ∀ s : State, RegistryOk s →
      RegistryOk (names.foldl (fun s name => (findTeam s name).1) s) ∧
      ∀ m, m ∈ teamNames (names.foldl (fun s name => (findTeam s name).1) s) ↔
        m ∈ teamNames s ∨ m ∈ names := by
  induction names with
  | nil => intro s hok; exact ⟨hok, fun m => by simp⟩
  | cons n rest ih =>
    intro s hok
    obtain ⟨h1, _, _, h4, _⟩ := findTeam_ok s n hok
    obtain ⟨i1, i2⟩ := ih _ h1
    refine ⟨i1, fun m => ?_⟩
    rw [List.foldl_cons, i2, h4, List.mem_cons]
    tauto

theorem registry_ok (names : List (List Char)) :
    RegistryOk (registry names) ∧ ∀ m, m ∈ teamNames (registry names) ↔ m ∈ names := by
  obtain ⟨a, b⟩ := foldl_findTeam_ok names emptyState emptyState_ok
  refine ⟨a, fun m => ?_⟩
  have := b m
  simpa [teamNames, emptyState] using this

theorem strcmp_irrefl (a : List Char) : ¬ strcmp a a < 0 := by
  rw [strcmp_self]
  exact lt_irrefl _

/-- A team list whose names ascend strictly has no name twice and no team
twice. -/
theorem RegistryOk.nodup {s : State} (hok : RegistryOk s) :
    (teamNames s).Nodup ∧ s.teamlist.Nodup := by
  have h1 : (teamNames s).Nodup := by
    unfold List.Nodup
    refine hok.2.1.imp ?_
    intro a b hab e
    rw [e] at hab
    exact strcmp_irrefl b hab
  exact ⟨h1, List.Nodup.of_map _ h1⟩

/-- C16: after the lookup-or-create step (`lookup_team`, then `new_team` on a
miss) has been run on any sequence of names from the empty state, the names of
the team list ascend strictly, they are the distinct names seen, each once (so
the list has one team per distinct name and no team twice), `lookup_team` on a
name that has been seen returns a team of the list with exactly that name, and
`lookup_team` on a name that has not been seen returns `NULL`. -/
theorem registry_spec (names : List (List Char)) :
    (teamNames (registry names)).Pairwise (fun a b => strcmp a b < 0) ∧
    (teamNames (registry names)).Perm names.dedup ∧
    (registry names).teamlist.Nodup ∧
    (∀ name, name ∈ names →
      ∃ t ∈ (registry names).teamlist,
        lookup_team (registry names).teams name (registry names).teamlist = some t ∧
          ((registry names).teams t).name = name) ∧
    (∀ name, name ∉ names →
      lookup_team (registry names).teams name (registry names).teamlist = none) := by
  obtain ⟨hok, hmem⟩ := registry_ok names
  obtain ⟨hnd, hnd2⟩ := hok.nodup
  refine ⟨hok.2.1, ?_, hnd2, fun name hn => ?_, fun name hn => ?_⟩
  · exact (List.perm_ext_iff_of_nodup hnd (List.nodup_dedup _)).mpr
      (fun a => by rw [hmem, List.mem_dedup])
  · cases hlk : lookup_team (registry names).teams name (registry names).teamlist with
    | none =>
      exact absurd ((hmem name).mpr hn) (lookup_team_none _ _ _ hok.2.1 hlk)
    | some t =>
      obtain ⟨a, b⟩ := lookup_team_some _ _ _ _ hlk
      exact ⟨t, a, rfl, b⟩
  · cases hlk : lookup_team (registry names).teams name (registry names).teamlist with
    | none => rfl
    | some t =>
      obtain ⟨a, b⟩ := lookup_team_some _ _ _ _ hlk
      exact absurd ((hmem name).mp (List.mem_map.mpr ⟨t, a, b⟩)) hn

/-- Witness of C16: the names `B`, `A`, `B`; `lookup_team` finds `A`. -/
theorem registry_spec_witness :
    ∃ t ∈ (registry [['B'], ['A'], ['B']]).teamlist,
      lookup_team (registry [['B'], ['A'], ['B']]).teams ['A']
          (registry [['B'], ['A'], ['B']]).teamlist = some t ∧
        ((registry [['B'], ['A'], ['B']]).teams t).name = ['A'] :=
  (registry_spec [['B'], ['A'], ['B']]).2.2.2.1 ['A'] (by decide)

/-! ### readGames: what the ingest keeps true -/

theorem readLines_ok (lines : List (List Char)) :
    ∀ s s2 : State, IngestOk s → readLines s lines = some s2 → IngestOk s2 := by
  induction lines with
  | nil =>
    intro s s2 hok hr
    have : s = s2 := by simpa [readLines] using hr
    rw [← this]
    exact hok
  | cons line rest ih =>
    intro s s2 hok hr
    unfold readLines at hr
    cases hp : parseLine line with
    | undefined =>
      rw [hp] at hr
      cases hr
    | skipped =>
      rw [hp] at hr
      exact ih s s2 hok hr
    | game g =>
      rw [hp] at hr
      refine ih _ s2 ?_ hr
      obtain ⟨hreg, hgames, hplay⟩ := hok
      obtain ⟨v1, v2, _, _, v5, v6, v7⟩ := findTeam_ok s g.vname hreg
      obtain ⟨h1, h2, _, _, h5, h6, h7⟩ := findTeam_ok (findTeam s g.vname).1 g.hname v1
      refine ⟨h1, fun x hx => ?_, fun T hT => ?_⟩
      · rcases List.mem_cons.mp hx with rfl | hin
        · exact ⟨h5 _ v2, h2⟩
        · rw [h7, v7] at hin
          obtain ⟨a, b⟩ := hgames x hin
          exact ⟨h5 _ (v5 _ a), h5 _ (v5 _ b)⟩
      · rcases h6 T hT with hT1 | rfl
        · rcases v6 T hT1 with hT0 | rfl
          · obtain ⟨x, hx, hor⟩ := hplay T hT0
            refine ⟨x, List.mem_cons_of_mem _ ?_, hor⟩
            rw [h7, v7]
            exact hx
          · exact ⟨_, List.mem_cons_self _ _, Or.inl rfl⟩
        · exact ⟨_, List.mem_cons_self _ _, Or.inr rfl⟩

/-- The state `readGames` returns satisfies the ingest invariant. -/
theorem readGames_ok (lines : List (List Char)) (s : State) (hr : readGames lines = some s) :
    IngestOk s :=
  readLines_ok lines emptyState s
    ⟨emptyState_ok, fun g hg => (List.not_mem_nil g hg).elim,
      fun T hT => (List.not_mem_nil T hT).elim⟩ hr

/-! ### calcRating: the games-weighted rating sum -/

theorem sum_single_rat (L : List Nat) (a : Nat) (x : ℚ) (hn : L.Nodup) (ha : a ∈ L) :
    (L.map (fun T => if T = a then x else 0)).sum = x := by
  induction L with
  | nil => cases ha
  | cons b L ih =>
    rw [List.nodup_cons] at hn
    rcases List.mem_cons.mp ha with rfl | hin
    · have hz : (L.map (fun T => if T = a then x else 0)).sum = 0 := by
        apply List.sum_eq_zero
        intro y hy
        obtain ⟨T, hT, rfl⟩ := List.mem_map.mp hy
        have : T ≠ a := fun e => hn.1 (e ▸ hT)
        simp [this]
      simp [hz]
    · have hb : b ≠ a := fun e => hn.1 (e ▸ hin)
      simp [hb, ih hn.2 hin]

theorem sum_map_add_teams (f k : Nat → ℚ) (L : List Nat) :
    (L.map (fun T => f T + k T)).sum = (L.map f).sum + (L.map k).sum := by
  induction L with
  | nil => simp
  | cons a L ih => simp [ih]; ring

/-- Over a duplicate-free team list that holds both teams of every game, the
residual sums of all teams add up to zero: every game gives its visitor what it
takes from its home team. -/
theorem residual_total (pw : ℚ → ℚ → ℚ) (h : Heap) (L : List Nat) (hn : L.Nodup)
    (gs : List Game) (hin : ∀ g ∈ gs, g.visitor ∈ L ∧ g.home ∈ L) :
    (L.map (fun T => residual pw h T gs)).sum = 0 := by
  simp only [← residual_sum]
  induction gs with
  | nil => simp
  | cons g gs ih =>
    obtain ⟨hv, hh⟩ := hin g (List.mem_cons_self _ _)
    have ih2 := ih (fun x hx => hin x (List.mem_cons_of_mem _ hx))
    simp only [List.map_cons, List.sum_cons]
    rw [sum_map_add_teams, ih2, sum_map_add_teams,
      sum_single_rat L g.visitor _ hn hv, sum_single_rat L g.home _ hn hh]
    ring

/-- The number of games, counted by the visiting team and by the home team. -/
theorem countP_total (L : List Nat) (hn : L.Nodup) (gs : List Game)
    (hin : ∀ g ∈ gs, g.visitor ∈ L ∧ g.home ∈ L) :
    (L.map (fun T => ((gs.countP (fun g => decide (g.visitor = T)) : Int) : ℚ))).sum =
      (gs.length : ℚ) ∧
    (L.map (fun T => ((gs.countP (fun g => decide (g.home = T)) : Int) : ℚ))).sum =
      (gs.length : ℚ) := by
  induction gs with
  | nil => simp
  | cons g gs ih =>
    obtain ⟨hv, hh⟩ := hin g (List.mem_cons_self _ _)
    obtain ⟨i1, i2⟩ := ih (fun x hx => hin x (List.mem_cons_of_mem _ hx))
    have e1 : ∀ T, (((g :: gs).countP (fun g => decide (g.visitor = T)) : Int) : ℚ) =
        ((gs.countP (fun g => decide (g.visitor = T)) : Int) : ℚ) +
          (if T = g.visitor then 1 else 0) := by
      intro T
      by_cases hT : T = g.visitor
      · subst hT
        simp [List.countP_cons]
      · have hT2 : ¬ g.visitor = T := fun e => hT e.symm
        simp [List.countP_cons, hT, hT2]
    have e2 : ∀ T, (((g :: gs).countP (fun g => decide (g.home = T)) : Int) : ℚ) =
        ((gs.countP (fun g => decide (g.home = T)) : Int) : ℚ) +
          (if T = g.home then 1 else 0) := by
      intro T
      by_cases hT : T = g.home
      · subst hT
        simp [List.countP_cons]
      · have hT2 : ¬ g.home = T := fun e => hT e.symm
        simp [List.countP_cons, hT, hT2]
    simp only [e1, e2]
    rw [sum_map_add_teams, sum_map_add_teams, i1, i2, sum_single_rat L g.visitor 1 hn hv,
      sum_single_rat L g.home 1 hn hh]
    simp

/-- The `grate` of any record after one iteration. -/
theorem solverPass_grate (pw : ℚ → ℚ → ℚ) (sq : ℚ → ℚ) (s : State) (v : SolverVars) (T : Nat) :
    ((solverPass pw sq s v).1.teams T).grate =
      (if T ∈ s.teamlist then 0 else (s.teams T).grate) + residual pw s.teams T s.gamelist := by
  show (updateRatings (expectGames pw (zeroGrates s.teams s.teamlist, 0) s.gamelist).1
    s.teamlist T).grate = _
  have hz : ∀ U, (zeroGrates s.teams s.teamlist U).rating = (s.teams U).rating := by
    intro U
    rw [zeroGrates_apply]
    split <;> rfl
  have hc : ∀ x : Game, expectedRatio pw (zeroGrates s.teams s.teamlist) x =
      expectedRatio pw s.teams x := fun x => expectedRatio_congr pw _ _ x hz
  rw [(updateRatings_keeps _ T _).1, expectGames_grate]
  simp only [hc, residual_sum]
  congr 1
  rw [zeroGrates_apply]
  split <;> rfl

/-- One iteration, in a state whose team list is duplicate-free, holds both
teams of every game, and has no team with `won + lost + tied = 0`, keeps the
games-weighted rating sum and leaves `grate` values that add up to zero. -/
theorem solverPass_weightedSum (pw : ℚ → ℚ → ℚ) (sq : ℚ → ℚ) (s : State) (v : SolverVars)
    (hn : s.teamlist.Nodup)
    (hin : ∀ g ∈ s.gamelist, g.visitor ∈ s.teamlist ∧ g.home ∈ s.teamlist)
    (hp : ∀ T ∈ s.teamlist, (s.teams T).won + (s.teams T).lost + (s.teams T).tied ≠ 0) :
    weightedSum (solverPass pw sq s v).1 = weightedSum s ∧
    grateSum (solverPass pw sq s v).1 = 0 := by
  have htot := residual_total pw s.teams s.teamlist hn s.gamelist hin
  constructor
  · have step : ∀ T ∈ s.teamlist,
        ((((solverPass pw sq s v).1.teams T).won + ((solverPass pw sq s v).1.teams T).lost +
          ((solverPass pw sq s v).1.teams T).tied : Int) : ℚ) *
            ((solverPass pw sq s v).1.teams T).rating =
          (((s.teams T).won + (s.teams T).lost + (s.teams T).tied : Int) : ℚ) *
            (s.teams T).rating + 10 * residual pw s.teams T s.gamelist := by
      intro T hT
      obtain ⟨f1, f2, f3, _⟩ :=
        (solverPass_frame pw sq s.teams s v (SolverFrame.refl _)).1.fields T
      have hne : (((s.teams T).won + (s.teams T).lost + (s.teams T).tied : Int) : ℚ) ≠ 0 := by
        exact_mod_cast hp T hT
      rw [f1, f2, f3, solverPass_rating, List.count_eq_one_of_mem hn hT, if_pos hT]
      simp only [played, Kfactor, Nat.cast_one, one_mul, zero_add]
      generalize (((s.teams T).won + (s.teams T).lost + (s.teams T).tied : Int) : ℚ) = n at hne
      field_simp
      ring
    show (s.teamlist.map _).sum = (s.teamlist.map _).sum
    rw [List.map_congr_left step, sum_map_add_teams]
    have h10 : (s.teamlist.map (fun T => 10 * residual pw s.teams T s.gamelist)).sum =
        10 * (s.teamlist.map (fun T => residual pw s.teams T s.gamelist)).sum := by
      rw [List.sum_map_mul_left]
    rw [h10, htot]
    simp
  · have step : ∀ T ∈ s.teamlist, ((solverPass pw sq s v).1.teams T).grate =
        residual pw s.teams T s.gamelist := by
      intro T hT
      rw [solverPass_grate, if_pos hT, zero_add]
    show (s.teamlist.map _).sum = 0
    rw [List.map_congr_left step, htot]

theorem solverPass_ready (pw : ℚ → ℚ → ℚ) (sq : ℚ → ℚ) (s : State) (v : SolverVars)
    (hs : SolverReady s) :
    SolverReady (solverPass pw sq s v).1 ∧
    totalPlayed (solverPass pw sq s v).1 = totalPlayed s := by
  obtain ⟨hn, hin, hp⟩ := hs
  have hf : ∀ T, ((solverPass pw sq s v).1.teams T).won + ((solverPass pw sq s v).1.teams T).lost +
      ((solverPass pw sq s v).1.teams T).tied =
      (s.teams T).won + (s.teams T).lost + (s.teams T).tied := by
    intro T
    obtain ⟨f1, f2, f3, _⟩ :=
      (solverPass_frame pw sq s.teams s v (SolverFrame.refl _)).1.fields T
    rw [f1, f2, f3]
  refine ⟨⟨hn, hin, fun T hT => ?_⟩, ?_⟩
  · rw [hf T]
    exact hp T hT
  · show (s.teamlist.map _).sum = (s.teamlist.map _).sum
    simp only [hf]

theorem solverPasses_succ (pw : ℚ → ℚ → ℚ) (sq : ℚ → ℚ) (k : Nat) :
    ∀ (s : State) (v : SolverVars),
      solverPasses pw sq (k + 1) s v =
        solverPass pw sq (solverPasses pw sq k s v).1 (solverPasses pw sq k s v).2 := by
  induction k with
  | zero => intro s v; rfl
  | succ k ih =>
    intro s v
    show solverPasses pw sq (k + 1) (solverPass pw sq s v).1 (solverPass pw sq s v).2 = _
    rw [ih]
    rfl

/-- Any number of iterations keeps the state ready, the games-weighted rating
sum, and the sum of `won + lost + tied`. -/
theorem solverPasses_weightedSum (pw : ℚ → ℚ → ℚ) (sq : ℚ → ℚ) (k : Nat) :
    ∀ (s : State) (v : SolverVars), SolverReady s →
      SolverReady (solverPasses pw sq k s v).1 ∧
      weightedSum (solverPasses pw sq k s v).1 = weightedSum s ∧
      totalPlayed (solverPasses pw sq k s v).1 = totalPlayed s := by
  induction k with
  | zero => intro s v hs; exact ⟨hs, rfl, rfl⟩
  | succ k ih =>
    intro s v hs
    obtain ⟨r1, r2⟩ := solverPass_ready pw sq s v hs
    obtain ⟨w1, _⟩ := solverPass_weightedSum pw sq s v hs.1 hs.2.1 hs.2.2
    obtain ⟨i1, i2, i3⟩ := ih (solverPass pw sq s v).1 (solverPass pw sq s v).2 r1
    exact ⟨i1, i2.trans w1, i3.trans r2⟩

/-- After the ingest and `calcRatio` the state is ready for the solver, the sum
of `won + lost + tied` over the teams is twice the number of games, and the
games-weighted rating sum is 100 times the number of games. -/
theorem calcRatio_ready (s0 : State) (hok : IngestOk s0) :
    SolverReady (calcRatio s0) ∧
    totalPlayed (calcRatio s0) = 2 * (s0.gamelist.length : ℚ) ∧
    weightedSum (calcRatio s0) = 100 * (s0.gamelist.length : ℚ) := by
  obtain ⟨hreg, hgames, hplay⟩ := hok
  have hn : s0.teamlist.Nodup := hreg.nodup.2
  have hfresh := hreg.2.2
  have hpl : ∀ T, ((calcRatio s0).teams T).won + ((calcRatio s0).teams T).lost +
      ((calcRatio s0).teams T).tied =
      (s0.gamelist.countP (fun g => decide (g.visitor = T)) : Int) +
        (s0.gamelist.countP (fun g => decide (g.home = T)) : Int) := by
    intro T
    have key := calcRatioTeams_played s0.teams s0.gamelist T
    have hz : played (s0.teams T) = 0 := by
      rw [hfresh T]
      rfl
    rw [hz, zero_add] at key
    exact key
  have hrt : ∀ T, ((calcRatio s0).teams T).rating = 50 := by
    intro T
    rw [calcRatio_rating, hfresh T]
    rfl
  obtain ⟨c1, c2⟩ := countP_total s0.teamlist hn s0.gamelist hgames
  have htp : totalPlayed (calcRatio s0) = 2 * (s0.gamelist.length : ℚ) := by
    show (s0.teamlist.map _).sum = _
    simp only [hpl]
    push_cast
    rw [sum_map_add_teams]
    push_cast at c1 c2
    rw [c1, c2]
    ring
  refine ⟨⟨hn, fun g hg => ?_, fun T hT => ?_⟩, htp, ?_⟩
  · obtain ⟨g0, hg0, rfl⟩ := List.mem_map.mp hg
    exact hgames g0 hg0
  · rw [hpl T]
    exact ne_of_gt (countP_sides_pos T s0.gamelist (hplay T hT))
  · have e : weightedSum (calcRatio s0) = totalPlayed (calcRatio s0) * 50 := by
      show (s0.teamlist.map _).sum = (s0.teamlist.map _).sum * 50
      simp only [hrt]
      rw [← List.sum_map_mul_right]
    rw [e, htp]
    ring

/-- C20: for the state `readGames` returns on any input file, after `calcRatio`
the sum over the teams of `(won + lost + tied) * rating` is 100 times the number
of games; it is still that after any number of iterations of the solver and
when `calcRating` returns, the `grate` values left by an iteration add up to
zero over the teams, and, the sum of `won + lost + tied` being twice the number
of games throughout, the games-weighted mean rating is 50 when there is a
game. -/
theorem solver_weighted_sum (pw : ℚ → ℚ → ℚ) (sq : ℚ → ℚ) (lines : List (List Char))
    (s0 : State) (hread : readGames lines = some s0) :
    weightedSum (calcRatio s0) = 100 * (s0.gamelist.length : ℚ) ∧
    (∀ (k : Nat) (v : SolverVars),
      weightedSum (solverPasses pw sq k (calcRatio s0) v).1 = 100 * (s0.gamelist.length : ℚ) ∧
      totalPlayed (solverPasses pw sq k (calcRatio s0) v).1 = 2 * (s0.gamelist.length : ℚ) ∧
      grateSum (solverPasses pw sq (k + 1) (calcRatio s0) v).1 = 0 ∧
      (s0.gamelist ≠ [] →
        weightedSum (solverPasses pw sq k (calcRatio s0) v).1 /
          totalPlayed (solverPasses pw sq k (calcRatio s0) v).1 = 50)) ∧
    weightedSum (calcRating pw sq (calcRatio s0)) = 100 * (s0.gamelist.length : ℚ) := by
  obtain ⟨hs, htp, hws⟩ := calcRatio_ready s0 (readGames_ok lines s0 hread)
  have hk : ∀ (k : Nat) (v : SolverVars),
      weightedSum (solverPasses pw sq k (calcRatio s0) v).1 = 100 * (s0.gamelist.length : ℚ) ∧
      totalPlayed (solverPasses pw sq k (calcRatio s0) v).1 = 2 * (s0.gamelist.length : ℚ) := by
    intro k v
    obtain ⟨_, a, b⟩ := solverPasses_weightedSum pw sq k (calcRatio s0) v hs
    exact ⟨a.trans hws, b.trans htp⟩
  refine ⟨hws, fun k v => ⟨(hk k v).1, (hk k v).2, ?_, fun hne => ?_⟩, ?_⟩
  · obtain ⟨r, _, _⟩ := solverPasses_weightedSum pw sq k (calcRatio s0) v hs
    rw [solverPasses_succ]
    exact (solverPass_weightedSum pw sq _ _ r.1 r.2.1 r.2.2).2
  · rw [(hk k v).1, (hk k v).2]
    have hlen : (s0.gamelist.length : ℚ) ≠ 0 := by
      have : s0.gamelist.length ≠ 0 := fun e => hne (List.length_eq_zero.mp e)
      exact_mod_cast this
    field_simp
    ring
  · obtain ⟨k, _, e⟩ := solverLoop_passes pw sq 25000 (calcRatio s0) solverInit
    show weightedSum (solverLoop pw sq 25000 (calcRatio s0) solverInit).1 = _
    rw [e]
    exact (hk k solverInit).1

/-- Witness of C20: the input file of the three-team cycle. -/
theorem solver_weighted_sum_witness :
    weightedSum (calcRating (fun _ _ => 1) (fun x => x)
        (calcRatio ((readGames cycleLines).get (by decide)))) =
      100 * (((readGames cycleLines).get (by decide)).gamelist.length : ℚ) :=
  (solver_weighted_sum (fun _ _ => 1) (fun x => x) cycleLines
    ((readGames cycleLines).get (by decide)) (Option.some_get _).symm).2.2

end NflRatings
